import Mathlib

/-!
# Process lifecycle and scheduling core of the CS330 xv6 kernel (`kernel/proc.c`)

A shallow embedding of `kernel/proc.c`.

* The process table `struct proc proc[NPROC]` is a `List proc`; a `struct proc *` is a
  slot index (`Option Nat`, `none` being the null pointer).
* C `int` values are `Int`.  Arithmetic is exact: the model describes the executions in
  which no signed overflow happens.  C division truncates toward zero (`Int.tdiv`).
* Spinlocks are not modelled: every operation is executed atomically on the state, as
  on a single core.  A process handing the processor over (`sched`, `swtch`) ends the
  modelled step; what has been written to the state up to that point is the result.
* The constants of `param.h` are parameters (`Param`).
* Collaborators outside `proc.c` (page allocator, address spaces, `copyout`) are given
  by their results (`Oracle`, `copyout`).
-/

namespace CS330

/-! ## Data model -/

/-- The `enum procstate` of a slot. -/
inductive procstate where
  | UNUSED
  | USED
  | SLEEPING
  | RUNNABLE
  | RUNNING
  | ZOMBIE
  deriving DecidableEq

/-- A kernel address used as a sleep token (`void *chan`): null, the address of a slot
of the process table, the address of the tick counter, or some other kernel object. -/
inductive Chan where
  | null
  | procAddr (slot : Nat)
  | ticksAddr
  | other (a : Nat)
  deriving DecidableEq

/-- The part of `struct trapframe` that `proc.c` writes. -/
structure trapframe where
  epc : Int
  sp : Int
  a0 : Int
  deriving DecidableEq

/-- One slot of the process table (`struct proc`). -/
structure proc where
  state : procstate
  chan : Chan
  killed : Int
  xstate : Int
  pid : Int
  parent : Option Nat
  sz : Int
  pagetable : Option Nat
  trapframe : Option trapframe
  ofile : List (Option Nat)
  cwd : Option Nat
  name : String
  priority : Int
  next_burst_len : Int
  batch_process : Int
  cpu_usage : Int
  prev_cpu_usage : Int
  wait_time : Int
  wait_st_time : Int
  prev_burst_start : Int
  ctime : Int
  stime : Int
  endtime : Int
  deriving DecidableEq

/-- The per-core descriptor (`struct cpu`): current process, policy and the batch
accumulators. -/
structure cpu where
  proc : Option Nat
  sched_policy : Int
  noff : Int
  intena : Int
  nump : Int
  comp : Int
  stime : Int
  tatime : Int
  wtime : Int
  ctime : Int
  max_ctime : Int
  min_ctime : Int
  nbursts : Int
  tblen : Int
  max_blen : Int
  min_blen : Int
  nebursts : Int
  teblen : Int
  max_belen : Int
  min_belen : Int
  ebursts : Int
  tebursts : Int
  deriving DecidableEq

/-- The constants of `param.h` that `proc.c` uses. -/
structure Param where
  SCHED_NPREEMPT_FCFS : Int
  SCHED_NPREEMPT_SJF : Int
  SCHED_PREEMPT_RR : Int
  SCHED_PREEMPT_UNIX : Int
  SCHED_PARAM_SJF_A_NUMER : Int
  SCHED_PARAM_SJF_A_DENOM : Int
  SCHED_PARAM_CPU_USAGE : Int
  deriving DecidableEq

/-- The global state of `proc.c` as seen from one core: the table `proc[NPROC]`, the
descriptor of the executing core (`mycpu()`), `initproc`, `nextpid` and `ticks`. -/
structure Kernel where
  proc : List proc
  cpu : cpu
  initproc : Option Nat
  nextpid : Int
  ticks : Int
  deriving DecidableEq

/-- A `struct proc *` converted to `void *`. -/
def toChan : Option Nat → Chan
  | none => Chan.null
  | some i => Chan.procAddr i

/-- Apply one loop body `f i` to every slot in slot order, for loop bodies that touch the
visited slot only: `for(p = proc; p < &proc[NPROC]; p++) body`. -/
def forSlots (f : Nat → proc → proc) : Nat → List proc → List proc
  | _, [] => []
  | i, p :: ps => f i p :: forSlots f (i + 1) ps

/-! ## sleep / wakeup / kill -/

/-- The body of the loop of `wakeup(chan)` for slot `i`; `me` is `myproc()`. -/
def wakeupSlot (me : Option Nat) (chan : Chan) (ticks : Int) (i : Nat) (p : proc) : proc :=
  if some i ≠ me then
    if p.state = procstate.SLEEPING ∧ p.chan = chan then
      { p with state := procstate.RUNNABLE, wait_st_time := ticks }
    else p
  else p

/-- The `wakeup(chan)` of `proc.c`, called by `me` (`myproc()`, null outside a process). -/
def wakeup (k : Kernel) (me : Option Nat) (chan : Chan) : Kernel :=
  { k with proc := forSlots (wakeupSlot me chan k.ticks) 0 k.proc }

/-- The loop of `kill(pid)` from slot `i` on: the first slot whose pid matches is marked
killed and, if SLEEPING, made RUNNABLE; the result is the return value and the table. -/
def killFrom (pid : Int) (ticks : Int) : List proc → Int × List proc
  | [] => (-1, [])
  | p :: ps =>
    if p.pid = pid then
      let p1 := { p with killed := 1 }
      let p2 :=
        if p1.state = procstate.SLEEPING then
          { p1 with state := procstate.RUNNABLE, wait_st_time := ticks }
        else p1
      (0, p2 :: ps)
    else
      ((killFrom pid ticks ps).1, p :: (killFrom pid ticks ps).2)

/-- The `kill(pid)` of `proc.c`: return value and resulting state. -/
def kill (k : Kernel) (pid : Int) : Int × Kernel :=
  ((killFrom pid k.ticks k.proc).1, { k with proc := (killFrom pid k.ticks k.proc).2 })

/-- The part of `sleep(chan, lk)` executed before the processor is handed over by
`sched()`: the caller `p` records the token, becomes SLEEPING and is charged half a usage
unit.  (On resumption `sleep` clears `chan` again.) -/
def sleep (par : Param) (k : Kernel) (p : Nat) (chan : Chan) : Kernel :=
  match k.proc[p]? with
  | none => k
  | some me =>
    let me1 := { me with chan := chan, state := procstate.SLEEPING,
                         cpu_usage := me.cpu_usage + Int.tdiv par.SCHED_PARAM_CPU_USAGE 2 }
    { k with proc := k.proc.set p me1 }

/-! ## Allocation -/

/-- Results of the collaborators called by `allocproc` and the fork variants: the page
returned by `kalloc()` for the trapframe (`none` is 0), the page table returned by
`proc_pagetable` (`none` is 0), and whether `uvmcopy` succeeds. -/
structure Oracle where
  kalloc : Option trapframe
  proc_pagetable : Option Nat
  uvmcopy : Bool
  deriving DecidableEq

/-- The `freeproc(p)` of `proc.c`.  `p->name[0] = 0` makes the name the empty string. -/
def freeproc (p : proc) : proc :=
  { p with trapframe := none, pagetable := none, sz := 0, pid := 0, parent := none,
           name := "", chan := Chan.null, killed := 0, xstate := 0,
           state := procstate.UNUSED }

/-- The search loop of `allocproc`: the first UNUSED slot from slot `i` on. -/
def findUnused : Nat → List proc → Option Nat
  | _, [] => none
  | i, p :: ps => if p.state = procstate.UNUSED then some i else findUnused (i + 1) ps

/-- The `allocproc()` of `proc.c`: the resulting state and the slot returned (`none` is
the null pointer).  The switch context (`p->context`) is not modelled. -/
def allocproc (k : Kernel) (o : Oracle) : Kernel × Option Nat :=
  match findUnused 0 k.proc with
  | none => (k, none)
  | some i =>
    match k.proc[i]? with
    | none => (k, none)
    | some p =>
      let p1 := { p with pid := k.nextpid, state := procstate.USED, priority := -1000000,
                         next_burst_len := 0, batch_process := 0, cpu_usage := 0,
                         prev_cpu_usage := 0, wait_time := 0, wait_st_time := -1,
                         prev_burst_start := -1 }
      let k1 := { k with nextpid := k.nextpid + 1 }
      match o.kalloc with
      | none => ({ k1 with proc := k.proc.set i (freeproc { p1 with trapframe := none }) }, none)
      | some tf =>
        match o.proc_pagetable with
        | none =>
          let p2 := { p1 with trapframe := some tf, pagetable := none }
          ({ k1 with proc := k.proc.set i (freeproc p2) }, none)
        | some pt =>
          let p2 := { p1 with trapframe := some tf, pagetable := some pt, ctime := k.ticks,
                              stime := -1, endtime := -1 }
          ({ k1 with proc := k.proc.set i p2 }, some i)

/-- The loop of `fork` over the descriptors: `if(p->ofile[i]) np->ofile[i] = filedup(p->ofile[i])`. -/
def dupFiles : List (Option Nat) → List (Option Nat) → List (Option Nat)
  | f :: fs, g :: gs => (if f.isSome then f else g) :: dupFiles fs gs
  | _, gs => gs

/-- The `fork()` of `proc.c`, called by the process in slot `p`: the resulting state and the
return value.  `none` stands for a caller that is not a slot of the table or has no
trapframe (a null dereference in C). -/
def fork (k : Kernel) (o : Oracle) (p : Nat) : Option (Kernel × Int) :=
  match allocproc k o with
  | (k1, none) => if p < k.proc.length then some (k1, -1) else none
  | (k1, some i) =>
    match k1.proc[p]?, k1.proc[i]? with
    | some me, some np =>
      if o.uvmcopy = false then
        some ({ k1 with proc := k1.proc.set i (freeproc np) }, -1)
      else
        match me.trapframe, np.trapframe with
        | some tf, some _ =>
          let np1 := { np with sz := me.sz, trapframe := some { tf with a0 := 0 },
                               ofile := dupFiles me.ofile np.ofile, cwd := me.cwd,
                               name := me.name }
          let pid := np1.pid
          let np2 := { np1 with parent := some p }
          let np3 := { np2 with state := procstate.RUNNABLE, wait_st_time := k1.ticks }
          some ({ k1 with proc := k1.proc.set i np3 }, pid)
        | _, _ => none
    | _, _ => none

/-- The `forkp(priority)` of `proc.c` (fork_with_priority), called by the process in slot
`p`. -/
def forkp (k : Kernel) (o : Oracle) (p : Nat) (priority : Int) : Option (Kernel × Int) :=
  match allocproc k o with
  | (k1, none) => if p < k.proc.length then some (k1, -1) else none
  | (k1, some i) =>
    match k1.proc[p]?, k1.proc[i]? with
    | some me, some np =>
      if o.uvmcopy = false then
        some ({ k1 with proc := k1.proc.set i (freeproc np) }, -1)
      else
        match me.trapframe, np.trapframe with
        | some tf, some _ =>
          let np1 := { np with sz := me.sz, trapframe := some { tf with a0 := 0 },
                               ofile := dupFiles me.ofile np.ofile, cwd := me.cwd,
                               name := me.name }
          let pid := np1.pid
          let np2 := { np1 with priority := priority, batch_process := 1 }
          let c1 := { k1.cpu with nump := k1.cpu.nump + 1 }
          let np3 := { np2 with parent := some p }
          let np4 := { np3 with state := procstate.RUNNABLE, wait_st_time := k1.ticks }
          some ({ k1 with proc := k1.proc.set i np4, cpu := c1 }, pid)
        | _, _ => none
    | _, _ => none

/-- The `forkf(faddr)` of `proc.c` (fork_with_entry), called by the process in slot `p`. -/
def forkf (k : Kernel) (o : Oracle) (p : Nat) (faddr : Int) : Option (Kernel × Int) :=
  match allocproc k o with
  | (k1, none) => if p < k.proc.length then some (k1, -1) else none
  | (k1, some i) =>
    match k1.proc[p]?, k1.proc[i]? with
    | some me, some np =>
      if o.uvmcopy = false then
        some ({ k1 with proc := k1.proc.set i (freeproc np) }, -1)
      else
        match me.trapframe, np.trapframe with
        | some tf, some _ =>
          let np1 := { np with sz := me.sz, trapframe := some { tf with a0 := 0, epc := faddr },
                               ofile := dupFiles me.ofile np.ofile, cwd := me.cwd,
                               name := me.name }
          let pid := np1.pid
          let np2 := { np1 with parent := some p }
          let np3 := { np2 with state := procstate.RUNNABLE, wait_st_time := k1.ticks }
          some ({ k1 with proc := k1.proc.set i np3 }, pid)
        | _, _ => none
    | _, _ => none

/-! ## exit / wait -/

/-- One iteration of the loop of `reparent(p)` at slot `i`; `me` is `myproc()`, the caller
of the `wakeup(initproc)` in the loop body. -/
def reparentStep (me : Option Nat) (p : Nat) (k : Kernel) (i : Nat) : Kernel :=
  match k.proc[i]? with
  | none => k
  | some pp =>
    if pp.parent = some p then
      wakeup { k with proc := k.proc.set i { pp with parent := k.initproc } } me
        (toChan k.initproc)
    else k

/-- The `reparent(p)` of `proc.c`, executed by the process `me`. -/
def reparent (k : Kernel) (me : Option Nat) (p : Nat) : Kernel :=
  (List.range k.proc.length).foldl (reparentStep me p) k

/-- The accounting of `exit` for a batch process `p` on core `c` (the body of
`if(p->batch_process)`); `p->endtime` has been stamped. -/
def exitAccount (c : cpu) (p : proc) : cpu :=
  let c1 := { c with
    comp := c.comp + 1,
    tatime := c.tatime + (p.endtime - p.ctime),
    wtime := c.wtime + p.wait_time,
    ctime := c.ctime + p.endtime,
    max_ctime := if c.max_ctime < p.endtime then p.endtime else c.max_ctime,
    min_ctime := if c.min_ctime > p.endtime then p.endtime else c.min_ctime }
  if c1.sched_policy = 1 then
    let t := p.endtime - p.prev_burst_start
    let err0 := t - p.next_burst_len
    let err := if err0 > 0 then err0 else 0 - err0
    let c2 :=
      if t > 0 then
        { c1 with
          nbursts := c1.nbursts + 1,
          max_blen := if c1.max_blen < t then t else c1.max_blen,
          tblen := c1.tblen + t,
          min_blen := if c1.min_blen > t then t else c1.min_blen }
      else c1
    if err ≠ 0 ∧ t > 0 ∧ p.next_burst_len > 0 then
      { c2 with ebursts := c2.ebursts + 1, tebursts := c2.tebursts + err }
    else c2
  else c1

/-- The end-of-epoch block of `exit` (`if(c->comp && c->comp == c->nump)`): the accumulators
after it.  The `printf` calls of the summary write nothing to the state. -/
def exitEpoch (c : cpu) : cpu :=
  if c.comp ≠ 0 ∧ c.comp = c.nump then
    let c1 := { c with comp := 0, nump := 0, stime := -1, tatime := 0, wtime := 0,
                       ctime := 0, max_ctime := 0, min_ctime := 1000000000 }
    if c1.sched_policy = 1 then
      { c1 with nbursts := 0, tblen := 0, max_blen := 0, min_blen := 1000000000,
                nebursts := 0, teblen := 0, max_belen := 0, min_belen := 1000000000,
                ebursts := 0, tebursts := 0 }
    else c1
  else c

/-- The first part of `exit`: every open file is closed and the working directory
released (`p->ofile[fd] = 0`, `p->cwd = 0`). -/
def closeFiles (me : proc) : proc :=
  { me with ofile := me.ofile.map (fun _ => none), cwd := none }

/-- The `exit(status)` of `proc.c`, called by the process in slot `p`, up to its final
`sched()`.  `none` is the panic "init exiting" (or a caller that is not a slot). -/
def exit (k : Kernel) (p : Nat) (status : Int) : Option Kernel :=
  if k.initproc = some p then none
  else
    match k.proc[p]? with
    | none => none
    | some me =>
      let k1 := { k with proc := k.proc.set p (closeFiles me) }
      let k2 := reparent k1 (some p) p
      match k2.proc[p]? with
      | none => none
      | some me2 =>
        let k3 := wakeup k2 (some p) (toChan me2.parent)
        match k3.proc[p]? with
        | none => none
        | some me3 =>
          let me4 := { me3 with xstate := status, state := procstate.ZOMBIE }
          let xticks := k3.ticks
          let me5 := { me4 with endtime := xticks }
          let c1 := if me5.batch_process ≠ 0 then exitAccount k3.cpu me5 else k3.cpu
          let c2 := exitEpoch c1
          some { k3 with proc := k3.proc.set p me5, cpu := c2 }

/-- How one pass of `wait` / `waitpid` ends: it returns `ret` (with the resulting state and
the `(address, value)` written to the caller's memory by `copyout`, if any), or it calls
`sleep(p, &wait_lock)` and the caller is suspended in the given state. -/
inductive WaitResult where
  | ret (pid : Int) (k : Kernel) (out : Option (Int × Int))
  | sleeps (k : Kernel)
  deriving DecidableEq

/-- The scan of `wait` from slot `i` on, for the caller `p`: the first ZOMBIE child (slot
and contents) if the scan finds one, else the final value of `havekids`. -/
def waitScan (p : Nat) : Nat → List proc → Int → (Nat × proc) ⊕ Int
  | _, [], havekids => Sum.inr havekids
  | i, np :: nps, havekids =>
    if np.parent = some p then
      if np.state = procstate.ZOMBIE then Sum.inl (i, np)
      else waitScan p (i + 1) nps 1
    else waitScan p (i + 1) nps havekids

/-- One pass of the loop of `wait(addr)` for the caller in slot `p`.  `copyout a` tells
whether `copyout` to the user address `a` succeeds.  `none`: `p` is not a slot. -/
def wait (par : Param) (k : Kernel) (p : Nat) (addr : Int) (copyout : Int → Bool) :
    Option WaitResult :=
  match k.proc[p]? with
  | none => none
  | some me =>
    match waitScan p 0 k.proc 0 with
    | Sum.inl (i, np) =>
      let pid := np.pid
      if addr ≠ 0 ∧ copyout addr = false then
        some (WaitResult.ret (-1) k none)
      else
        some (WaitResult.ret pid { k with proc := k.proc.set i (freeproc np) }
          (if addr ≠ 0 then some (addr, np.xstate) else none))
    | Sum.inr havekids =>
      if havekids = 0 ∨ me.killed ≠ 0 then
        some (WaitResult.ret (-1) k none)
      else
        some (WaitResult.sleeps (sleep par k p (Chan.procAddr p)))

/-- The scan of `waitpid` from slot `i` on: the first ZOMBIE child with the given pid if
there is one, else the final value of `found`. -/
def waitpidScan (p : Nat) (pid : Int) : Nat → List proc → Int → (Nat × proc) ⊕ Int
  | _, [], found => Sum.inr found
  | i, np :: nps, found =>
    if np.parent = some p ∧ np.pid = pid then
      if np.state = procstate.ZOMBIE then Sum.inl (i, np)
      else waitpidScan p pid (i + 1) nps 1
    else waitpidScan p pid (i + 1) nps found

/-- One pass of the loop of `waitpid(pid, addr)` for the caller in slot `p`, entered with
the given value of the local `found` (0 at the call; it is not reset between passes). -/
def waitpidPass (par : Param) (k : Kernel) (p : Nat) (pid : Int) (addr : Int)
    (copyout : Int → Bool) (found : Int) : Option WaitResult :=
  match k.proc[p]? with
  | none => none
  | some me =>
    match waitpidScan p pid 0 k.proc found with
    | Sum.inl (i, np) =>
      if addr ≠ 0 ∧ copyout addr = false then
        some (WaitResult.ret (-1) k none)
      else
        some (WaitResult.ret pid { k with proc := k.proc.set i (freeproc np) }
          (if addr ≠ 0 then some (addr, np.xstate) else none))
    | Sum.inr found1 =>
      if found1 = 0 ∨ me.killed ≠ 0 then
        some (WaitResult.ret (-1) k none)
      else
        some (WaitResult.sleeps (sleep par k p (Chan.procAddr p)))

/-- The first pass of `waitpid(pid, addr)`. -/
def waitpid (par : Param) (k : Kernel) (p : Nat) (pid : Int) (addr : Int)
    (copyout : Int → Bool) : Option WaitResult :=
  waitpidPass par k p pid addr copyout 0

/-! ## Scheduler -/

/-- How one iteration of the `for(;;)` loop of `scheduler` proceeds up to its first
`swtch`: the iteration ends without a switch (`idle`), or the processor is switched to
slot `i` in the given state (`run`), or the policy is unknown (`panic`). -/
inductive Dispatch where
  | idle (k : Kernel)
  | run (k : Kernel) (i : Nat)
  | panic
  deriving DecidableEq

/-- The RUNNABLE branch of the FCFS / round-robin loop for slot `p`, up to `swtch`. -/
def fcfsDispatch (ticks : Int) (p : proc) : proc :=
  let p1 := { p with state := procstate.RUNNING }
  let curr_ticks := ticks
  let p2 := { p1 with wait_time := p1.wait_time + (curr_ticks - p1.wait_st_time) }
  { p2 with wait_st_time := -1 }

/-- The FCFS / round-robin loop from slot `i` on (the list holds the slots from `i`): the
slot switched to, if any, and the slots as they are at that `swtch`. -/
def fcfsScan (ticks : Int) : Nat → List proc → Option Nat × List proc
  | _, [] => (none, [])
  | i, p :: ps =>
    if p.state = procstate.RUNNABLE then (some i, fcfsDispatch ticks p :: ps)
    else ((fcfsScan ticks (i + 1) ps).1, p :: (fcfsScan ticks (i + 1) ps).2)

/-- The FCFS / round-robin branch of `scheduler`, entered at slot 0. -/
def scheduler_fcfs (k : Kernel) : Dispatch :=
  match (fcfsScan k.ticks 0 k.proc).1 with
  | none => Dispatch.idle k
  | some i =>
    Dispatch.run { k with proc := (fcfsScan k.ticks 0 k.proc).2,
                          cpu := { k.cpu with proc := some i } } i

/-- The locals of the SJF branch of `scheduler`, with their values when the scan loop is
left; `switched` records the slot whose `swtch` ended the scan (the non-batch process run
from inside the loop, after whose return `flag` is set and the loop is left). -/
structure SjfVars where
  min_burst_len : Int
  p_to_sched : Option Nat
  flag : Int
  found : Int
  switched : Option Nat
  deriving DecidableEq

/-- The scan loop of the SJF branch from slot `i` on, on core `c`: the final locals and
the slots as they are when the loop is left. -/
def sjfScan (par : Param) (c : cpu) : Nat → List proc → SjfVars → SjfVars × List proc
  | _, [], v => (v, [])
  | i, p :: ps, v =>
    if p.state = procstate.RUNNABLE then
      if p.batch_process = 0 then
        ({ v with flag := 1, switched := some i }, { p with state := procstate.RUNNING } :: ps)
      else
        let v1 := { v with found := 1 }
        let v2 :=
          if v1.min_burst_len = -1 then
            { v1 with min_burst_len := p.next_burst_len, p_to_sched := some i }
          else if v1.min_burst_len > p.next_burst_len then
            { v1 with min_burst_len := p.next_burst_len, p_to_sched := some i }
          else v1
        if c.sched_policy ≠ par.SCHED_NPREEMPT_SJF then ({ v2 with flag := 1 }, p :: ps)
        else ((sjfScan par c (i + 1) ps v2).1, p :: (sjfScan par c (i + 1) ps v2).2)
    else
      if c.sched_policy ≠ par.SCHED_NPREEMPT_SJF then ({ v with flag := 1 }, p :: ps)
      else ((sjfScan par c (i + 1) ps v).1, p :: (sjfScan par c (i + 1) ps v).2)

/-- The initial locals of the SJF branch. -/
def sjfInit : SjfVars :=
  { min_burst_len := -1, p_to_sched := none, flag := 0, found := 0, switched := none }

/-- The SJF branch of `scheduler` up to its `swtch`. -/
def scheduler_sjf (par : Param) (k : Kernel) : Dispatch :=
  let r := sjfScan par k.cpu 0 k.proc sjfInit
  let k1 := { k with proc := r.2 }
  match r.1.switched with
  | some i => Dispatch.run { k1 with cpu := { k1.cpu with proc := some i } } i
  | none =>
    if r.1.flag ≠ 0 ∨ r.1.found = 0 then Dispatch.idle k1
    else
      match r.1.p_to_sched with
      | none => Dispatch.idle k1
      | some j =>
        match k1.proc[j]? with
        | none => Dispatch.idle k1
        | some q =>
          let curr_ticks := k1.ticks
          let q1 := { q with wait_time := q.wait_time + (curr_ticks - q.wait_st_time) }
          let q2 := { q1 with wait_st_time := -1 }
          let q3 := { q2 with state := procstate.RUNNING }
          let sticks := k1.ticks
          let q4 := { q3 with prev_burst_start := sticks }
          Dispatch.run { k1 with proc := k1.proc.set j q4,
                                 cpu := { k1.cpu with proc := some j } } j

/-- The smoothing formula of the SJF branch for a measured burst `t` and the previous
estimate `e`. -/
def sjfNextBurstLen (par : Param) (t e : Int) : Int :=
  t - Int.tdiv (par.SCHED_PARAM_SJF_A_NUMER * t) par.SCHED_PARAM_SJF_A_DENOM
    + Int.tdiv (par.SCHED_PARAM_SJF_A_NUMER * e) par.SCHED_PARAM_SJF_A_DENOM

/-- The estimate after `n` bursts of the same measured length `t`, starting from the
estimate `e`: the smoothing formula of the SJF branch applied `n` times. -/
def sjfEstimates (par : Param) (t : Int) : Nat → Int → Int
  | 0, e => e
  | n + 1, e => sjfEstimates par t n (sjfNextBurstLen par t e)

/-- The SJF branch of `scheduler` after the batch process in slot `j` has switched back:
`k` is the state at that moment (`k.ticks` is read into `eticks`), `sticks` the tick read
before the switch. -/
def sjfReturn (par : Param) (k : Kernel) (j : Nat) (sticks : Int) : Kernel :=
  match k.proc[j]? with
  | none => k
  | some q =>
    let eticks := k.ticks
    let t := eticks - sticks
    let err0 := t - q.next_burst_len
    let err := if err0 > 0 then err0 else 0 - err0
    let c := k.cpu
    let c1 :=
      if err > 0 ∧ q.state ≠ procstate.ZOMBIE ∧ t > 0 ∧ q.next_burst_len > 0 then
        { c with tebursts := c.tebursts + err, ebursts := c.ebursts + 1 }
      else c
    let next_burst_len := sjfNextBurstLen par t q.next_burst_len
    let q1 := { q with next_burst_len := next_burst_len }
    let c2 :=
      if t ≠ 0 ∧ q1.state ≠ procstate.ZOMBIE then
        { c1 with
          nbursts := c1.nbursts + 1,
          max_blen := if c1.max_blen < t then t else c1.max_blen,
          tblen := c1.tblen + t,
          min_blen := if c1.min_blen > t then t else c1.min_blen }
      else c1
    let c3 :=
      if q1.next_burst_len ≠ 0 ∧ q1.state ≠ procstate.ZOMBIE then
        let t1 := q1.next_burst_len
        { c2 with
          nebursts := c2.nebursts + 1,
          max_belen := if c2.max_belen < t1 then t1 else c2.max_belen,
          teblen := c2.teblen + t1,
          min_belen := if c2.min_belen > t1 then t1 else c2.min_belen }
      else c2
    { k with proc := k.proc.set j q1, cpu := { c3 with proc := none } }

/-- The locals of the UNIX branch of `scheduler`, with their values when the scan loop is
left; `switched` records the slot whose `swtch` ended the scan (the non-batch process run
from inside the loop, after whose return `flag` is set and the loop is left). -/
structure UnixVars where
  min_priority : Int
  min_wait_time : Int
  p_to_sched : Option Nat
  flag : Int
  found : Int
  switched : Option Nat
  deriving DecidableEq

/-- The decay of the UNIX scan for a RUNNABLE batch slot. -/
def unixDecay (p : proc) : proc :=
  if p.cpu_usage ≠ p.prev_cpu_usage then
    let p1 := { p with cpu_usage := Int.tdiv p.cpu_usage 2 }
    { p1 with prev_cpu_usage := p1.cpu_usage }
  else p

/-- The effective priority computed by the UNIX scan:
`int priority = p->priority + (p->cpu_usage / 2)`. -/
def effectivePriority (p : proc) : Int :=
  p.priority + Int.tdiv p.cpu_usage 2

/-- The waiting time computed by the UNIX scan:
`int waiting_time = (curr_ticks - p->wait_st_time) + p->wait_time`. -/
def waitingTime (curr_ticks : Int) (p : proc) : Int :=
  (curr_ticks - p.wait_st_time) + p.wait_time

/-- The comparison of the UNIX scan for the RUNNABLE batch slot `i` (already decayed). -/
def unixCompare (curr_ticks : Int) (i : Nat) (p : proc) (v : UnixVars) : UnixVars :=
  let priority := effectivePriority p
  let waiting_time := waitingTime curr_ticks p
  if v.min_priority = -1 then
    { v with min_priority := priority, p_to_sched := some i, min_wait_time := waiting_time }
  else if v.min_priority > priority then
    { v with min_priority := priority, p_to_sched := some i, min_wait_time := waiting_time }
  else if v.min_priority = priority ∧ v.min_wait_time < waiting_time then
    { v with min_priority := priority, p_to_sched := some i, min_wait_time := waiting_time }
  else v

/-- The scan loop of the UNIX branch from slot `i` on, on core `c`: the final locals and
the slots as they are when the loop is left. -/
def unixScan (par : Param) (c : cpu) (curr_ticks : Int) :
    Nat → List proc → UnixVars → UnixVars × List proc
  | _, [], v => (v, [])
  | i, p :: ps, v =>
    if p.state = procstate.RUNNABLE then
      if p.batch_process = 0 then
        ({ v with flag := 1, switched := some i }, { p with state := procstate.RUNNING } :: ps)
      else
        let v1 := { v with found := 1 }
        let p1 := unixDecay p
        let v2 := unixCompare curr_ticks i p1 v1
        if c.sched_policy ≠ par.SCHED_PREEMPT_UNIX then ({ v2 with flag := 1 }, p1 :: ps)
        else ((unixScan par c curr_ticks (i + 1) ps v2).1,
              p1 :: (unixScan par c curr_ticks (i + 1) ps v2).2)
    else
      if c.sched_policy ≠ par.SCHED_PREEMPT_UNIX then ({ v with flag := 1 }, p :: ps)
      else ((unixScan par c curr_ticks (i + 1) ps v).1,
            p :: (unixScan par c curr_ticks (i + 1) ps v).2)

/-- The initial locals of the UNIX branch. -/
def unixInit : UnixVars :=
  { min_priority := -1, min_wait_time := -1, p_to_sched := none, flag := 0, found := 0,
    switched := none }

/-- The UNIX branch of `scheduler` up to its `swtch`. -/
def scheduler_unix (par : Param) (k : Kernel) : Dispatch :=
  let curr_ticks := k.ticks
  let r := unixScan par k.cpu curr_ticks 0 k.proc unixInit
  let k1 := { k with proc := r.2 }
  match r.1.switched with
  | some i => Dispatch.run { k1 with cpu := { k1.cpu with proc := some i } } i
  | none =>
    if r.1.flag ≠ 0 ∨ r.1.found = 0 then Dispatch.idle k1
    else
      match r.1.p_to_sched with
      | none => Dispatch.idle k1
      | some j =>
        match k1.proc[j]? with
        | none => Dispatch.idle k1
        | some q =>
          let curr_ticks1 := k1.ticks
          let q1 := { q with wait_time := q.wait_time + (curr_ticks1 - q.wait_st_time) }
          let q2 := { q1 with wait_st_time := -1 }
          let q3 := { q2 with state := procstate.RUNNING }
          Dispatch.run { k1 with proc := k1.proc.set j q3,
                                 cpu := { k1.cpu with proc := some j } } j

/-- One iteration of the `for(;;)` loop of `scheduler()` up to its first `swtch`, entered
with `c->proc == 0`. -/
def scheduler (par : Param) (k : Kernel) : Dispatch :=
  if k.cpu.sched_policy = par.SCHED_NPREEMPT_FCFS ∨ k.cpu.sched_policy = par.SCHED_PREEMPT_RR then
    scheduler_fcfs k
  else if k.cpu.sched_policy = par.SCHED_NPREEMPT_SJF then scheduler_sjf par k
  else if k.cpu.sched_policy = par.SCHED_PREEMPT_UNIX then scheduler_unix par k
  else Dispatch.panic

/-- The scheduler after a process dispatched from the FCFS / round-robin loop, from the
non-batch branch of the SJF and UNIX loops, or from the batch branch of the UNIX loop has
switched back: `c->proc = 0`. -/
def switchedBack (k : Kernel) : Kernel :=
  { k with cpu := { k.cpu with proc := none } }

/-- The `schedpolicy(policy)` of `proc.c`: the previous policy and the resulting state. -/
def schedpolicy (k : Kernel) (policy : Int) : Int × Kernel :=
  (k.cpu.sched_policy, { k with cpu := { k.cpu with sched_policy := policy } })

/-- The FCFS / round-robin loop continued at slot `start`: the scan of the slots from
`start` on up to the next `swtch`, or to the end of the table, where the loop iteration
ends (`idle`).  (The policy test after `release` cannot fire before the next `swtch`: no
process runs in between.) -/
def scheduler_fcfs_from (k : Kernel) (start : Nat) : Dispatch :=
  match (fcfsScan k.ticks start (k.proc.drop start)).1 with
  | none => Dispatch.idle k
  | some i =>
    Dispatch.run { k with proc := k.proc.take start
                            ++ (fcfsScan k.ticks start (k.proc.drop start)).2,
                          cpu := { k.cpu with proc := some i } } i

/-- The FCFS / round-robin loop after the process dispatched from slot `i` has switched
back, in the state `k` it left: `c->proc = 0`, the policy test
`if(c->sched_policy != SCHED_NPREEMPT_FCFS && c->sched_policy != SCHED_PREEMPT_RR) break`,
and `p++`. -/
def fcfsResume (par : Param) (k : Kernel) (i : Nat) : Dispatch :=
  let k1 := switchedBack k
  if k1.cpu.sched_policy ≠ par.SCHED_NPREEMPT_FCFS
      ∧ k1.cpu.sched_policy ≠ par.SCHED_PREEMPT_RR then
    Dispatch.idle k1
  else scheduler_fcfs_from k1 (i + 1)

/-- The part of the SJF branch of `scheduler` after the scan, for the selected slot `j`:
from `acquire(&p_to_sched->lock)` to `swtch`. -/
def sjfDispatch (k : Kernel) (j : Nat) : Dispatch :=
  match k.proc[j]? with
  | none => Dispatch.idle k
  | some q =>
    let curr_ticks := k.ticks
    let q1 := { q with wait_time := q.wait_time + (curr_ticks - q.wait_st_time) }
    let q2 := { q1 with wait_st_time := -1 }
    let q3 := { q2 with state := procstate.RUNNING }
    let sticks := k.ticks
    let q4 := { q3 with prev_burst_start := sticks }
    Dispatch.run { k with proc := k.proc.set j q4,
                          cpu := { k.cpu with proc := some j } } j

/-- The part of the UNIX branch of `scheduler` after the scan, for the selected slot `j`:
from `acquire(&p_to_sched->lock)` to `swtch`. -/
def unixDispatch (k : Kernel) (j : Nat) : Dispatch :=
  match k.proc[j]? with
  | none => Dispatch.idle k
  | some q =>
    let curr_ticks1 := k.ticks
    let q1 := { q with wait_time := q.wait_time + (curr_ticks1 - q.wait_st_time) }
    let q2 := { q1 with wait_st_time := -1 }
    let q3 := { q2 with state := procstate.RUNNING }
    Dispatch.run { k with proc := k.proc.set j q3,
                          cpu := { k.cpu with proc := some j } } j

/-- The shared state (table, `initproc`, `nextpid`, `ticks`) as seen from the core whose
descriptor is `c`. -/
def onCore (k : Kernel) (c : cpu) : Kernel :=
  { k with cpu := c }

/-! ## yield / sched / system calls -/

/-- The `yield()` of `proc.c` called by the process in slot `p`, up to its `sched()`. -/
def yield (par : Param) (k : Kernel) (p : Nat) : Kernel :=
  match k.proc[p]? with
  | none => k
  | some me =>
    let me1 := { me with state := procstate.RUNNABLE }
    let me2 := { me1 with cpu_usage := me1.cpu_usage + par.SCHED_PARAM_CPU_USAGE }
    let cticks := k.ticks
    let me3 := { me2 with wait_st_time := cticks }
    { k with proc := k.proc.set p me3 }

/-- The `sys_yield()` of `sysproc.c` called by the process in slot `p`, up to its
`sched()`. -/
def sys_yield (k : Kernel) (p : Nat) : Kernel :=
  match k.proc[p]? with
  | none => k
  | some me => { k with proc := k.proc.set p { me with state := procstate.RUNNABLE } }

/-- The `sys_waitpid()` of `sysproc.c` called by the process in slot `p`, with one pass of
the loop of `wait` / `waitpid`.  `x` and `addr` are the arguments fetched by `argint(0, &x)`
and `argaddr(1, &p)` (`none` when the fetch fails).  The `uint64` result -1 is the user's
`int` -1. -/
def sys_waitpid (par : Param) (k : Kernel) (p : Nat) (x : Option Int) (addr : Option Int)
    (copyout : Int → Bool) : Option WaitResult :=
  match x with
  | none => some (WaitResult.ret (-1) k none)
  | some x1 =>
    match addr with
    | none => some (WaitResult.ret (-1) k none)
    | some a =>
      if x1 = -1 then
        match wait par k p a copyout with
        | some (WaitResult.ret _ k1 out) => some (WaitResult.ret (-1) k1 out)
        | some (WaitResult.sleeps k1) => some (WaitResult.sleeps k1)
        | none => none
      else
        match waitpid par k p x1 a copyout with
        | some (WaitResult.ret _ k1 out) => some (WaitResult.ret (-1) k1 out)
        | some (WaitResult.sleeps k1) => some (WaitResult.sleeps k1)
        | none => none

/-- How `sched()` proceeds up to its `swtch`: a panic with its message, or the switch to
the scheduler with the value saved in the local `intena`. -/
inductive SchedResult where
  | panic (msg : String)
  | switched (intena : Int)
  deriving DecidableEq

/-- The `sched()` of `proc.c` called by the process in slot `p`, up to its `swtch`.
`holding` is the result of `holding(&p->lock)` and `intr` that of `intr_get()`.  `none`:
`p` is not a slot of the table. -/
def sched (k : Kernel) (p : Nat) (holding : Bool) (intr : Bool) : Option SchedResult :=
  match k.proc[p]? with
  | none => none
  | some me =>
    if holding = false then some (SchedResult.panic "sched p->lock")
    else if k.cpu.noff ≠ 1 then some (SchedResult.panic "sched locks")
    else if me.state = procstate.RUNNING then some (SchedResult.panic "sched running")
    else if intr = true then some (SchedResult.panic "sched interruptible")
    else some (SchedResult.switched k.cpu.intena)

/-- The end of `sched()`, when the process is switched back to in the state `k` (whose `cpu`
is the core it resumes on): `mycpu()->intena = intena`. -/
def schedReturn (k : Kernel) (intena : Int) : Kernel :=
  { k with cpu := { k.cpu with intena := intena } }

/-! ## The summary of exit -/

/-- The divisions of the summary block of `exit`
(`if(c->comp && c->comp == c->nump) { ... }`) for the accumulators `c` with which the test
is reached, as (dividend, divisor) pairs in program order: `c->tatime / c->nump`,
`c->wtime / c->nump`, `c->ctime / c->nump` and, inside `if(c->sched_policy == 1)`,
`c->tblen / c->nbursts`, `c->teblen / c->nebursts`, `c->tebursts / c->ebursts`.  The
assignments between them write none of the operands of a later division.  Empty when the
block is not entered. -/
def exitSummaryDivisions (c : cpu) : List (Int × Int) :=
  if c.comp ≠ 0 ∧ c.comp = c.nump then
    [(c.tatime, c.nump), (c.wtime, c.nump), (c.ctime, c.nump)]
      ++ (if c.sched_policy = 1 then
            [(c.tblen, c.nbursts), (c.teblen, c.nebursts), (c.tebursts, c.ebursts)]
          else [])
  else []

/-- The accumulators of the core when `exit(status)`, called by the process in slot `p`,
reaches the test of its summary block: `exit` up to the end of `if(p->batch_process)`. -/
def exitAccumulators (k : Kernel) (p : Nat) (status : Int) : Option cpu :=
  if k.initproc = some p then none
  else
    match k.proc[p]? with
    | none => none
    | some me =>
      let k1 := { k with proc := k.proc.set p (closeFiles me) }
      let k2 := reparent k1 (some p) p
      match k2.proc[p]? with
      | none => none
      | some me2 =>
        let k3 := wakeup k2 (some p) (toChan me2.parent)
        match k3.proc[p]? with
        | none => none
        | some me3 =>
          let me4 := { me3 with xstate := status, state := procstate.ZOMBIE }
          let xticks := k3.ticks
          let me5 := { me4 with endtime := xticks }
          some (if me5.batch_process ≠ 0 then exitAccount k3.cpu me5 else k3.cpu)

/-- The divisions evaluated by `exit(status)` called by the process in slot `p`. -/
def exitDivisions (k : Kernel) (p : Nat) (status : Int) : Option (List (Int × Int)) :=
  (exitAccumulators k p status).map exitSummaryDivisions

/-! ## The scheduler iteration behind the scan loops -/

/-- The code of the SJF branch behind its scan loop, in the state `k` and for the locals
`v` with which the loop was left: `if(flag || found == 0) continue;`, then the dispatch of
`p_to_sched`. -/
def sjfAfterLoop (k : Kernel) (v : SjfVars) : Dispatch :=
  if v.flag ≠ 0 ∨ v.found = 0 then Dispatch.idle k
  else
    match v.p_to_sched with
    | none => Dispatch.idle k
    | some j => sjfDispatch k j

/-- The code of the UNIX branch behind its scan loop, in the state `k` and for the locals
`v` with which the loop was left: `if(flag || found == 0) continue;`, then the dispatch of
`p_to_sched`. -/
def unixAfterLoop (k : Kernel) (v : UnixVars) : Dispatch :=
  if v.flag ≠ 0 ∨ v.found = 0 then Dispatch.idle k
  else
    match v.p_to_sched with
    | none => Dispatch.idle k
    | some j => unixDispatch k j

/-- The iteration of the SJF branch begun in the state `k0`, continued when the non-batch
process that the scan loop switched to gives the processor back in the state `k`:
`c->proc = 0; release(&p->lock); flag = 1; break;`, then the code behind the loop with the
locals with which the scan was left. -/
def sjfResume (par : Param) (k0 k : Kernel) : Dispatch :=
  sjfAfterLoop (switchedBack k) (sjfScan par k0.cpu 0 k0.proc sjfInit).1

/-- The iteration of the UNIX branch begun in the state `k0`, continued when the non-batch
process that the scan loop switched to gives the processor back in the state `k`:
`c->proc = 0; release(&p->lock); flag = 1; break;`, then the code behind the loop with the
locals with which the scan was left. -/
def unixResume (par : Param) (k0 k : Kernel) : Dispatch :=
  unixAfterLoop (switchedBack k) (unixScan par k0.cpu k0.ticks 0 k0.proc unixInit).1

/-! ## Lifecycle operations and the pid invariant -/

/-- The state in which a pass of `wait` / `waitpid` ends. -/
def waitState : WaitResult → Kernel
  | WaitResult.ret _ k _ => k
  | WaitResult.sleeps k => k

/-- One operation of the process lifecycle: `allocproc`, a fork variant, `exit`, one pass of
`wait` or `waitpid` (reaping a child, failing, or going to sleep), or `kill`.  `exit`, `wait`
and `waitpid` are called by a process (`myproc()`), i.e. from a slot that is not UNUSED. -/
inductive Step (par : Param) : Kernel → Kernel → Prop where
  | allocproc (k : Kernel) (o : Oracle) : Step par k (allocproc k o).1
  | fork (k : Kernel) (o : Oracle) (p : Nat) (k1 : Kernel) (r : Int)
      (h : fork k o p = some (k1, r)) : Step par k k1
  | forkp (k : Kernel) (o : Oracle) (p : Nat) (priority : Int) (k1 : Kernel) (r : Int)
      (h : forkp k o p priority = some (k1, r)) : Step par k k1
  | forkf (k : Kernel) (o : Oracle) (p : Nat) (faddr : Int) (k1 : Kernel) (r : Int)
      (h : forkf k o p faddr = some (k1, r)) : Step par k k1
  | exit (k : Kernel) (p : Nat) (me : proc) (status : Int) (k1 : Kernel)
      (hme : k.proc[p]? = some me) (hlive : me.state ≠ procstate.UNUSED)
      (h : exit k p status = some k1) : Step par k k1
  | wait (k : Kernel) (p : Nat) (me : proc) (addr : Int) (copyout : Int → Bool)
      (w : WaitResult) (hme : k.proc[p]? = some me) (hlive : me.state ≠ procstate.UNUSED)
      (h : wait par k p addr copyout = some w) : Step par k (waitState w)
  | waitpid (k : Kernel) (p : Nat) (me : proc) (pid addr : Int) (copyout : Int → Bool)
      (found : Int) (w : WaitResult) (hme : k.proc[p]? = some me)
      (hlive : me.state ≠ procstate.UNUSED)
      (h : waitpidPass par k p pid addr copyout found = some w) : Step par k (waitState w)
  | kill (k : Kernel) (pid : Int) : Step par k (kill k pid).2

/-- The states reachable from an initial state (every slot UNUSED, `nextpid = 1`) by the
operations of `Step`. -/
inductive Reachable (par : Param) : Kernel → Prop where
  | init (k : Kernel) (hpid : k.nextpid = 1)
      (hfree : ∀ q ∈ k.proc, q.state = procstate.UNUSED) : Reachable par k
  | step (k k1 : Kernel) (hk : Reachable par k) (hs : Step par k k1) : Reachable par k1

/-- Slot contents `b` continue slot contents `a`: same pid and same liveness, or `b` is
UNUSED. -/
def pidKept (a b : proc) : Prop :=
  (b.pid = a.pid ∧ (b.state = procstate.UNUSED ↔ a.state = procstate.UNUSED))
    ∨ b.state = procstate.UNUSED

/-- Every slot of `ps1` continues the slot of `ps` with the same index. -/
def tableKept (ps ps1 : List proc) : Prop :=
  ps1.length = ps.length ∧
    ∀ (j : Nat) (a : proc), ps[j]? = some a → ∃ b : proc, ps1[j]? = some b ∧ pidKept a b

/-- The pid invariant: the pids of the slots that are not UNUSED are positive, smaller than
`nextpid` and pairwise different. -/
def pidInv (k : Kernel) : Prop :=
  0 < k.nextpid
  ∧ (∀ q ∈ k.proc, q.state ≠ procstate.UNUSED → 0 < q.pid ∧ q.pid < k.nextpid)
  ∧ (∀ (i j : Nat) (a b : proc), k.proc[i]? = some a → k.proc[j]? = some b →
      a.state ≠ procstate.UNUSED → b.state ≠ procstate.UNUSED → a.pid = b.pid → i = j)

/-! ## Closed forms -/

/-- What `reparent(p)` does to the slot `j` holding `q`, in closed form (`reparent_getElem?`):
a child of `p` gets the parent `init`, and if `p` has any child (`any`) the slot is also
visited by `wakeup(initproc)`. -/
def reparentSlot (me : Option Nat) (p : Nat) (init : Option Nat) (ticks : Int) (any : Bool)
    (j : Nat) (q : proc) : proc :=
  let q1 := if q.parent = some p then { q with parent := init } else q
  if any then wakeupSlot me (toChan init) ticks j q1 else q1

/-- Whether some slot of the table has the parent `p`. -/
def hasChild (p : Nat) (ps : List proc) : Bool :=
  ps.any (fun q => decide (q.parent = some p))

/-! ## Sample states -/

/-- A zero-filled slot, as in the table at boot. -/
def zeroProc : proc :=
  { state := procstate.UNUSED, chan := Chan.null, killed := 0, xstate := 0, pid := 0,
    parent := none, sz := 0, pagetable := none, trapframe := none, ofile := [], cwd := none,
    name := "", priority := 0, next_burst_len := 0, batch_process := 0, cpu_usage := 0,
    prev_cpu_usage := 0, wait_time := 0, wait_st_time := 0, prev_burst_start := 0,
    ctime := 0, stime := 0, endtime := 0 }

/-- A zero-filled core descriptor running the given policy. -/
def zeroCpu (policy : Int) : cpu :=
  { proc := none, sched_policy := policy, noff := 0, intena := 0, nump := 0, comp := 0,
    stime := 0, tatime := 0, wtime := 0, ctime := 0, max_ctime := 0, min_ctime := 0,
    nbursts := 0, tblen := 0, max_blen := 0, min_blen := 0, nebursts := 0, teblen := 0,
    max_belen := 0, min_belen := 0, ebursts := 0, tebursts := 0 }

/-- Sample values for the constants of `param.h`. -/
def sampleParam : Param :=
  { SCHED_NPREEMPT_FCFS := 0, SCHED_NPREEMPT_SJF := 1, SCHED_PREEMPT_RR := 2,
    SCHED_PREEMPT_UNIX := 3, SCHED_PARAM_SJF_A_NUMER := 1, SCHED_PARAM_SJF_A_DENOM := 2,
    SCHED_PARAM_CPU_USAGE := 200 }

/-- A table with the caller in slot 0, two processes sleeping on token 7 and one sleeping
on token 8, at tick 42. -/
def sleepers : Kernel :=
  { proc := [{ zeroProc with state := procstate.RUNNING, pid := 1 },
             { zeroProc with state := procstate.SLEEPING, chan := Chan.other 7, pid := 2 },
             { zeroProc with state := procstate.SLEEPING, chan := Chan.other 7, pid := 3 },
             { zeroProc with state := procstate.SLEEPING, chan := Chan.other 8, pid := 4 }],
    cpu := zeroCpu 0, initproc := some 0, nextpid := 5, ticks := 42 }

/-- A core running SJF (policy 1) at tick 30: the root process sleeping in slot 0 and
three RUNNABLE batch processes with the predictions 3, 2 and 2 in slots 1, 2 and 3 (the one
in slot 1 was last dispatched at tick 20). -/
def sjfSample : Kernel :=
  { proc := [{ zeroProc with state := procstate.SLEEPING, pid := 1 },
             { zeroProc with state := procstate.RUNNABLE, pid := 2, batch_process := 1,
                             next_burst_len := 3, prev_burst_start := 20, parent := some 0 },
             { zeroProc with state := procstate.RUNNABLE, pid := 3, batch_process := 1,
                             next_burst_len := 2, parent := some 0 },
             { zeroProc with state := procstate.RUNNABLE, pid := 4, batch_process := 1,
                             next_burst_len := 2, parent := some 0 }],
    cpu := zeroCpu 1, initproc := some 0, nextpid := 5, ticks := 30 }

/-- A core at tick 50 whose batch epoch is about to end (one process expected, none
completed yet) with burst statistics gathered under SJF: 5 bursts of total length 40.  Slot
1 holds the last batch process of the epoch, a child of the root process in slot 0. -/
def sjfEpoch : Kernel :=
  { proc := [{ zeroProc with state := procstate.SLEEPING, pid := 1,
                             chan := Chan.procAddr 0 },
             { zeroProc with state := procstate.RUNNING, pid := 2, batch_process := 1,
                             parent := some 0, ctime := 10, wait_time := 4,
                             prev_burst_start := 45, next_burst_len := 3 }],
    cpu := { zeroCpu 1 with nump := 1, comp := 0, stime := 12, min_ctime := 1000000000,
                            nbursts := 5, tblen := 40, max_blen := 12, min_blen := 3,
                            nebursts := 5, teblen := 35, max_belen := 9, min_belen := 2,
                            ebursts := 4, tebursts := 6 },
    initproc := some 0, nextpid := 3, ticks := 50 }

/-- The state `sjfEpoch` after `schedpolicy(3)`: the same epoch, now under another policy. -/
def switchedEpoch : Kernel := (schedpolicy sjfEpoch 3).2

/-- Collaborators that succeed. -/
def okOracle : Oracle :=
  { kalloc := some { epc := 0, sp := 0, a0 := 0 }, proc_pagetable := some 1, uvmcopy := true }

/-- A core under the UNIX policy (3) at tick 7: the process in slot 0 is running, the
three other slots are free. -/
def unixBoot : Kernel :=
  { proc := [{ zeroProc with state := procstate.RUNNING, pid := 1, wait_st_time := -1,
                             trapframe := some { epc := 0, sp := 0, a0 := 0 },
                             pagetable := some 0 },
             zeroProc, zeroProc, zeroProc],
    cpu := { zeroCpu 3 with proc := some 0 }, initproc := none, nextpid := 2, ticks := 7 }

/-- A table whose process in slot 0 has been killed and has one child (pid 2, slot 1) that
has not exited. -/
def killedParent : Kernel :=
  { proc := [{ zeroProc with state := procstate.RUNNING, pid := 1, killed := 1 },
             { zeroProc with state := procstate.RUNNABLE, pid := 2, parent := some 0 }],
    cpu := zeroCpu 0, initproc := none, nextpid := 3, ticks := 9 }

/-- A table at tick 5 with the root process in slot 0, a process (pid 2) running in slot 2
and free slots 1 and 3. -/
def forkBoot : Kernel :=
  { proc := [{ zeroProc with state := procstate.SLEEPING, pid := 1, chan := Chan.procAddr 0,
                             wait_st_time := -1 },
             zeroProc,
             { zeroProc with state := procstate.RUNNING, pid := 2, parent := some 0,
                             wait_st_time := -1, ofile := [some 3, none],
                             trapframe := some { epc := 16, sp := 4096, a0 := 1 },
                             pagetable := some 0 },
             zeroProc],
    cpu := { zeroCpu 0 with proc := some 2 }, initproc := some 0, nextpid := 3, ticks := 5 }

/-- The state `forkBoot` after a successful `fork()` by the process in slot 2. -/
def forkBoot_forked : Kernel :=
  match fork forkBoot okOracle 2 with
  | some r => r.1
  | none => forkBoot

/-- A table at tick 11: the root process (slot 0) sleeps in `wait`; the process in slot 2
is running and has two children, a ZOMBIE in slot 1 (pid 3, exit status 7) and a RUNNABLE
one in slot 3; slot 4 holds a ZOMBIE child of the root. -/
def orphanage : Kernel :=
  { proc := [{ zeroProc with state := procstate.SLEEPING, pid := 1, chan := Chan.procAddr 0,
                             wait_st_time := -1 },
             { zeroProc with state := procstate.ZOMBIE, pid := 3, parent := some 2,
                             xstate := 7, wait_st_time := -1 },
             { zeroProc with state := procstate.RUNNING, pid := 2, parent := some 0,
                             wait_st_time := -1 },
             { zeroProc with state := procstate.RUNNABLE, pid := 4, parent := some 2,
                             wait_st_time := 10 },
             { zeroProc with state := procstate.ZOMBIE, pid := 5, parent := some 0,
                             xstate := 9, wait_st_time := -1 }],
    cpu := { zeroCpu 0 with proc := some 2 }, initproc := some 0, nextpid := 6, ticks := 11 }

/-- A slot in use by a batch process that has run: every scheduling field is set. -/
def usedSlot : proc :=
  { zeroProc with state := procstate.ZOMBIE, pid := 7, parent := some 0, xstate := 3,
                  killed := 1, name := "batch", chan := Chan.other 5, sz := 4096,
                  pagetable := some 2, trapframe := some { epc := 0, sp := 0, a0 := 0 },
                  ofile := [some 1], cwd := some 4,
                  priority := 5, next_burst_len := 6, batch_process := 1, cpu_usage := 100,
                  prev_cpu_usage := 50, wait_time := 12, wait_st_time := 30,
                  prev_burst_start := 31, ctime := 3, stime := 4, endtime := 40 }

/-- A core running the UNIX policy (3) at tick 30: RUNNABLE batch processes in slots 1
and 2 (the one in slot 1 has used the processor since the last pass), sleeping processes in
slots 0 and 3, and a RUNNABLE non-batch process in slot 4. -/
def mixedSample : Kernel :=
  { proc := [{ zeroProc with state := procstate.SLEEPING, pid := 1 },
             { zeroProc with state := procstate.RUNNABLE, pid := 2, batch_process := 1,
                             priority := 1, cpu_usage := 8, parent := some 0 },
             { zeroProc with state := procstate.RUNNABLE, pid := 3, batch_process := 1,
                             next_burst_len := 2, parent := some 0 },
             { zeroProc with state := procstate.SLEEPING, pid := 4, parent := some 0 },
             { zeroProc with state := procstate.RUNNABLE, pid := 5, parent := some 0,
                             priority := 90, next_burst_len := 50, wait_st_time := 25 }],
    cpu := zeroCpu 3, initproc := some 0, nextpid := 6, ticks := 30 }

/-- A table at tick 20: the process in slot 1 sleeps in `wait` for its running child in
slot 2; the root process (slot 0) sleeps in `wait` too. -/
def waitingParent : Kernel :=
  { proc := [{ zeroProc with state := procstate.SLEEPING, pid := 1, chan := Chan.procAddr 0,
                             wait_st_time := -1 },
             { zeroProc with state := procstate.SLEEPING, pid := 2, chan := Chan.procAddr 1,
                             parent := some 0, wait_st_time := -1, cpu_usage := 100 },
             { zeroProc with state := procstate.RUNNING, pid := 3, parent := some 1,
                             wait_st_time := -1 }],
    cpu := { zeroCpu 0 with proc := some 2 }, initproc := some 0, nextpid := 4, ticks := 20 }

/-- A core under the round-robin policy (2) at tick 3 with two RUNNABLE processes, in
slots 0 and 1, and a sleeping one in slot 2. -/
def rrPair : Kernel :=
  { proc := [{ zeroProc with state := procstate.RUNNABLE, pid := 1, wait_st_time := 1 },
             { zeroProc with state := procstate.RUNNABLE, pid := 2, wait_st_time := 2 },
             { zeroProc with state := procstate.SLEEPING, pid := 3, wait_st_time := -1,
                             chan := Chan.ticksAddr }],
    cpu := zeroCpu 2, initproc := some 0, nextpid := 4, ticks := 3 }

/-- A table at tick 50 whose slot 1 was released by `freeproc` after the process of
`usedSlot`: the root process sleeps in slot 0. -/
def recycled : Kernel :=
  { proc := [{ zeroProc with state := procstate.SLEEPING, pid := 1, chan := Chan.procAddr 0,
                             wait_st_time := -1 },
             freeproc usedSlot],
    cpu := zeroCpu 0, initproc := some 0, nextpid := 9, ticks := 50 }

/-- Collaborators whose `uvmcopy` fails. -/
def noCopyOracle : Oracle :=
  { okOracle with uvmcopy := false }

/-- The table of `forkBoot` seen from a core under SJF (policy 1) whose current process is
the one in slot 2. -/
def sjfBoot : Kernel :=
  onCore forkBoot { zeroCpu 1 with proc := some 2 }

/-- A core under the UNIX policy (3) at tick 30 with no RUNNABLE non-batch process: the
batch process of slot 1 has used the processor since the last pass (`cpu_usage` 8,
`prev_cpu_usage` 0), the one of slot 2 has not (6 and 6); slots 0 and 3 sleep. -/
def batchSample : Kernel :=
  { proc := [{ zeroProc with state := procstate.SLEEPING, pid := 1, cpu_usage := 100 },
             { zeroProc with state := procstate.RUNNABLE, pid := 2, batch_process := 1,
                             priority := 1, cpu_usage := 8, parent := some 0 },
             { zeroProc with state := procstate.RUNNABLE, pid := 3, batch_process := 1,
                             cpu_usage := 6, prev_cpu_usage := 6, parent := some 0 },
             { zeroProc with state := procstate.SLEEPING, pid := 4, parent := some 0 }],
    cpu := zeroCpu 3, initproc := some 0, nextpid := 5, ticks := 30 }

/-- The table at boot: every slot zero-filled, `nextpid = 1`. -/
def bootTable : Kernel :=
  { proc := [zeroProc, zeroProc, zeroProc], cpu := zeroCpu 0, initproc := none,
    nextpid := 1, ticks := 0 }

/-- The state after `allocproc` on `bootTable` and a `fork` by the process so created. -/
def bootForked : Kernel :=
  match fork (allocproc bootTable okOracle).1 okOracle 0 with
  | some r => r.1
  | none => bootTable

/-! ## Theorems -/

theorem forSlots_length (f : Nat → proc → proc) (ps : List proc) (i : Nat) :
    (forSlots f i ps).length = ps.length := by
  induction ps generalizing i with
  | nil => rfl
  | cons p ps ih => simp [forSlots, ih]

theorem forSlots_getElem? (f : Nat → proc → proc) (ps : List proc) (i j : Nat) :
    (forSlots f i ps)[j]? = (ps[j]?).map (f (i + j)) := by
  induction ps generalizing i j with
  | nil => simp [forSlots]
  | cons p ps ih =>
    cases j with
    | zero => simp [forSlots]
    | succ j =>
      simp only [forSlots, List.getElem?_cons_succ, ih]
      have h : i + 1 + j = i + (j + 1) := by omega
      rw [h]

/-! ### wakeup -/

theorem wakeup_getElem? (k : Kernel) (me : Option Nat) (token : Chan) (i : Nat) :
    (wakeup k me token).proc[i]? = (k.proc[i]?).map (wakeupSlot me token k.ticks i) := by
  simp [wakeup, forSlots_getElem?]

/-- C4: `wakeup(token)` is a complete broadcast with a frame.  Every slot other than the
caller's that was SLEEPING on `token` is afterwards the same slot made RUNNABLE with
`wait_st_time` the current tick; the caller's slot and every slot not SLEEPING on `token`
are unchanged; hence no slot other than the caller's is still SLEEPING on `token`; the
table keeps its size and nothing outside the table changes. -/
theorem wakeup_broadcast (k : Kernel) (me : Option Nat) (token : Chan) :
    (∀ i p, k.proc[i]? = some p → some i ≠ me → p.state = procstate.SLEEPING →
        p.chan = token →
        (wakeup k me token).proc[i]? =
          some { p with state := procstate.RUNNABLE, wait_st_time := k.ticks })
    ∧ (∀ i p, k.proc[i]? = some p →
        (some i = me ∨ ¬ (p.state = procstate.SLEEPING ∧ p.chan = token)) →
        (wakeup k me token).proc[i]? = some p)
    ∧ (∀ i q, (wakeup k me token).proc[i]? = some q → some i ≠ me →
        ¬ (q.state = procstate.SLEEPING ∧ q.chan = token))
    ∧ (wakeup k me token).proc.length = k.proc.length
    ∧ (wakeup k me token).cpu = k.cpu
    ∧ (wakeup k me token).initproc = k.initproc
    ∧ (wakeup k me token).nextpid = k.nextpid
    ∧ (wakeup k me token).ticks = k.ticks := by
  refine ⟨?_, ?_, ?_, ?_, rfl, rfl, rfl, rfl⟩
  · intro i p hp hme hs hc
    simp [wakeup_getElem?, hp, wakeupSlot, hme, hs, hc]
  · intro i p hp h
    rcases h with h | h
    · simp [wakeup_getElem?, hp, wakeupSlot, h]
    · simp only [wakeup_getElem?, hp, wakeupSlot, Option.map_some']
      rw [if_neg h]
      simp
  · intro i q hq hme
    rw [wakeup_getElem?] at hq
    cases hp : k.proc[i]? with
    | none => simp [hp] at hq
    | some p =>
      simp only [hp, Option.map_some', Option.some.injEq, wakeupSlot] at hq
      rw [if_pos hme] at hq
      by_cases h : p.state = procstate.SLEEPING ∧ p.chan = token
      · rw [if_pos h] at hq
        subst hq
        simp
      · rw [if_neg h] at hq
        subst hq
        exact h
  · simp [wakeup, forSlots_length]

/-- C4 on `sleepers`: the two sleepers on token 7 (slots 1 and 2) both become RUNNABLE
with the current tick as wait start; the caller (slot 0) and the sleeper on token 8
(slot 3) are unchanged. -/
theorem wakeup_broadcast_witness :
    (wakeup sleepers (some 0) (Chan.other 7)).proc[1]? =
        some { zeroProc with state := procstate.RUNNABLE, chan := Chan.other 7, pid := 2,
                             wait_st_time := 42 }
    ∧ (wakeup sleepers (some 0) (Chan.other 7)).proc[2]? =
        some { zeroProc with state := procstate.RUNNABLE, chan := Chan.other 7, pid := 3,
                             wait_st_time := 42 }
    ∧ (wakeup sleepers (some 0) (Chan.other 7)).proc[0]? = sleepers.proc[0]?
    ∧ (wakeup sleepers (some 0) (Chan.other 7)).proc[3]? = sleepers.proc[3]? :=
  ⟨(wakeup_broadcast sleepers (some 0) (Chan.other 7)).1 1 _ rfl (by decide) rfl rfl,
   (wakeup_broadcast sleepers (some 0) (Chan.other 7)).1 2 _ rfl (by decide) rfl rfl,
   (wakeup_broadcast sleepers (some 0) (Chan.other 7)).2.1 0 _ rfl (Or.inl rfl),
   (wakeup_broadcast sleepers (some 0) (Chan.other 7)).2.1 3 _ rfl (Or.inr (by decide))⟩

/-! ### kill -/

theorem killFrom_miss (pid ticks : Int) (ps : List proc) (h : ∀ q ∈ ps, q.pid ≠ pid) :
    killFrom pid ticks ps = (-1, ps) := by
  induction ps with
  | nil => rfl
  | cons p ps ih =>
    have hp : p.pid ≠ pid := h p (List.mem_cons_self _ _)
    have ih1 := ih (fun q hq => h q (List.mem_cons_of_mem _ hq))
    simp [killFrom, hp, ih1]

theorem killFrom_hit (pid ticks : Int) (ps : List proc) (i : Nat) (p : proc)
    (hp : ps[i]? = some p) (hpid : p.pid = pid)
    (hfirst : ∀ q ∈ ps.take i, q.pid ≠ pid) :
    killFrom pid ticks ps =
      (0, ps.set i
        { p with killed := 1,
                 state := if p.state = procstate.SLEEPING then procstate.RUNNABLE else p.state,
                 wait_st_time :=
                   if p.state = procstate.SLEEPING then ticks else p.wait_st_time }) := by
  induction ps generalizing i with
  | nil => simp at hp
  | cons a ps ih =>
    cases i with
    | zero =>
      simp only [List.getElem?_cons_zero, Option.some.injEq] at hp
      subst hp
      by_cases hs : a.state = procstate.SLEEPING <;> simp [killFrom, hpid, hs]
    | succ i =>
      have ha : a.pid ≠ pid := hfirst a (by simp)
      simp only [List.getElem?_cons_succ] at hp
      have ih1 := ih i hp (fun q hq => hfirst q (by simp [hq]))
      simp [killFrom, ha, ih1]

/-- C5: `kill(pid)`.  If some slot has the given pid, `kill` returns 0 and the resulting
state is the old one in which the lowest such slot has `killed = 1` and, if and only if it
was SLEEPING, state RUNNABLE and `wait_st_time` the current tick (otherwise its state and
wait start are kept); nothing else changes.  If no slot has that pid, `kill` returns -1 and
the state is unchanged. -/
theorem kill_spec (k : Kernel) (pid : Int) :
    (∀ i p, k.proc[i]? = some p → p.pid = pid → (∀ q ∈ k.proc.take i, q.pid ≠ pid) →
        kill k pid =
          (0, { k with proc := (k.proc.set i
            { p with killed := 1,
                     state :=
                       if p.state = procstate.SLEEPING then procstate.RUNNABLE else p.state,
                     wait_st_time :=
                       if p.state = procstate.SLEEPING then k.ticks else p.wait_st_time }) }))
    ∧ ((∀ q ∈ k.proc, q.pid ≠ pid) → kill k pid = (-1, k)) := by
  constructor
  · intro i p hp hpid hfirst
    simp [kill, killFrom_hit pid k.ticks k.proc i p hp hpid hfirst]
  · intro h
    simp [kill, killFrom_miss pid k.ticks k.proc h]

/-- C5 on `sleepers`: killing pid 3 (SLEEPING in slot 2) returns 0 and makes it RUNNABLE
and killed; killing pid 1 (RUNNING in slot 0) returns 0 and only sets the flag; killing
the absent pid 9 returns -1 and changes nothing. -/
theorem kill_spec_witness :
    kill sleepers 3 =
        (0, { sleepers with proc := (sleepers.proc.set 2
          { zeroProc with state := procstate.RUNNABLE, chan := Chan.other 7, pid := 3,
                          killed := 1, wait_st_time := 42 }) })
    ∧ kill sleepers 1 =
        (0, { sleepers with proc := (sleepers.proc.set 0
          { zeroProc with state := procstate.RUNNING, pid := 1, killed := 1 }) })
    ∧ kill sleepers 9 = (-1, sleepers) :=
  ⟨(kill_spec sleepers 3).1 2 _ rfl rfl (by decide),
   (kill_spec sleepers 1).1 0 _ rfl rfl (by decide),
   (kill_spec sleepers 9).2 (by decide)⟩

/-! ### SJF burst prediction -/

theorem sjfNextBurstLen_error (par : Param) (t e : Int)
    (hN : 0 ≤ par.SCHED_PARAM_SJF_A_NUMER)
    (hND : par.SCHED_PARAM_SJF_A_NUMER ≤ par.SCHED_PARAM_SJF_A_DENOM)
    (hD : 0 < par.SCHED_PARAM_SJF_A_DENOM) (ht : 0 ≤ t) (he : 0 ≤ e) :
    |t - sjfNextBurstLen par t e| ≤ |t - e| ∧ (e = t → sjfNextBurstLen par t e = t) := by
  have key : ∀ x y : Int, 0 ≤ x → x ≤ y →
      (par.SCHED_PARAM_SJF_A_NUMER * x) / par.SCHED_PARAM_SJF_A_DENOM
        ≤ (par.SCHED_PARAM_SJF_A_NUMER * y) / par.SCHED_PARAM_SJF_A_DENOM
      ∧ (par.SCHED_PARAM_SJF_A_NUMER * y) / par.SCHED_PARAM_SJF_A_DENOM
        ≤ (par.SCHED_PARAM_SJF_A_NUMER * x) / par.SCHED_PARAM_SJF_A_DENOM + (y - x) := by
    intro x y _ hxy
    constructor
    · exact Int.ediv_le_ediv hD (mul_le_mul_of_nonneg_left hxy hN)
    · rw [← Int.add_mul_ediv_right _ _ (ne_of_gt hD)]
      apply Int.ediv_le_ediv hD
      have h1 : par.SCHED_PARAM_SJF_A_NUMER * (y - x)
          ≤ par.SCHED_PARAM_SJF_A_DENOM * (y - x) :=
        mul_le_mul_of_nonneg_right hND (by omega)
      nlinarith
  have hNt : 0 ≤ par.SCHED_PARAM_SJF_A_NUMER * t := mul_nonneg hN ht
  have hNe : 0 ≤ par.SCHED_PARAM_SJF_A_NUMER * e := mul_nonneg hN he
  unfold sjfNextBurstLen
  rw [Int.tdiv_eq_ediv hNt (le_of_lt hD), Int.tdiv_eq_ediv hNe (le_of_lt hD)]
  constructor
  · rcases le_total e t with h | h
    · have h2 := key e t he h
      rw [abs_le]
      constructor
      · have : 0 ≤ |t - e| := abs_nonneg _
        omega
      · have : t - e ≤ |t - e| := le_abs_self _
        omega
    · have h2 := key t e ht h
      rw [abs_le]
      constructor
      · have : -(t - e) ≤ |t - e| := neg_le_abs _
        omega
      · have : 0 ≤ |t - e| := abs_nonneg _
        omega
  · intro h
    subst h
    omega

/-- C10: the SJF prediction error never grows.  When the batch process in slot `j` switches
back to the scheduler after a burst of `t = eticks - sticks >= 0` ticks, with a previous
estimate `e >= 0` and weight `0 <= NUMER <= DENOM`, `DENOM > 0`, the scheduler stores the
estimate `t - (NUMER*t)/DENOM + (NUMER*e)/DENOM`, whose distance to `t` is at most that of
`e`, and which is `t` when `e = t`. -/
theorem sjf_error_never_grows (par : Param) (k : Kernel) (j : Nat) (q : proc) (sticks : Int)
    (hq : k.proc[j]? = some q)
    (hN : 0 ≤ par.SCHED_PARAM_SJF_A_NUMER)
    (hND : par.SCHED_PARAM_SJF_A_NUMER ≤ par.SCHED_PARAM_SJF_A_DENOM)
    (hD : 0 < par.SCHED_PARAM_SJF_A_DENOM)
    (ht : 0 ≤ k.ticks - sticks) (he : 0 ≤ q.next_burst_len) :
    ∃ q1, (sjfReturn par k j sticks).proc[j]? = some q1
      ∧ q1.next_burst_len =
          (k.ticks - sticks)
            - Int.tdiv (par.SCHED_PARAM_SJF_A_NUMER * (k.ticks - sticks))
                par.SCHED_PARAM_SJF_A_DENOM
            + Int.tdiv (par.SCHED_PARAM_SJF_A_NUMER * q.next_burst_len)
                par.SCHED_PARAM_SJF_A_DENOM
      ∧ |(k.ticks - sticks) - q1.next_burst_len| ≤ |(k.ticks - sticks) - q.next_burst_len|
      ∧ (q.next_burst_len = k.ticks - sticks → q1.next_burst_len = k.ticks - sticks) := by
  have hlt : j < k.proc.length := by
    by_contra h
    rw [List.getElem?_eq_none (by omega)] at hq
    simp at hq
  have h := sjfNextBurstLen_error par (k.ticks - sticks) q.next_burst_len hN hND hD ht he
  refine ⟨{ q with next_burst_len := sjfNextBurstLen par (k.ticks - sticks) q.next_burst_len },
    ?_, rfl, h.1, h.2⟩
  simp only [sjfReturn, hq]
  rw [List.getElem?_set_self hlt]

/-- C10 on a sample: burst 10, previous estimate 3, weight 1/2 at tick 30 (dispatch at
tick 20) gives the estimate 6, and error 4 instead of 7. -/
theorem sjf_error_never_grows_witness :
    ∃ q1, (sjfReturn sampleParam sjfSample 1 20).proc[1]? = some q1
      ∧ q1.next_burst_len = (30 - 20) - Int.tdiv (1 * (30 - 20)) 2 + Int.tdiv (1 * 3) 2
      ∧ |(30 - 20) - q1.next_burst_len| ≤ |((30 : Int) - 20) - 3|
      ∧ ((3 : Int) = 30 - 20 → q1.next_burst_len = 30 - 20) :=
  sjf_error_never_grows sampleParam sjfSample 1 _ 20 rfl (by decide) (by decide) (by decide)
    (by decide) (by decide)

/-! ### reparent -/

theorem wakeupSlot_idem (me : Option Nat) (c : Chan) (t : Int) (j : Nat) (q : proc) :
    wakeupSlot me c t j (wakeupSlot me c t j q) = wakeupSlot me c t j q := by
  unfold wakeupSlot
  split_ifs <;> simp_all

theorem wakeupSlot_parent (me : Option Nat) (c : Chan) (t : Int) (j : Nat) (q : proc) :
    (wakeupSlot me c t j q).parent = q.parent := by
  unfold wakeupSlot
  split_ifs <;> rfl

theorem wakeupSlot_setParent (me : Option Nat) (c : Chan) (t : Int) (j : Nat) (q : proc)
    (x : Option Nat) :
    wakeupSlot me c t j { wakeupSlot me c t j q with parent := x }
      = wakeupSlot me c t j { q with parent := x } := by
  unfold wakeupSlot
  split_ifs <;> simp_all

theorem reparentStep_frame (me : Option Nat) (p : Nat) (k : Kernel) (i : Nat) :
    (reparentStep me p k i).cpu = k.cpu ∧ (reparentStep me p k i).initproc = k.initproc
    ∧ (reparentStep me p k i).nextpid = k.nextpid ∧ (reparentStep me p k i).ticks = k.ticks := by
  unfold reparentStep
  cases k.proc[i]? with
  | none => simp
  | some pp =>
    by_cases h : pp.parent = some p <;> simp [h, wakeup]

theorem reparentStep_some (me : Option Nat) (p : Nat) (k : Kernel) (i : Nat) (pp : proc)
    (h : k.proc[i]? = some pp) :
    reparentStep me p k i =
      if pp.parent = some p then
        wakeup { k with proc := k.proc.set i { pp with parent := k.initproc } } me
          (toChan k.initproc)
      else k := by
  simp [reparentStep, h]

theorem hasChild_take_succ (p : Nat) (ps : List proc) (n : Nat) (q : proc)
    (hq : ps[n]? = some q) :
    hasChild p (ps.take (n + 1)) = (hasChild p (ps.take n) || decide (q.parent = some p)) := by
  simp [hasChild, List.take_succ, hq]

theorem reparent_upto (me : Option Nat) (p : Nat) (k : Kernel) (n : Nat)
    (hn : n ≤ k.proc.length) :
    ((List.range n).foldl (reparentStep me p) k).cpu = k.cpu
    ∧ ((List.range n).foldl (reparentStep me p) k).initproc = k.initproc
    ∧ ((List.range n).foldl (reparentStep me p) k).nextpid = k.nextpid
    ∧ ((List.range n).foldl (reparentStep me p) k).ticks = k.ticks
    ∧ ∀ j, ((List.range n).foldl (reparentStep me p) k).proc[j]? =
        (k.proc[j]?).map (fun q =>
          if j < n then
            reparentSlot me p k.initproc k.ticks (hasChild p (k.proc.take n)) j q
          else
            (if hasChild p (k.proc.take n) then wakeupSlot me (toChan k.initproc) k.ticks j q
             else q)) := by
  induction n with
  | zero =>
    refine ⟨rfl, rfl, rfl, rfl, ?_⟩
    intro j
    cases hq : k.proc[j]? with
    | none => simp [hq]
    | some q => simp [hq, hasChild]
  | succ n ih =>
    obtain ⟨hc, hi, hp, ht, hs⟩ := ih (by omega)
    rw [List.range_succ, List.foldl_append]
    simp only [List.foldl_cons, List.foldl_nil]
    have hf := reparentStep_frame me p ((List.range n).foldl (reparentStep me p) k) n
    refine ⟨by rw [hf.1, hc], by rw [hf.2.1, hi], by rw [hf.2.2.1, hp],
      by rw [hf.2.2.2, ht], ?_⟩
    obtain ⟨qn, hqn⟩ : ∃ qn, k.proc[n]? = some qn := by
      have : n < k.proc.length := by omega
      exact ⟨k.proc[n], by simp [this]⟩
    have hany := hasChild_take_succ p k.proc n qn hqn
    intro j
    have hsn := hs n
    rw [hqn] at hsn
    simp only [lt_irrefl, if_false, Option.map_some'] at hsn
    rw [reparentStep_some me p _ n _ hsn]
    have hpar : (if hasChild p (k.proc.take n) then
        wakeupSlot me (toChan k.initproc) k.ticks n qn else qn).parent = qn.parent := by
      split_ifs
      · exact wakeupSlot_parent _ _ _ _ _
      · rfl
    simp only [hpar]
    by_cases hch : qn.parent = some p
    · simp only [hch, if_true]
      rw [wakeup_getElem?, ht, hi]
      have hany1 : hasChild p (k.proc.take (n + 1)) = true := by simp [hany, hch]
      rw [hany1]
      by_cases hjn : j = n
      · subst hjn
        rw [List.getElem?_set_self (by
          have := congrArg Option.isSome hsn
          simp only [Option.isSome_some] at this
          by_contra hlen
          rw [List.getElem?_eq_none (by omega)] at this
          simp at this)]
        simp only [hqn, Option.map_some', Nat.lt_succ_self, if_true, reparentSlot, hch]
        by_cases ha : hasChild p (k.proc.take j) = true
        · simp only [ha, if_true]
          rw [wakeupSlot_setParent]
        · simp only [ha]
          simp
      · rw [List.getElem?_set_ne (Ne.symm hjn), hs j]
        cases hq : k.proc[j]? with
        | none => simp
        | some q =>
          simp only [Option.map_some', Option.some.injEq]
          by_cases hj : j < n
          · have hj1 : j < n + 1 := by omega
            simp only [hj, hj1, if_true, reparentSlot]
            by_cases ha : hasChild p (k.proc.take n) = true
            · simp only [ha, if_true]
              rw [wakeupSlot_idem]
            · simp only [ha]
              simp
          · have hj1 : ¬ j < n + 1 := by omega
            simp only [hj, hj1, if_false]
            by_cases ha : hasChild p (k.proc.take n) = true
            · simp only [ha, if_true]
              rw [wakeupSlot_idem]
            · simp only [ha]
              simp
    · simp only [hch, if_false]
      rw [hs j]
      have hany1 : hasChild p (k.proc.take (n + 1)) = hasChild p (k.proc.take n) := by
        simp [hany, hch]
      rw [hany1]
      cases hq : k.proc[j]? with
      | none => simp
      | some q =>
        simp only [Option.map_some', Option.some.injEq]
        by_cases hjn : j = n
        · subst hjn
          rw [hqn] at hq
          simp only [Option.some.injEq] at hq
          subst hq
          simp [reparentSlot, hch]
        · by_cases hj : j < n
          · have hj1 : j < n + 1 := by omega
            simp only [hj, hj1, if_true]
          · have hj1 : ¬ j < n + 1 := by omega
            simp only [hj, hj1, if_false]

/-- The loop of `reparent` in closed form, slot by slot. -/
theorem reparent_getElem? (me : Option Nat) (p : Nat) (k : Kernel) (j : Nat) :
    (reparent k me p).proc[j]? =
      (k.proc[j]?).map (reparentSlot me p k.initproc k.ticks (hasChild p k.proc) j) := by
  have h := (reparent_upto me p k k.proc.length (le_refl _)).2.2.2.2 j
  unfold reparent
  rw [h, List.take_length]
  cases hq : k.proc[j]? with
  | none => rfl
  | some q =>
    have hj : j < k.proc.length := by
      by_contra hlen
      rw [List.getElem?_eq_none (by omega)] at hq
      simp at hq
    simp [hj]

theorem reparent_frame (me : Option Nat) (p : Nat) (k : Kernel) :
    (reparent k me p).cpu = k.cpu ∧ (reparent k me p).initproc = k.initproc
    ∧ (reparent k me p).nextpid = k.nextpid ∧ (reparent k me p).ticks = k.ticks := by
  have h := reparent_upto me p k k.proc.length (le_refl _)
  exact ⟨h.1, h.2.1, h.2.2.1, h.2.2.2.1⟩

/-! ### exit -/

theorem wakeupSlot_self (j : Nat) (c : Chan) (t : Int) (q : proc) :
    wakeupSlot (some j) c t j q = q := by
  simp [wakeupSlot]

theorem lt_of_getElem?_some {ps : List proc} {i : Nat} {q : proc} (h : ps[i]? = some q) :
    i < ps.length := by
  by_contra hlen
  rw [List.getElem?_eq_none (by omega)] at h
  simp at h

theorem hasChild_iff (p : Nat) (ps : List proc) :
    hasChild p ps = true ↔ ∃ j : Nat, ∃ q : proc, ps[j]? = some q ∧ q.parent = some p := by
  simp only [hasChild, List.any_eq_true, decide_eq_true_eq]
  constructor
  · rintro ⟨q, hq, hp⟩
    obtain ⟨j, hj⟩ := List.mem_iff_getElem?.1 hq
    exact ⟨j, q, hj, hp⟩
  · rintro ⟨j, q, hj, hp⟩
    exact ⟨q, List.mem_iff_getElem?.2 ⟨j, hj⟩, hp⟩

theorem hasChild_set (p i : Nat) (ps : List proc) (q q1 : proc) (hq : ps[i]? = some q)
    (hpar : q1.parent = q.parent) : hasChild p (ps.set i q1) = hasChild p ps := by
  have hlt := lt_of_getElem?_some hq
  rw [Bool.eq_iff_iff, hasChild_iff, hasChild_iff]
  constructor
  · rintro ⟨j, r, hj, hp⟩
    by_cases hji : i = j
    · subst hji
      rw [List.getElem?_set_self hlt] at hj
      simp only [Option.some.injEq] at hj
      subst hj
      exact ⟨i, q, hq, by rw [← hpar]; exact hp⟩
    · rw [List.getElem?_set_ne hji] at hj
      exact ⟨j, r, hj, hp⟩
  · rintro ⟨j, r, hj, hp⟩
    by_cases hji : i = j
    · subst hji
      rw [hq] at hj
      simp only [Option.some.injEq] at hj
      subst hj
      exact ⟨i, q1, List.getElem?_set_self hlt, by rw [hpar]; exact hp⟩
    · exact ⟨j, r, by rw [List.getElem?_set_ne hji]; exact hj, hp⟩

theorem exitAccount_congr (c : cpu) (a b : proc) (h1 : a.endtime = b.endtime)
    (h2 : a.ctime = b.ctime) (h3 : a.wait_time = b.wait_time)
    (h4 : a.prev_burst_start = b.prev_burst_start)
    (h5 : a.next_burst_len = b.next_burst_len) : exitAccount c a = exitAccount c b := by
  simp only [exitAccount, h1, h2, h3, h4, h5]

/-- The state in which `exit` hands the processor over, slot by slot. -/
theorem exit_spec (k : Kernel) (p : Nat) (status : Int) (me : proc)
    (hroot : k.initproc ≠ some p) (hme : k.proc[p]? = some me) :
    ∃ k1, exit k p status = some k1
      ∧ k1.initproc = k.initproc ∧ k1.nextpid = k.nextpid ∧ k1.ticks = k.ticks
      ∧ k1.cpu = exitEpoch (if me.batch_process ≠ 0 then
                              exitAccount k.cpu { me with endtime := k.ticks }
                            else k.cpu)
      ∧ k1.proc[p]? = some
          { closeFiles me with
              parent := if me.parent = some p then k.initproc else me.parent,
              xstate := status, state := procstate.ZOMBIE, endtime := k.ticks }
      ∧ ∀ j, j ≠ p → k1.proc[j]? = (k.proc[j]?).map (fun q =>
          wakeupSlot (some p)
            (toChan (if me.parent = some p then k.initproc else me.parent)) k.ticks j
            (reparentSlot (some p) p k.initproc k.ticks (hasChild p k.proc) j q)) := by
  have hlt := lt_of_getElem?_some hme
  have h1p : (k.proc.set p (closeFiles me))[p]? = some (closeFiles me) :=
    List.getElem?_set_self hlt
  have hch : hasChild p (k.proc.set p (closeFiles me)) = hasChild p k.proc :=
    hasChild_set p p k.proc me _ hme rfl
  have h2 : ∀ j, (reparent { k with proc := k.proc.set p (closeFiles me) } (some p) p).proc[j]? =
      ((k.proc.set p (closeFiles me))[j]?).map
        (reparentSlot (some p) p k.initproc k.ticks (hasChild p k.proc) j) := by
    intro j
    rw [reparent_getElem?, hch]
  have h2p := h2 p
  rw [h1p] at h2p
  have hme2 : reparentSlot (some p) p k.initproc k.ticks (hasChild p k.proc) p (closeFiles me) =
      { closeFiles me with parent := if me.parent = some p then k.initproc else me.parent } := by
    unfold reparentSlot
    simp only [wakeupSlot_self]
    by_cases h : me.parent = some p
    · simp [h, closeFiles]
    · simp [h, closeFiles]
  simp only [Option.map_some'] at h2p
  rw [hme2] at h2p
  have hf := reparent_frame (some p) p { k with proc := k.proc.set p (closeFiles me) }
  unfold exit
  rw [if_neg hroot]
  simp only [hme, h2p]
  rw [wakeup_getElem?, h2p]
  simp only [Option.map_some', wakeupSlot_self]
  refine ⟨_, rfl, ?_, ?_, ?_, ?_, ?_, ?_⟩
  · exact hf.2.1
  · exact hf.2.2.1
  · exact hf.2.2.2
  · simp only [wakeup, hf.1]
    congr 1
    by_cases hb : me.batch_process = 0
    · simp [hb, closeFiles]
    · have hb1 : ¬ (closeFiles me).batch_process = 0 := hb
      simp only [ne_eq, hb, hb1, not_false_eq_true, if_true]
      apply exitAccount_congr
      · exact hf.2.2.2
      · rfl
      · rfl
      · rfl
      · rfl
  · simp only
    rw [List.getElem?_set_self (by
      simp only [wakeup, forSlots_length]
      exact lt_of_getElem?_some h2p)]
    simp [wakeup, hf.2.2.2]
  · intro j hj
    simp only
    rw [List.getElem?_set_ne (Ne.symm hj), wakeup_getElem?, h2 j,
      List.getElem?_set_ne (Ne.symm hj), hf.2.2.2]
    cases k.proc[j]? <;> rfl

/-! ### Batch accumulators -/

theorem exitAccount_fields (c : cpu) (p : proc) :
    (exitAccount c p).comp = c.comp + 1
    ∧ (exitAccount c p).nump = c.nump
    ∧ (exitAccount c p).stime = c.stime
    ∧ (exitAccount c p).tatime = c.tatime + (p.endtime - p.ctime)
    ∧ (exitAccount c p).wtime = c.wtime + p.wait_time
    ∧ (exitAccount c p).ctime = c.ctime + p.endtime
    ∧ (exitAccount c p).max_ctime = max c.max_ctime p.endtime
    ∧ (exitAccount c p).min_ctime = min c.min_ctime p.endtime
    ∧ (exitAccount c p).sched_policy = c.sched_policy := by
  have hmax : (if c.max_ctime < p.endtime then p.endtime else c.max_ctime)
      = max c.max_ctime p.endtime := by
    rw [max_def]
    split_ifs <;> omega
  have hmin : (if c.min_ctime > p.endtime then p.endtime else c.min_ctime)
      = min c.min_ctime p.endtime := by
    rw [min_def]
    split_ifs <;> omega
  rw [← hmax, ← hmin]
  unfold exitAccount
  simp only
  split_ifs <;> simp

theorem exitAccount_bursts (c : cpu) (p : proc) (h : c.sched_policy ≠ 1) :
    (exitAccount c p).nbursts = c.nbursts ∧ (exitAccount c p).tblen = c.tblen
    ∧ (exitAccount c p).max_blen = c.max_blen ∧ (exitAccount c p).min_blen = c.min_blen
    ∧ (exitAccount c p).nebursts = c.nebursts ∧ (exitAccount c p).teblen = c.teblen
    ∧ (exitAccount c p).max_belen = c.max_belen ∧ (exitAccount c p).min_belen = c.min_belen
    ∧ (exitAccount c p).ebursts = c.ebursts ∧ (exitAccount c p).tebursts = c.tebursts := by
  unfold exitAccount
  simp [h]

theorem exitEpoch_keep (c : cpu) (h : ¬ (c.comp ≠ 0 ∧ c.comp = c.nump)) : exitEpoch c = c := by
  unfold exitEpoch
  rw [if_neg h]

theorem exitEpoch_reset (c : cpu) (h0 : c.comp ≠ 0) (h : c.comp = c.nump) :
    (exitEpoch c).comp = 0 ∧ (exitEpoch c).nump = 0 ∧ (exitEpoch c).stime = -1
    ∧ (exitEpoch c).tatime = 0 ∧ (exitEpoch c).wtime = 0 ∧ (exitEpoch c).ctime = 0
    ∧ (exitEpoch c).max_ctime = 0 ∧ (exitEpoch c).min_ctime = 1000000000
    ∧ (c.sched_policy = 1 →
        (exitEpoch c).nbursts = 0 ∧ (exitEpoch c).tblen = 0 ∧ (exitEpoch c).max_blen = 0
        ∧ (exitEpoch c).min_blen = 1000000000 ∧ (exitEpoch c).nebursts = 0
        ∧ (exitEpoch c).teblen = 0 ∧ (exitEpoch c).max_belen = 0
        ∧ (exitEpoch c).min_belen = 1000000000 ∧ (exitEpoch c).ebursts = 0
        ∧ (exitEpoch c).tebursts = 0)
    ∧ (c.sched_policy ≠ 1 →
        (exitEpoch c).nbursts = c.nbursts ∧ (exitEpoch c).tblen = c.tblen
        ∧ (exitEpoch c).max_blen = c.max_blen ∧ (exitEpoch c).min_blen = c.min_blen
        ∧ (exitEpoch c).nebursts = c.nebursts ∧ (exitEpoch c).teblen = c.teblen
        ∧ (exitEpoch c).max_belen = c.max_belen ∧ (exitEpoch c).min_belen = c.min_belen
        ∧ (exitEpoch c).ebursts = c.ebursts ∧ (exitEpoch c).tebursts = c.tebursts) := by
  unfold exitEpoch
  rw [if_pos ⟨h0, h⟩]
  by_cases hp : c.sched_policy = 1 <;> simp [hp]

/-- C8: the batch accumulators are reset exactly at the end of the epoch.  When a batch
process exits on a core with completed count `comp >= 0` and expected count `nump`, the
accumulators comp, nump, tatime, wtime, ctime, max_ctime are 0, stime is -1 and min_ctime is
1000000000 afterwards if and only if `comp + 1 = nump`; otherwise comp is `comp + 1`, nump
and stime are kept, tatime has grown by `endtime - ctime` of the process (its endtime being
the current tick), wtime by its wait_time, ctime by its endtime, and max_ctime / min_ctime
are the max / min with its endtime. -/
theorem exit_batch_accumulators (k : Kernel) (p : Nat) (status : Int) (me : proc)
    (hroot : k.initproc ≠ some p) (hme : k.proc[p]? = some me)
    (hbatch : me.batch_process ≠ 0) (hcomp : 0 ≤ k.cpu.comp) :
    ∃ k1, exit k p status = some k1
      ∧ ((k1.cpu.comp = 0 ∧ k1.cpu.nump = 0 ∧ k1.cpu.tatime = 0 ∧ k1.cpu.wtime = 0
            ∧ k1.cpu.ctime = 0 ∧ k1.cpu.max_ctime = 0 ∧ k1.cpu.stime = -1
            ∧ k1.cpu.min_ctime = 1000000000)
          ↔ k.cpu.comp + 1 = k.cpu.nump)
      ∧ (k.cpu.comp + 1 ≠ k.cpu.nump →
          k1.cpu.comp = k.cpu.comp + 1 ∧ k1.cpu.nump = k.cpu.nump
          ∧ k1.cpu.stime = k.cpu.stime
          ∧ k1.cpu.tatime = k.cpu.tatime + (k.ticks - me.ctime)
          ∧ k1.cpu.wtime = k.cpu.wtime + me.wait_time
          ∧ k1.cpu.ctime = k.cpu.ctime + k.ticks
          ∧ k1.cpu.max_ctime = max k.cpu.max_ctime k.ticks
          ∧ k1.cpu.min_ctime = min k.cpu.min_ctime k.ticks) := by
  obtain ⟨k1, hex, _, _, _, hcpu, _, _⟩ := exit_spec k p status me hroot hme
  refine ⟨k1, hex, ?_⟩
  rw [if_pos hbatch] at hcpu
  obtain ⟨a1, a2, a3, a4, a5, a6, a7, a8, _⟩ :=
    exitAccount_fields k.cpu { me with endtime := k.ticks }
  simp only at a4 a5 a6 a7 a8
  by_cases h : k.cpu.comp + 1 = k.cpu.nump
  · have h0 : (exitAccount k.cpu { me with endtime := k.ticks }).comp ≠ 0 := by
      rw [a1]
      omega
    have hr := exitEpoch_reset _ h0 (by rw [a1, a2]; exact h)
    rw [← hcpu] at hr
    obtain ⟨r1, r2, r3, r4, r5, r6, r7, r8, _, _⟩ := hr
    exact ⟨⟨fun _ => h, fun _ => ⟨r1, r2, r4, r5, r6, r7, r3, r8⟩⟩, fun hne => absurd h hne⟩
  · have hk := exitEpoch_keep (exitAccount k.cpu { me with endtime := k.ticks })
      (by rw [a1, a2]; exact fun hh => h hh.2)
    rw [hk] at hcpu
    rw [hcpu]
    refine ⟨⟨fun hh => ?_, fun hh => absurd hh h⟩, fun _ => ⟨a1, a2, a3, a4, a5, a6, a7, a8⟩⟩
    have := hh.1
    rw [a1] at this
    omega

/-- C8 on `sjfEpoch` (comp = 0, nump = 1: the exit of slot 1 ends the epoch). -/
theorem exit_batch_accumulators_witness :
    ∃ k1, exit sjfEpoch 1 0 = some k1
      ∧ ((k1.cpu.comp = 0 ∧ k1.cpu.nump = 0 ∧ k1.cpu.tatime = 0 ∧ k1.cpu.wtime = 0
            ∧ k1.cpu.ctime = 0 ∧ k1.cpu.max_ctime = 0 ∧ k1.cpu.stime = -1
            ∧ k1.cpu.min_ctime = 1000000000)
          ↔ sjfEpoch.cpu.comp + 1 = sjfEpoch.cpu.nump)
      ∧ (sjfEpoch.cpu.comp + 1 ≠ sjfEpoch.cpu.nump →
          k1.cpu.comp = sjfEpoch.cpu.comp + 1 ∧ k1.cpu.nump = sjfEpoch.cpu.nump
          ∧ k1.cpu.stime = sjfEpoch.cpu.stime
          ∧ k1.cpu.tatime = sjfEpoch.cpu.tatime + (sjfEpoch.ticks - 10)
          ∧ k1.cpu.wtime = sjfEpoch.cpu.wtime + 4
          ∧ k1.cpu.ctime = sjfEpoch.cpu.ctime + sjfEpoch.ticks
          ∧ k1.cpu.max_ctime = max sjfEpoch.cpu.max_ctime sjfEpoch.ticks
          ∧ k1.cpu.min_ctime = min sjfEpoch.cpu.min_ctime sjfEpoch.ticks) :=
  exit_batch_accumulators sjfEpoch 1 0 _ (by decide) rfl (by decide) (by decide)

/-- C9 fails as stated: on `switchedEpoch` (policy 3) the exit of the last batch process
ends the epoch (comp and nump are reset to 0) and the burst accumulators keep the values
gathered before: nbursts = 5, tblen = 40, nebursts = 5, ebursts = 4, tebursts = 6. -/
theorem exit_keeps_burst_statistics :
    (exit switchedEpoch 1 0).map (fun k1 =>
        (k1.cpu.comp, k1.cpu.nump, k1.cpu.nbursts, k1.cpu.tblen, k1.cpu.nebursts,
         k1.cpu.ebursts, k1.cpu.tebursts))
      = some (0, 0, 5, 40, 5, 4, 6) := by
  rfl

/-- C9, amended: at the exit of a batch process that makes the completed count equal the
expected count (`comp + 1 = nump`, `comp >= 0`), the accumulators comp, nump, tatime, wtime,
ctime, max_ctime, stime and min_ctime are in their empty state under every policy; under
the SJF policy (`sched_policy == 1`) the burst accumulators nbursts, tblen, max_blen,
min_blen, nebursts, teblen, max_belen, min_belen, ebursts and tebursts are in their empty
state too, and under any other policy they are left as they were. -/
theorem exit_epoch_end (k : Kernel) (p : Nat) (status : Int) (me : proc)
    (hroot : k.initproc ≠ some p) (hme : k.proc[p]? = some me)
    (hbatch : me.batch_process ≠ 0) (hcomp : 0 ≤ k.cpu.comp)
    (hend : k.cpu.comp + 1 = k.cpu.nump) :
    ∃ k1, exit k p status = some k1
      ∧ k1.cpu.comp = 0 ∧ k1.cpu.nump = 0 ∧ k1.cpu.stime = -1 ∧ k1.cpu.tatime = 0
      ∧ k1.cpu.wtime = 0 ∧ k1.cpu.ctime = 0 ∧ k1.cpu.max_ctime = 0
      ∧ k1.cpu.min_ctime = 1000000000
      ∧ (k.cpu.sched_policy = 1 →
          k1.cpu.nbursts = 0 ∧ k1.cpu.tblen = 0 ∧ k1.cpu.max_blen = 0
          ∧ k1.cpu.min_blen = 1000000000 ∧ k1.cpu.nebursts = 0 ∧ k1.cpu.teblen = 0
          ∧ k1.cpu.max_belen = 0 ∧ k1.cpu.min_belen = 1000000000 ∧ k1.cpu.ebursts = 0
          ∧ k1.cpu.tebursts = 0)
      ∧ (k.cpu.sched_policy ≠ 1 →
          k1.cpu.nbursts = k.cpu.nbursts ∧ k1.cpu.tblen = k.cpu.tblen
          ∧ k1.cpu.max_blen = k.cpu.max_blen ∧ k1.cpu.min_blen = k.cpu.min_blen
          ∧ k1.cpu.nebursts = k.cpu.nebursts ∧ k1.cpu.teblen = k.cpu.teblen
          ∧ k1.cpu.max_belen = k.cpu.max_belen ∧ k1.cpu.min_belen = k.cpu.min_belen
          ∧ k1.cpu.ebursts = k.cpu.ebursts ∧ k1.cpu.tebursts = k.cpu.tebursts) := by
  obtain ⟨k1, hex, _, _, _, hcpu, _, _⟩ := exit_spec k p status me hroot hme
  refine ⟨k1, hex, ?_⟩
  rw [if_pos hbatch] at hcpu
  obtain ⟨a1, a2, _, _, _, _, _, _, a9⟩ :=
    exitAccount_fields k.cpu { me with endtime := k.ticks }
  have h0 : (exitAccount k.cpu { me with endtime := k.ticks }).comp ≠ 0 := by
    rw [a1]
    omega
  have hr := exitEpoch_reset _ h0 (by rw [a1, a2]; exact hend)
  rw [← hcpu, a9] at hr
  obtain ⟨r1, r2, r3, r4, r5, r6, r7, r8, r9, r10⟩ := hr
  refine ⟨r1, r2, r3, r4, r5, r6, r7, r8, r9, ?_⟩
  intro hpol
  have hb := exitAccount_bursts k.cpu { me with endtime := k.ticks } hpol
  have hk := r10 hpol
  obtain ⟨b1, b2, b3, b4, b5, b6, b7, b8, b9, b10⟩ := hb
  obtain ⟨c1, c2, c3, c4, c5, c6, c7, c8, c9, c10⟩ := hk
  exact ⟨by rw [c1, b1], by rw [c2, b2], by rw [c3, b3], by rw [c4, b4], by rw [c5, b5],
    by rw [c6, b6], by rw [c7, b7], by rw [c8, b8], by rw [c9, b9], by rw [c10, b10]⟩

/-- C9 amended, on `sjfEpoch` (policy 1): every accumulator is empty after the exit. -/
theorem exit_epoch_end_witness :
    ∃ k1, exit sjfEpoch 1 0 = some k1
      ∧ k1.cpu.comp = 0 ∧ k1.cpu.nump = 0 ∧ k1.cpu.stime = -1 ∧ k1.cpu.tatime = 0
      ∧ k1.cpu.wtime = 0 ∧ k1.cpu.ctime = 0 ∧ k1.cpu.max_ctime = 0
      ∧ k1.cpu.min_ctime = 1000000000
      ∧ (sjfEpoch.cpu.sched_policy = 1 →
          k1.cpu.nbursts = 0 ∧ k1.cpu.tblen = 0 ∧ k1.cpu.max_blen = 0
          ∧ k1.cpu.min_blen = 1000000000 ∧ k1.cpu.nebursts = 0 ∧ k1.cpu.teblen = 0
          ∧ k1.cpu.max_belen = 0 ∧ k1.cpu.min_belen = 1000000000 ∧ k1.cpu.ebursts = 0
          ∧ k1.cpu.tebursts = 0)
      ∧ (sjfEpoch.cpu.sched_policy ≠ 1 →
          k1.cpu.nbursts = sjfEpoch.cpu.nbursts ∧ k1.cpu.tblen = sjfEpoch.cpu.tblen
          ∧ k1.cpu.max_blen = sjfEpoch.cpu.max_blen ∧ k1.cpu.min_blen = sjfEpoch.cpu.min_blen
          ∧ k1.cpu.nebursts = sjfEpoch.cpu.nebursts ∧ k1.cpu.teblen = sjfEpoch.cpu.teblen
          ∧ k1.cpu.max_belen = sjfEpoch.cpu.max_belen
          ∧ k1.cpu.min_belen = sjfEpoch.cpu.min_belen
          ∧ k1.cpu.ebursts = sjfEpoch.cpu.ebursts
          ∧ k1.cpu.tebursts = sjfEpoch.cpu.tebursts) :=
  exit_epoch_end sjfEpoch 1 0 _ (by decide) rfl (by decide) (by decide) (by decide)

/-! ### SJF selection -/

theorem sjfScan_cons_skip (par : Param) (c : cpu)
    (hpol : c.sched_policy = par.SCHED_NPREEMPT_SJF) (p : proc) (ps : List proc) (i : Nat)
    (v : SjfVars) (hr : p.state ≠ procstate.RUNNABLE) :
    sjfScan par c i (p :: ps) v =
      ((sjfScan par c (i + 1) ps v).1, p :: (sjfScan par c (i + 1) ps v).2) := by
  rw [sjfScan]
  simp [hr, hpol]

theorem sjfScan_cons_batch (par : Param) (c : cpu)
    (hpol : c.sched_policy = par.SCHED_NPREEMPT_SJF) (p : proc) (ps : List proc) (i : Nat)
    (v : SjfVars) (hr : p.state = procstate.RUNNABLE) (hb : p.batch_process ≠ 0) :
    sjfScan par c i (p :: ps) v =
      ((sjfScan par c (i + 1) ps
          (if v.min_burst_len = -1 ∨ v.min_burst_len > p.next_burst_len then
            { v with found := 1, min_burst_len := p.next_burst_len, p_to_sched := some i }
           else { v with found := 1 })).1,
       p :: (sjfScan par c (i + 1) ps
          (if v.min_burst_len = -1 ∨ v.min_burst_len > p.next_burst_len then
            { v with found := 1, min_burst_len := p.next_burst_len, p_to_sched := some i }
           else { v with found := 1 })).2) := by
  rw [sjfScan]
  by_cases h1 : v.min_burst_len = -1
  · simp [hr, hb, hpol, h1]
  · by_cases h2 : v.min_burst_len > p.next_burst_len
    · simp [hr, hb, hpol, h1, h2]
    · simp [hr, hb, hpol, h1, h2]

/-- The SJF scan over a table without RUNNABLE non-batch slots: the table and the break
variables are untouched, and either the leader it was entered with is kept (then no
RUNNABLE slot beats it) or the new leader is the first slot of minimal prediction. -/
theorem sjfScan_spec (par : Param) (c : cpu)
    (hpol : c.sched_policy = par.SCHED_NPREEMPT_SJF) (ps : List proc) (i : Nat) (v : SjfVars)
    (hbatch : ∀ q ∈ ps, q.state = procstate.RUNNABLE → q.batch_process ≠ 0)
    (hnn : ∀ q ∈ ps, q.state = procstate.RUNNABLE → 0 ≤ q.next_burst_len) :
    (sjfScan par c i ps v).2 = ps
    ∧ (sjfScan par c i ps v).1.switched = v.switched
    ∧ (sjfScan par c i ps v).1.flag = v.flag
    ∧ (v.found = 1 → (sjfScan par c i ps v).1.found = 1)
    ∧ ((∃ q ∈ ps, q.state = procstate.RUNNABLE) → (sjfScan par c i ps v).1.found = 1)
    ∧ (((sjfScan par c i ps v).1.min_burst_len = v.min_burst_len
          ∧ (sjfScan par c i ps v).1.p_to_sched = v.p_to_sched
          ∧ ∀ q ∈ ps, q.state = procstate.RUNNABLE →
              v.min_burst_len ≠ -1 ∧ v.min_burst_len ≤ q.next_burst_len)
       ∨ (∃ j : Nat, ∃ q : proc, ps[j]? = some q ∧ q.state = procstate.RUNNABLE
            ∧ (sjfScan par c i ps v).1.p_to_sched = some (i + j)
            ∧ (sjfScan par c i ps v).1.min_burst_len = q.next_burst_len
            ∧ (v.min_burst_len = -1 ∨ q.next_burst_len < v.min_burst_len)
            ∧ ∀ (j1 : Nat) (q1 : proc), ps[j1]? = some q1 → q1.state = procstate.RUNNABLE →
                q.next_burst_len ≤ q1.next_burst_len
                ∧ (q1.next_burst_len = q.next_burst_len → j ≤ j1))) := by
  induction ps generalizing i v with
  | nil =>
    refine ⟨rfl, rfl, rfl, fun h => h, ?_, Or.inl ⟨rfl, rfl, ?_⟩⟩
    · rintro ⟨q, hq, _⟩
      simp at hq
    · intro q hq
      simp at hq
  | cons p ps ih =>
    have hb1 : ∀ q ∈ ps, q.state = procstate.RUNNABLE → q.batch_process ≠ 0 :=
      fun q hq => hbatch q (List.mem_cons_of_mem _ hq)
    have hn1 : ∀ q ∈ ps, q.state = procstate.RUNNABLE → 0 ≤ q.next_burst_len :=
      fun q hq => hnn q (List.mem_cons_of_mem _ hq)
    by_cases hr : p.state = procstate.RUNNABLE
    · have hpb := hbatch p (List.mem_cons_self _ _) hr
      have hpn := hnn p (List.mem_cons_self _ _) hr
      rw [sjfScan_cons_batch par c hpol p ps i v hr hpb]
      by_cases hlead : v.min_burst_len = -1 ∨ v.min_burst_len > p.next_burst_len
      · rw [if_pos hlead]
        obtain ⟨h1, h2, h3, h4, _, h6⟩ := ih (i + 1)
          { v with found := 1, min_burst_len := p.next_burst_len, p_to_sched := some i }
          hb1 hn1
        refine ⟨by rw [h1], h2, h3, fun _ => h4 rfl, fun _ => h4 rfl, Or.inr ?_⟩
        rcases h6 with ⟨a1, a2, a3⟩ | ⟨j, q, b1, b2, b3, b4, b5, b6⟩
        · refine ⟨0, p, by simp, hr, a2, a1, ?_, ?_⟩
          · rcases hlead with h | h
            · exact Or.inl h
            · exact Or.inr h
          · intro j1 q1 hj1 hq1
            cases j1 with
            | zero =>
              simp only [List.getElem?_cons_zero, Option.some.injEq] at hj1
              subst hj1
              exact ⟨le_refl _, fun _ => le_refl _⟩
            | succ j1 =>
              simp only [List.getElem?_cons_succ] at hj1
              exact ⟨(a3 q1 (List.mem_iff_getElem?.2 ⟨j1, hj1⟩) hq1).2, fun _ => Nat.zero_le _⟩
        · simp only at b5
          have hlt : q.next_burst_len < p.next_burst_len := by
            rcases b5 with h | h
            · omega
            · exact h
          refine ⟨j + 1, q, by simpa using b1, b2, by rw [b3]; congr 1; omega, b4, ?_, ?_⟩
          · rcases hlead with h | h
            · exact Or.inl h
            · exact Or.inr (by omega)
          · intro j1 q1 hj1 hq1
            cases j1 with
            | zero =>
              simp only [List.getElem?_cons_zero, Option.some.injEq] at hj1
              subst hj1
              exact ⟨by omega, fun h => by omega⟩
            | succ j1 =>
              simp only [List.getElem?_cons_succ] at hj1
              have := b6 j1 q1 hj1 hq1
              exact ⟨this.1, fun h => by have := this.2 h; omega⟩
      · rw [if_neg hlead]
        have hv1 : v.min_burst_len ≠ -1 := fun h => hlead (Or.inl h)
        have hv2 : v.min_burst_len ≤ p.next_burst_len := by
          by_contra h
          exact hlead (Or.inr (by omega))
        obtain ⟨h1, h2, h3, h4, _, h6⟩ := ih (i + 1) { v with found := 1 } hb1 hn1
        refine ⟨by rw [h1], h2, h3, fun _ => h4 rfl, fun _ => h4 rfl, ?_⟩
        rcases h6 with ⟨a1, a2, a3⟩ | ⟨j, q, b1, b2, b3, b4, b5, b6⟩
        · refine Or.inl ⟨a1, a2, ?_⟩
          intro q hq hqr
          rcases List.mem_cons.1 hq with h | h
          · subst h
            exact ⟨hv1, hv2⟩
          · exact a3 q h hqr
        · simp only at b5
          have hlt : q.next_burst_len < v.min_burst_len := by
            rcases b5 with h | h
            · exact absurd h hv1
            · exact h
          refine Or.inr ⟨j + 1, q, by simpa using b1, b2, by rw [b3]; congr 1; omega, b4,
            Or.inr hlt, ?_⟩
          intro j1 q1 hj1 hq1
          cases j1 with
          | zero =>
            simp only [List.getElem?_cons_zero, Option.some.injEq] at hj1
            subst hj1
            exact ⟨by omega, fun h => by omega⟩
          | succ j1 =>
            simp only [List.getElem?_cons_succ] at hj1
            have := b6 j1 q1 hj1 hq1
            exact ⟨this.1, fun h => by have := this.2 h; omega⟩
    · rw [sjfScan_cons_skip par c hpol p ps i v hr]
      obtain ⟨h1, h2, h3, h4, h5, h6⟩ := ih (i + 1) v hb1 hn1
      refine ⟨by rw [h1], h2, h3, h4, ?_, ?_⟩
      · rintro ⟨q, hq, hqr⟩
        rcases List.mem_cons.1 hq with h | h
        · subst h
          exact absurd hqr hr
        · exact h5 ⟨q, h, hqr⟩
      · rcases h6 with ⟨a1, a2, a3⟩ | ⟨j, q, b1, b2, b3, b4, b5, b6⟩
        · refine Or.inl ⟨a1, a2, ?_⟩
          intro q hq hqr
          rcases List.mem_cons.1 hq with h | h
          · subst h
            exact absurd hqr hr
          · exact a3 q h hqr
        · refine Or.inr ⟨j + 1, q, by simpa using b1, b2, by rw [b3]; congr 1; omega, b4,
            b5, ?_⟩
          intro j1 q1 hj1 hq1
          cases j1 with
          | zero =>
            simp only [List.getElem?_cons_zero, Option.some.injEq] at hj1
            subst hj1
            exact absurd hq1 hr
          | succ j1 =>
            simp only [List.getElem?_cons_succ] at hj1
            have := b6 j1 q1 hj1 hq1
            exact ⟨this.1, fun h => by have := this.2 h; omega⟩

/-- C3: SJF selection is minimal with first-found tie-break.  Under the SJF policy, on a
table with non-negative predicted burst lengths, no RUNNABLE non-batch slot and at least
one RUNNABLE batch slot, one scheduler iteration switches to a RUNNABLE batch slot `j`
whose `next_burst_len` is at most that of every RUNNABLE batch slot and which is the
lowest-indexed slot with that value; the slot is dispatched with its wait time accounted,
`wait_st_time = -1`, state RUNNING and `prev_burst_start` the current tick. -/
theorem sjf_selects_first_shortest (par : Param) (k : Kernel)
    (hpol : k.cpu.sched_policy = par.SCHED_NPREEMPT_SJF)
    (hfcfs : par.SCHED_NPREEMPT_SJF ≠ par.SCHED_NPREEMPT_FCFS)
    (hrr : par.SCHED_NPREEMPT_SJF ≠ par.SCHED_PREEMPT_RR)
    (hnn : ∀ q ∈ k.proc, 0 ≤ q.next_burst_len)
    (hbatch : ∀ q ∈ k.proc, q.state = procstate.RUNNABLE → q.batch_process ≠ 0)
    (hex : ∃ q ∈ k.proc, q.state = procstate.RUNNABLE ∧ q.batch_process ≠ 0) :
    ∃ j : Nat, ∃ q : proc, k.proc[j]? = some q ∧ q.state = procstate.RUNNABLE
      ∧ q.batch_process ≠ 0
      ∧ (∀ (j1 : Nat) (q1 : proc), k.proc[j1]? = some q1 →
          q1.state = procstate.RUNNABLE → q1.batch_process ≠ 0 →
          q.next_burst_len ≤ q1.next_burst_len
          ∧ (q1.next_burst_len = q.next_burst_len → j ≤ j1))
      ∧ scheduler par k =
          Dispatch.run
            { k with
              proc := (k.proc.set j
                { q with wait_time := q.wait_time + (k.ticks - q.wait_st_time),
                         wait_st_time := -1, state := procstate.RUNNING,
                         prev_burst_start := k.ticks }),
              cpu := { k.cpu with proc := some j } } j := by
  obtain ⟨h1, h2, h3, _, h5, h6⟩ := sjfScan_spec par k.cpu hpol k.proc 0 sjfInit hbatch
    (fun q hq _ => hnn q hq)
  have hfound := h5 (by
    obtain ⟨q, hq, hqr, _⟩ := hex
    exact ⟨q, hq, hqr⟩)
  rcases h6 with ⟨_, _, a3⟩ | ⟨j, q, b1, b2, b3, b4, _, b6⟩
  · obtain ⟨q, hq, hqr, _⟩ := hex
    exact absurd rfl (a3 q hq hqr).1
  · refine ⟨j, q, b1, b2, hbatch q (List.mem_iff_getElem?.2 ⟨j, b1⟩) b2,
      fun j1 q1 hj1 hq1 _ => b6 j1 q1 hj1 hq1, ?_⟩
    have hp1 : ¬ (par.SCHED_NPREEMPT_SJF = par.SCHED_NPREEMPT_FCFS
        ∨ par.SCHED_NPREEMPT_SJF = par.SCHED_PREEMPT_RR) := by
      rintro (h | h)
      · exact hfcfs h
      · exact hrr h
    unfold scheduler
    rw [hpol, if_neg hp1, if_pos rfl]
    have h2n : (sjfScan par k.cpu 0 k.proc sjfInit).1.switched = none := h2
    have h3n : (sjfScan par k.cpu 0 k.proc sjfInit).1.flag = 0 := h3
    have b3n : (sjfScan par k.cpu 0 k.proc sjfInit).1.p_to_sched = some j := by
      rw [b3, Nat.zero_add]
    unfold scheduler_sjf
    simp only [h1, h2n, h3n, hfound, b3n, b1]
    simp

/-- C3 on `sjfSample` (predictions 3, 2, 2 in slots 1, 2, 3): slot 2 is dispatched. -/
theorem sjf_selects_first_shortest_witness :
    (∃ j : Nat, ∃ q : proc, sjfSample.proc[j]? = some q ∧ q.state = procstate.RUNNABLE
      ∧ q.batch_process ≠ 0
      ∧ (∀ (j1 : Nat) (q1 : proc), sjfSample.proc[j1]? = some q1 →
          q1.state = procstate.RUNNABLE → q1.batch_process ≠ 0 →
          q.next_burst_len ≤ q1.next_burst_len
          ∧ (q1.next_burst_len = q.next_burst_len → j ≤ j1))
      ∧ scheduler sampleParam sjfSample =
          Dispatch.run
            { sjfSample with
              proc := (sjfSample.proc.set j
                { q with wait_time := q.wait_time + (sjfSample.ticks - q.wait_st_time),
                         wait_st_time := -1, state := procstate.RUNNING,
                         prev_burst_start := sjfSample.ticks }),
              cpu := { sjfSample.cpu with proc := some j } } j)
    ∧ (∃ k1, scheduler sampleParam sjfSample = Dispatch.run k1 2) :=
  ⟨sjf_selects_first_shortest sampleParam sjfSample rfl (by decide) (by decide) (by decide)
    (by decide) (by decide), ⟨_, rfl⟩⟩

/-! ### UNIX selection -/

/-- C2 fails on the code.  From `unixBoot` the process in slot 0 creates two batch children
with `forkp(-1)` and `forkp(5)` and blocks in `wait`; the next scheduler iteration under the
UNIX policy finds both children RUNNABLE with effective priorities -1 (slot 1) and 5
(slot 2) and switches to slot 2: the value -1 of `min_priority` is taken for "no candidate
yet", so the leader of effective priority -1 is replaced by the next candidate. -/
theorem unix_dispatch_not_minimal :
    ∃ k1 k2 k3 k4 : Kernel,
      forkp unixBoot okOracle 0 (-1) = some (k1, 2)
      ∧ forkp k1 okOracle 0 5 = some (k2, 3)
      ∧ wait sampleParam k2 0 0 (fun _ => true) = some (WaitResult.sleeps k3)
      ∧ (switchedBack k3).proc.map
            (fun q => (q.state, q.batch_process, effectivePriority q))
          = [(procstate.SLEEPING, 0, 50), (procstate.RUNNABLE, 1, -1),
             (procstate.RUNNABLE, 1, 5), (procstate.UNUSED, 0, 0)]
      ∧ scheduler sampleParam (switchedBack k3) = Dispatch.run k4 2
      ∧ k4.proc.map
            (fun q => (q.state, q.batch_process, effectivePriority q))
          = [(procstate.SLEEPING, 0, 50), (procstate.RUNNABLE, 1, -1),
             (procstate.RUNNING, 1, 5), (procstate.UNUSED, 0, 0)] :=
  ⟨_, _, _, _, rfl, rfl, rfl, rfl, rfl, rfl⟩

/-- The scenario of C2: with batch children of priorities 5, 1, 3 and zero usage, the one
with priority 1 (slot 2) is dispatched. -/
theorem unix_scenario_5_1_3 :
    ∃ k1 k2 k3 k4 k5 : Kernel,
      forkp unixBoot okOracle 0 5 = some (k1, 2)
      ∧ forkp k1 okOracle 0 1 = some (k2, 3)
      ∧ forkp k2 okOracle 0 3 = some (k3, 4)
      ∧ wait sampleParam k3 0 0 (fun _ => true) = some (WaitResult.sleeps k4)
      ∧ scheduler sampleParam (switchedBack k4) = Dispatch.run k5 2
      ∧ k5.proc.map (fun q => (q.state, q.batch_process, q.priority))
          = [(procstate.SLEEPING, 0, 0), (procstate.RUNNABLE, 1, 5),
             (procstate.RUNNING, 1, 1), (procstate.RUNNABLE, 1, 3)] :=
  ⟨_, _, _, _, _, rfl, rfl, rfl, rfl, rfl, rfl⟩

/-! ### wait -/

theorem waitScan_nochild (p : Nat) (ps : List proc) (i : Nat) (h : Int)
    (hno : ∀ q ∈ ps, q.parent ≠ some p) : waitScan p i ps h = Sum.inr h := by
  induction ps generalizing i with
  | nil => rfl
  | cons a ps ih =>
    rw [waitScan, if_neg (hno a (List.mem_cons_self _ _))]
    exact ih (i + 1) (fun q hq => hno q (List.mem_cons_of_mem _ hq))

theorem waitScan_nozombie (p : Nat) (ps : List proc) (i : Nat) (h : Int)
    (hno : ∀ q ∈ ps, q.parent = some p → q.state ≠ procstate.ZOMBIE) :
    ∃ h1, waitScan p i ps h = Sum.inr h1 := by
  induction ps generalizing i h with
  | nil => exact ⟨h, rfl⟩
  | cons a ps ih =>
    have hno1 : ∀ q ∈ ps, q.parent = some p → q.state ≠ procstate.ZOMBIE :=
      fun q hq => hno q (List.mem_cons_of_mem _ hq)
    rw [waitScan]
    by_cases hp : a.parent = some p
    · rw [if_pos hp, if_neg (hno a (List.mem_cons_self _ _) hp)]
      exact ih (i + 1) 1 hno1
    · rw [if_neg hp]
      exact ih (i + 1) h hno1

theorem waitScan_first (p : Nat) (ps : List proc) (i : Nat) (h : Int) (j : Nat) (q : proc)
    (hq : ps[j]? = some q) (hpar : q.parent = some p) (hz : q.state = procstate.ZOMBIE)
    (hfirst : ∀ r ∈ ps.take j, ¬ (r.parent = some p ∧ r.state = procstate.ZOMBIE)) :
    waitScan p i ps h = Sum.inl (i + j, q) := by
  induction ps generalizing i h j with
  | nil => simp at hq
  | cons a ps ih =>
    cases j with
    | zero =>
      simp only [List.getElem?_cons_zero, Option.some.injEq] at hq
      subst hq
      rw [waitScan, if_pos hpar, if_pos hz]
      rfl
    | succ j =>
      simp only [List.getElem?_cons_succ] at hq
      have ha : ¬ (a.parent = some p ∧ a.state = procstate.ZOMBIE) := hfirst a (by simp)
      have hf1 : ∀ r ∈ ps.take j, ¬ (r.parent = some p ∧ r.state = procstate.ZOMBIE) :=
        fun r hr => hfirst r (by simp [hr])
      have harith : i + (j + 1) = i + 1 + j := by omega
      rw [waitScan, harith]
      by_cases hp : a.parent = some p
      · rw [if_pos hp, if_neg (fun hzz => ha ⟨hp, hzz⟩)]
        exact ih (i + 1) 1 j hq hf1
      · rw [if_neg hp]
        exact ih (i + 1) h j hq hf1

theorem waitpidScan_nochild (p : Nat) (pid : Int) (ps : List proc) (i : Nat) (h : Int)
    (hno : ∀ q ∈ ps, ¬ (q.parent = some p ∧ q.pid = pid)) :
    waitpidScan p pid i ps h = Sum.inr h := by
  induction ps generalizing i with
  | nil => rfl
  | cons a ps ih =>
    rw [waitpidScan, if_neg (hno a (List.mem_cons_self _ _))]
    exact ih (i + 1) (fun q hq => hno q (List.mem_cons_of_mem _ hq))

theorem waitpidScan_nozombie (p : Nat) (pid : Int) (ps : List proc) (i : Nat) (h : Int)
    (hno : ∀ q ∈ ps, q.parent = some p → q.state ≠ procstate.ZOMBIE) :
    ∃ h1, waitpidScan p pid i ps h = Sum.inr h1 := by
  induction ps generalizing i h with
  | nil => exact ⟨h, rfl⟩
  | cons a ps ih =>
    have hno1 : ∀ q ∈ ps, q.parent = some p → q.state ≠ procstate.ZOMBIE :=
      fun q hq => hno q (List.mem_cons_of_mem _ hq)
    rw [waitpidScan]
    by_cases hp : a.parent = some p ∧ a.pid = pid
    · rw [if_pos hp, if_neg (hno a (List.mem_cons_self _ _) hp.1)]
      exact ih (i + 1) 1 hno1
    · rw [if_neg hp]
      exact ih (i + 1) h hno1

/-- C7: `wait` fails fast.  For a caller `p` that no slot has as parent, `wait` returns -1
without sleeping, without copying anything out and with the state unchanged; `waitpid(pid)`
does the same when no slot is a child of the caller with that pid; and both do the same
when the caller is marked killed and none of its children is ZOMBIE. -/
theorem wait_fails_fast (par : Param) (k : Kernel) (p : Nat) (me : proc) (pid addr : Int)
    (copyout : Int → Bool) (hme : k.proc[p]? = some me) :
    ((∀ q ∈ k.proc, q.parent ≠ some p) →
        wait par k p addr copyout = some (WaitResult.ret (-1) k none))
    ∧ ((∀ q ∈ k.proc, ¬ (q.parent = some p ∧ q.pid = pid)) →
        waitpid par k p pid addr copyout = some (WaitResult.ret (-1) k none))
    ∧ (me.killed ≠ 0 → (∀ q ∈ k.proc, q.parent = some p → q.state ≠ procstate.ZOMBIE) →
        wait par k p addr copyout = some (WaitResult.ret (-1) k none)
        ∧ waitpid par k p pid addr copyout = some (WaitResult.ret (-1) k none)) := by
  refine ⟨?_, ?_, ?_⟩
  · intro hno
    simp [wait, hme, waitScan_nochild p k.proc 0 0 hno]
  · intro hno
    simp [waitpid, waitpidPass, hme, waitpidScan_nochild p pid k.proc 0 0 hno]
  · intro hk hno
    obtain ⟨h1, hh1⟩ := waitScan_nozombie p k.proc 0 0 hno
    obtain ⟨h2, hh2⟩ := waitpidScan_nozombie p pid k.proc 0 0 hno
    constructor
    · simp [wait, hme, hh1, hk]
    · simp [waitpid, waitpidPass, hme, hh2, hk]

/-- C7 on samples: the caller of `sleepers` (slot 0) has no child, so `wait` and
`waitpid(3)` return -1 at once; the killed caller of `killedParent` has a child that has
not exited, and `wait` and `waitpid(2)` return -1 at once. -/
theorem wait_fails_fast_witness :
    wait sampleParam sleepers 0 64 (fun _ => true) = some (WaitResult.ret (-1) sleepers none)
    ∧ waitpid sampleParam sleepers 0 3 64 (fun _ => true)
        = some (WaitResult.ret (-1) sleepers none)
    ∧ wait sampleParam killedParent 0 64 (fun _ => true)
        = some (WaitResult.ret (-1) killedParent none)
    ∧ waitpid sampleParam killedParent 0 2 64 (fun _ => true)
        = some (WaitResult.ret (-1) killedParent none) :=
  ⟨(wait_fails_fast sampleParam sleepers 0 _ 3 64 (fun _ => true) rfl).1 (by decide),
   (wait_fails_fast sampleParam sleepers 0 _ 3 64 (fun _ => true) rfl).2.1 (by decide),
   ((wait_fails_fast sampleParam killedParent 0 _ 2 64 (fun _ => true) rfl).2.2
      (by decide) (by decide)).1,
   ((wait_fails_fast sampleParam killedParent 0 _ 2 64 (fun _ => true) rfl).2.2
      (by decide) (by decide)).2⟩

theorem wait_reaps (par : Param) (k : Kernel) (p : Nat) (me : proc) (addr : Int)
    (copyout : Int → Bool) (j : Nat) (q : proc) (hme : k.proc[p]? = some me)
    (hq : k.proc[j]? = some q) (hpar : q.parent = some p) (hz : q.state = procstate.ZOMBIE)
    (hfirst : ∀ r ∈ k.proc.take j, ¬ (r.parent = some p ∧ r.state = procstate.ZOMBIE))
    (hco : addr = 0 ∨ copyout addr = true) :
    wait par k p addr copyout =
      some (WaitResult.ret q.pid { k with proc := k.proc.set j (freeproc q) }
        (if addr ≠ 0 then some (addr, q.xstate) else none)) := by
  have hs := waitScan_first p k.proc 0 0 j q hq hpar hz hfirst
  rw [Nat.zero_add] at hs
  have hc : ¬ (addr ≠ 0 ∧ copyout addr = false) := by
    rintro ⟨h1, h2⟩
    rcases hco with h | h
    · exact h1 h
    · rw [h] at h2
      exact Bool.noConfusion h2
  simp only [wait, hme, hs]
  rw [if_neg hc]

/-! ### allocation and fork -/

theorem findUnused_some (ps : List proc) (i c : Nat) (h : findUnused i ps = some c) :
    ∃ j : Nat, ∃ u : proc, c = i + j ∧ ps[j]? = some u ∧ u.state = procstate.UNUSED
      ∧ ∀ r ∈ ps.take j, r.state ≠ procstate.UNUSED := by
  induction ps generalizing i with
  | nil => simp [findUnused] at h
  | cons a ps ih =>
    rw [findUnused] at h
    by_cases ha : a.state = procstate.UNUSED
    · rw [if_pos ha] at h
      simp only [Option.some.injEq] at h
      exact ⟨0, a, by omega, by simp, ha, by simp⟩
    · rw [if_neg ha] at h
      obtain ⟨j, u, hc, hu, hus, hf⟩ := ih (i + 1) h
      refine ⟨j + 1, u, by omega, by simpa using hu, hus, ?_⟩
      intro r hr
      simp only [List.take_succ_cons, List.mem_cons] at hr
      rcases hr with h1 | h1
      · subst h1
        exact ha
      · exact hf r h1

theorem findUnused_first (ps : List proc) (i j : Nat) (u : proc) (hu : ps[j]? = some u)
    (hus : u.state = procstate.UNUSED) (hf : ∀ r ∈ ps.take j, r.state ≠ procstate.UNUSED) :
    findUnused i ps = some (i + j) := by
  induction ps generalizing i j with
  | nil => simp at hu
  | cons a ps ih =>
    cases j with
    | zero =>
      simp only [List.getElem?_cons_zero, Option.some.injEq] at hu
      subst hu
      rw [findUnused, if_pos hus]
      rfl
    | succ j =>
      simp only [List.getElem?_cons_succ] at hu
      have ha : a.state ≠ procstate.UNUSED := hf a (by simp)
      rw [findUnused, if_neg ha, ih (i + 1) j hu (fun r hr => hf r (by simp [hr]))]
      congr 1
      omega

/-- A successful `allocproc`: the slot is the first UNUSED one and the only one written. -/
theorem allocproc_some (k : Kernel) (o : Oracle) (k1 : Kernel) (i : Nat)
    (h : allocproc k o = (k1, some i)) :
    findUnused 0 k.proc = some i
    ∧ k1.cpu = k.cpu ∧ k1.initproc = k.initproc ∧ k1.ticks = k.ticks
    ∧ k1.nextpid = k.nextpid + 1
    ∧ (∃ u np : proc, k.proc[i]? = some u ∧ k1.proc = k.proc.set i np ∧ np.pid = k.nextpid
        ∧ np.parent = u.parent) := by
  unfold allocproc at h
  cases hf : findUnused 0 k.proc with
  | none => simp [hf] at h
  | some c =>
    simp only [hf] at h
    cases hu : k.proc[c]? with
    | none => simp [hu] at h
    | some u =>
      simp only [hu] at h
      cases hk : o.kalloc with
      | none => simp [hk] at h
      | some tf =>
        simp only [hk] at h
        cases hp : o.proc_pagetable with
        | none => simp [hp] at h
        | some pt =>
          simp only [hp, Prod.mk.injEq, Option.some.injEq] at h
          obtain ⟨h1, h2⟩ := h
          subst h2
          subst h1
          exact ⟨rfl, rfl, rfl, rfl, rfl, u, _, hu, rfl, rfl, rfl⟩

/-- A successful `fork`: the child sits in the first UNUSED slot, has the returned pid and
the caller as parent and is RUNNABLE; no other slot is written. -/
theorem fork_success (k : Kernel) (o : Oracle) (p : Nat) (k1 : Kernel) (pid : Int)
    (hfork : fork k o p = some (k1, pid)) (hpid : pid ≠ -1) :
    ∃ c : Nat, ∃ ch : proc, findUnused 0 k.proc = some c
      ∧ k1.cpu = k.cpu ∧ k1.initproc = k.initproc ∧ k1.ticks = k.ticks
      ∧ k1.nextpid = k.nextpid + 1
      ∧ k1.proc = k.proc.set c ch
      ∧ c < k.proc.length
      ∧ ch.pid = pid ∧ pid = k.nextpid ∧ ch.parent = some p
      ∧ ch.state = procstate.RUNNABLE ∧ ch.wait_st_time = k.ticks := by
  unfold fork at hfork
  cases ha : allocproc k o with
  | mk ka r =>
    cases r with
    | none =>
      simp only [ha] at hfork
      split at hfork
      · simp only [Option.some.injEq, Prod.mk.injEq] at hfork
        exact absurd hfork.2.symm hpid
      · simp at hfork
    | some i =>
      obtain ⟨hfu, hc, hi, ht, hn, u, np, hu, hset, hnp, _⟩ := allocproc_some k o ka i ha
      simp only [ha] at hfork
      split at hfork
      · rename_i me np1 hme hnp1
        split at hfork
        · simp only [Option.some.injEq, Prod.mk.injEq] at hfork
          exact absurd hfork.2.symm hpid
        · split at hfork
          · rename_i tf tf1 htf htf1
            simp only [Option.some.injEq, Prod.mk.injEq] at hfork
            obtain ⟨h1, h2⟩ := hfork
            have hlt := lt_of_getElem?_some hu
            have hnp2 : np1 = np := by
              rw [hset, List.getElem?_set_self hlt] at hnp1
              simp only [Option.some.injEq] at hnp1
              exact hnp1.symm
            subst h1
            refine ⟨i,
              { np1 with sz := me.sz, trapframe := some { tf with a0 := 0 },
                         ofile := dupFiles me.ofile np1.ofile, cwd := me.cwd, name := me.name,
                         parent := some p, state := procstate.RUNNABLE,
                         wait_st_time := k.ticks },
              hfu, hc, hi, ht, hn, ?_, hlt, h2, ?_, rfl, rfl, rfl⟩
            · simp only [hset, List.set_set, ht]
            · rw [← h2, hnp2, hnp]
          · simp at hfork
      · simp at hfork

theorem mem_take_getElem? {ps : List proc} {c : Nat} {r : proc} (h : r ∈ ps.take c) :
    ∃ n : Nat, n < c ∧ ps[n]? = some r := by
  obtain ⟨n, hn⟩ := List.mem_iff_getElem?.1 h
  rw [List.getElem?_take] at hn
  by_cases hlt : n < c
  · rw [if_pos hlt] at hn
    exact ⟨n, hlt, hn⟩
  · rw [if_neg hlt] at hn
    simp at hn

theorem wakeupSlot_unused (me : Option Nat) (c : Chan) (t : Int) (j : Nat) (q : proc)
    (h : q.state ≠ procstate.UNUSED) : (wakeupSlot me c t j q).state ≠ procstate.UNUSED := by
  unfold wakeupSlot
  split_ifs
  · simp
  · exact h
  · exact h

theorem reparentSlot_unused (me : Option Nat) (p : Nat) (init : Option Nat) (t : Int)
    (any : Bool) (j : Nat) (q : proc) (h : q.state ≠ procstate.UNUSED) :
    (reparentSlot me p init t any j q).state ≠ procstate.UNUSED := by
  unfold reparentSlot
  simp only
  split_ifs
  · exact wakeupSlot_unused _ _ _ _ _ h
  · exact wakeupSlot_unused _ _ _ _ _ h
  · exact h
  · exact h

/-- C1: round trip fork / exit / wait.  Let a live process `p` call `fork` with success and
return value `pid`, in a table whose root process is live.  Then the child sits in the
first free slot `c`; its `exit(code)` runs to the end; and if `p` then calls `wait(addr)`
with that child as its only ZOMBIE child and the copy-out succeeding, `wait` returns `pid`,
the value copied out to `addr` (when `addr` is not null) is `code`, and the child's slot is
UNUSED afterwards and is the slot the next `allocproc` selects. -/
theorem fork_exit_wait_roundtrip (par : Param) (k : Kernel) (o : Oracle) (p : Nat) (me : proc)
    (code addr : Int) (copyout : Int → Bool) (k1 : Kernel) (pid : Int)
    (hme : k.proc[p]? = some me) (hlive : me.state ≠ procstate.UNUSED)
    (hroot : ∀ (r : Nat) (u : proc), k.initproc = some r → k.proc[r]? = some u →
      u.state ≠ procstate.UNUSED)
    (hfork : fork k o p = some (k1, pid)) (hpid : pid ≠ -1) :
    ∃ c : Nat, ∃ k2 : Kernel, findUnused 0 k.proc = some c
      ∧ exit k1 c code = some k2
      ∧ ((∀ (j : Nat) (q : proc), k2.proc[j]? = some q → q.parent = some p →
            q.state = procstate.ZOMBIE → j = c) →
          (addr = 0 ∨ copyout addr = true) →
          ∃ k3 : Kernel,
            wait par k2 p addr copyout =
              some (WaitResult.ret pid k3 (if addr ≠ 0 then some (addr, code) else none))
            ∧ (∃ u : proc, k3.proc[c]? = some u ∧ u.state = procstate.UNUSED)
            ∧ findUnused 0 k3.proc = some c) := by
  obtain ⟨c, ch, hfu, _, hi, _, _, hset, hlt, hchpid, _, hchpar, _, _⟩ :=
    fork_success k o p k1 pid hfork hpid
  obtain ⟨j, u, hcj, hu, hus, hbefore⟩ := findUnused_some k.proc 0 c hfu
  rw [Nat.zero_add] at hcj
  subst hcj
  have hpc : p ≠ c := by
    intro h
    subst h
    rw [hme] at hu
    simp only [Option.some.injEq] at hu
    subst hu
    exact hlive hus
  have hinit : k1.initproc ≠ some c := by
    rw [hi]
    intro h
    exact hroot c u h hu hus
  have hch : k1.proc[c]? = some ch := by
    rw [hset, List.getElem?_set_self hlt]
  have hother : ∀ n, n ≠ c → k1.proc[n]? = k.proc[n]? := by
    intro n hn
    rw [hset, List.getElem?_set_ne (Ne.symm hn)]
  obtain ⟨k2, hex, _, _, _, _, hz, hrest⟩ := exit_spec k1 c code ch hinit hch
  refine ⟨c, k2, hfu, hex, ?_⟩
  intro honly hco
  have hparent : (if ch.parent = some c then k1.initproc else ch.parent) = some p := by
    rw [hchpar, if_neg]
    intro h
    simp only [Option.some.injEq] at h
    exact hpc h
  rw [hparent] at hz
  obtain ⟨zc, hzc, hzpar, hzst, hzpid, hzx⟩ : ∃ zc : proc, k2.proc[c]? = some zc
      ∧ zc.parent = some p ∧ zc.state = procstate.ZOMBIE ∧ zc.pid = pid
      ∧ zc.xstate = code := ⟨_, hz, rfl, rfl, hchpid, rfl⟩
  have hp2 : ∃ me2, k2.proc[p]? = some me2 := by
    rw [hrest p hpc, hother p hpc, hme]
    exact ⟨_, rfl⟩
  obtain ⟨me2, hme2⟩ := hp2
  have hfirst : ∀ r ∈ k2.proc.take c,
      ¬ (r.parent = some p ∧ r.state = procstate.ZOMBIE) := by
    intro r hr hh
    obtain ⟨n, hn, hrn⟩ := mem_take_getElem? hr
    have := honly n r hrn hh.1 hh.2
    omega
  have hw := wait_reaps par k2 p me2 addr copyout c zc hme2 hzc hzpar hzst hfirst hco
  have hlt2 : c < k2.proc.length := lt_of_getElem?_some hzc
  rw [hzpid, hzx] at hw
  refine ⟨_, hw, ⟨freeproc zc, List.getElem?_set_self hlt2, rfl⟩, ?_⟩
  · have := findUnused_first (k2.proc.set c (freeproc zc)) 0 c (freeproc zc)
      (List.getElem?_set_self hlt2) rfl ?_
    · rw [Nat.zero_add] at this
      exact this
    · intro r hr
      obtain ⟨n, hn, hrn⟩ := mem_take_getElem? hr
      have hnc : n ≠ c := by omega
      rw [List.getElem?_set_ne (Ne.symm hnc), hrest n hnc, hother n hnc] at hrn
      cases hkn : k.proc[n]? with
      | none => simp [hkn] at hrn
      | some q =>
        simp only [hkn, Option.map_some', Option.some.injEq] at hrn
        subst hrn
        have hq : q.state ≠ procstate.UNUSED := by
          apply hbefore q
          apply List.mem_iff_getElem?.2
          exact ⟨n, by rw [List.getElem?_take, if_pos hn]; exact hkn⟩
        exact wakeupSlot_unused _ _ _ _ _ (reparentSlot_unused _ _ _ _ _ _ _ hq)

/-- C1 on `forkBoot`: the process in slot 2 forks (child pid 3 in slot 1), the child exits
with code 42 and the parent's `wait(64)` returns 3 with 42 copied out to address 64; slot 1
is UNUSED again and is the first free slot. -/
theorem fork_exit_wait_roundtrip_witness :
    (∃ c : Nat, ∃ k2 : Kernel, findUnused 0 forkBoot.proc = some c
      ∧ exit (forkBoot_forked) c 42 = some k2
      ∧ ((∀ (j : Nat) (q : proc), k2.proc[j]? = some q → q.parent = some 2 →
            q.state = procstate.ZOMBIE → j = c) →
          ((64 : Int) = 0 ∨ (fun _ => true) (64 : Int) = true) →
          ∃ k3 : Kernel,
            wait sampleParam k2 2 64 (fun _ => true) =
              some (WaitResult.ret 3 k3 (if (64 : Int) ≠ 0 then some (64, 42) else none))
            ∧ (∃ u : proc, k3.proc[c]? = some u ∧ u.state = procstate.UNUSED)
            ∧ findUnused 0 k3.proc = some c))
    ∧ (∃ k2 k3 : Kernel, fork forkBoot okOracle 2 = some (forkBoot_forked, 3)
        ∧ exit forkBoot_forked 1 42 = some k2
        ∧ wait sampleParam k2 2 64 (fun _ => true)
            = some (WaitResult.ret 3 k3 (some (64, 42)))
        ∧ k3.proc.map (fun q => q.state)
            = [procstate.SLEEPING, procstate.UNUSED, procstate.RUNNING, procstate.UNUSED]) :=
  ⟨fork_exit_wait_roundtrip sampleParam forkBoot okOracle 2 _ 42 64 (fun _ => true)
      forkBoot_forked 3 rfl (by decide) (by
        intro r u hr hu
        have hr0 : r = 0 := by
          have : some 0 = some r := hr
          simpa using this.symm
        subst hr0
        have hu0 : some _ = some u := hu
        simp only [Option.some.injEq] at hu0
        subst hu0
        decide) rfl (by decide),
   ⟨_, _, rfl, rfl, rfl, rfl⟩⟩

/-! ### Orphans -/

theorem reparentSlot_parent (me : Option Nat) (p : Nat) (init : Option Nat) (t : Int)
    (any : Bool) (j : Nat) (q : proc) :
    (reparentSlot me p init t any j q).parent
      = if q.parent = some p then init else q.parent := by
  unfold reparentSlot
  simp only
  split_ifs <;> simp [wakeupSlot_parent]

theorem reparentSlot_pid (me : Option Nat) (p : Nat) (init : Option Nat) (t : Int)
    (any : Bool) (j : Nat) (q : proc) : (reparentSlot me p init t any j q).pid = q.pid := by
  unfold reparentSlot wakeupSlot
  simp only
  split_ifs <;> rfl

/-- C6: orphans go to the root process.  For a non-root process `p`, after `reparent(p)` and
after `exit` called by `p`, every slot whose parent was `p` has `initproc` as parent, every
other slot keeps its parent, and no slot has the parent `p`; `exit` runs to the end; and a
later `wait` by the root process that finds an orphan of `p` as its first ZOMBIE child, the
copy-out not failing, returns that orphan's pid, copies its exit status out and leaves its
slot UNUSED. -/
theorem orphans_go_to_root (par : Param) (k : Kernel) (p : Nat) (me : proc) (status : Int)
    (hroot : k.initproc ≠ some p) (hme : k.proc[p]? = some me) :
    (∀ (caller : Option Nat) (j : Nat) (q : proc), k.proc[j]? = some q →
        ∃ q1 : proc, (reparent k caller p).proc[j]? = some q1
          ∧ q1.parent = (if q.parent = some p then k.initproc else q.parent)
          ∧ q1.parent ≠ some p)
    ∧ ∃ k1 : Kernel, exit k p status = some k1
      ∧ k1.initproc = k.initproc
      ∧ k1.proc.length = k.proc.length
      ∧ (∀ (j : Nat) (q : proc), k.proc[j]? = some q →
          ∃ q1 : proc, k1.proc[j]? = some q1
            ∧ q1.parent = (if q.parent = some p then k.initproc else q.parent)
            ∧ q1.parent ≠ some p
            ∧ q1.pid = q.pid)
      ∧ (∀ (r o : Nat) (rt q q1 : proc) (addr : Int) (copyout : Int → Bool),
          k.initproc = some r → k.proc[r]? = some rt →
          k.proc[o]? = some q → q.parent = some p →
          k1.proc[o]? = some q1 → q1.state = procstate.ZOMBIE →
          (∀ x ∈ k1.proc.take o, ¬ (x.parent = some r ∧ x.state = procstate.ZOMBIE)) →
          (addr = 0 ∨ copyout addr = true) →
          ∃ k2 : Kernel,
            wait par k1 r addr copyout =
              some (WaitResult.ret q.pid k2
                (if addr ≠ 0 then some (addr, q1.xstate) else none))
            ∧ (∃ u : proc, k2.proc[o]? = some u ∧ u.state = procstate.UNUSED)
            ∧ ∀ n, n ≠ o → k2.proc[n]? = k1.proc[n]?) := by
  have hne : ∀ q : proc, (if q.parent = some p then k.initproc else q.parent) ≠ some p := by
    intro q
    split_ifs with h
    · exact hroot
    · exact h
  constructor
  · intro caller j q hq
    refine ⟨_, by rw [reparent_getElem?, hq]; rfl, ?_, ?_⟩
    · exact reparentSlot_parent _ _ _ _ _ _ _
    · rw [reparentSlot_parent]
      exact hne q
  · obtain ⟨k1, hex, hi, _, _, _, hz, hrest⟩ := exit_spec k p status me hroot hme
    have hslots : ∀ (j : Nat) (q : proc), k.proc[j]? = some q →
        ∃ q1 : proc, k1.proc[j]? = some q1
          ∧ q1.parent = (if q.parent = some p then k.initproc else q.parent)
          ∧ q1.parent ≠ some p ∧ q1.pid = q.pid := by
      intro j q hq
      by_cases hj : j = p
      · subst hj
        rw [hme] at hq
        simp only [Option.some.injEq] at hq
        subst hq
        exact ⟨_, hz, rfl, hne _, rfl⟩
      · refine ⟨_, by rw [hrest j hj, hq]; rfl, ?_, ?_, ?_⟩
        · rw [wakeupSlot_parent, reparentSlot_parent]
        · rw [wakeupSlot_parent, reparentSlot_parent]
          exact hne q
        · have : ∀ x : proc, (wakeupSlot (some p)
              (toChan (if me.parent = some p then k.initproc else me.parent)) k.ticks j x).pid
              = x.pid := by
            intro x
            unfold wakeupSlot
            split_ifs <;> rfl
          rw [this, reparentSlot_pid]
    have hlen : k1.proc.length = k.proc.length := by
      apply le_antisymm
      · by_contra h
        have h1 : k.proc.length < k1.proc.length := by omega
        have h2 : k.proc[k.proc.length]? = none := List.getElem?_eq_none (le_refl _)
        by_cases hp : k.proc.length = p
        · rw [hp, hme] at h2
          simp at h2
        · have h3 := hrest _ hp
          rw [h2, List.getElem?_eq_getElem h1] at h3
          simp at h3
      · by_contra h
        have h1 : k1.proc.length < k.proc.length := by omega
        obtain ⟨q1, hq1, _⟩ := hslots k1.proc.length _ (List.getElem?_eq_getElem h1)
        rw [List.getElem?_eq_none (le_refl _)] at hq1
        simp at hq1
    refine ⟨k1, hex, hi, hlen, hslots, ?_⟩
    intro r o rt q q1 addr copyout hr hrt hq hqp hq1 hzs hfirst hco
    obtain ⟨rt1, hrt1, _⟩ := hslots r rt hrt
    obtain ⟨q2, hq2, hq2par, _, hq2pid⟩ := hslots o q hq
    rw [hq1] at hq2
    simp only [Option.some.injEq] at hq2
    subst hq2
    rw [if_pos hqp, hr] at hq2par
    have hw := wait_reaps par k1 r rt1 addr copyout o q1 hrt1 hq1 hq2par hzs hfirst hco
    rw [hq2pid] at hw
    refine ⟨_, hw, ⟨freeproc q1, List.getElem?_set_self (lt_of_getElem?_some hq1), rfl⟩, ?_⟩
    intro n hn
    exact List.getElem?_set_ne (Ne.symm hn)

/-- C6 on `orphanage`: the exit of the process in slot 2 runs to the end; afterwards its
children in slots 1 and 3 have the root (slot 0) as parent, no slot has the parent 2, and
the root's `wait(0)` returns the pid 3 of the ZOMBIE orphan in slot 1 and frees that slot. -/
theorem orphans_go_to_root_witness :
    (∃ k1 : Kernel, exit orphanage 2 0 = some k1 ∧ k1.initproc = orphanage.initproc
        ∧ k1.proc.length = orphanage.proc.length)
    ∧ (∃ k1 k2 : Kernel, exit orphanage 2 0 = some k1
        ∧ k1.proc.map (fun q => q.parent) = [none, some 0, some 0, some 0, some 0]
        ∧ wait sampleParam k1 0 0 (fun _ => false) = some (WaitResult.ret 3 k2 none)
        ∧ k2.proc.map (fun q => q.state)
            = [procstate.RUNNABLE, procstate.UNUSED, procstate.ZOMBIE, procstate.RUNNABLE,
               procstate.ZOMBIE]) :=
  ⟨by
    obtain ⟨k1, h1, h2, h3, _⟩ :=
      (orphans_go_to_root sampleParam orphanage 2 _ 0 (by decide) rfl).2
    exact ⟨k1, h1, h2, h3⟩,
   ⟨_, _, rfl, rfl, rfl, rfl⟩⟩

/-! ### UNIX selection away from the sentinel -/

theorem unixDecay_frame (p : proc) :
    (unixDecay p).state = p.state ∧ (unixDecay p).batch_process = p.batch_process
    ∧ (unixDecay p).priority = p.priority ∧ (unixDecay p).wait_time = p.wait_time
    ∧ (unixDecay p).wait_st_time = p.wait_st_time := by
  unfold unixDecay
  split_ifs <;> simp

theorem unixCompare_lead (curr_ticks : Int) (i : Nat) (p : proc) (v : UnixVars)
    (h : v.min_priority = -1 ∨ effectivePriority p < v.min_priority
      ∨ (v.min_priority = effectivePriority p
          ∧ v.min_wait_time < waitingTime curr_ticks p)) :
    unixCompare curr_ticks i p v =
      { v with min_priority := effectivePriority p, p_to_sched := some i,
               min_wait_time := waitingTime curr_ticks p } := by
  unfold unixCompare
  simp only
  by_cases h1 : v.min_priority = -1
  · rw [if_pos h1]
  · rw [if_neg h1]
    by_cases h2 : v.min_priority > effectivePriority p
    · rw [if_pos h2]
    · rw [if_neg h2]
      rcases h with h | h | h
      · exact absurd h h1
      · exact absurd h h2
      · rw [if_pos h]

theorem unixCompare_keep (curr_ticks : Int) (i : Nat) (p : proc) (v : UnixVars)
    (h : ¬ (v.min_priority = -1 ∨ effectivePriority p < v.min_priority
      ∨ (v.min_priority = effectivePriority p
          ∧ v.min_wait_time < waitingTime curr_ticks p))) :
    unixCompare curr_ticks i p v = v := by
  unfold unixCompare
  simp only
  rw [if_neg (fun h1 => h (Or.inl h1)), if_neg (fun h2 => h (Or.inr (Or.inl h2))),
    if_neg (fun h3 => h (Or.inr (Or.inr h3)))]

theorem unixScan_cons_skip (par : Param) (c : cpu) (t : Int)
    (hpol : c.sched_policy = par.SCHED_PREEMPT_UNIX) (p : proc) (ps : List proc) (i : Nat)
    (v : UnixVars) (hr : p.state ≠ procstate.RUNNABLE) :
    unixScan par c t i (p :: ps) v =
      ((unixScan par c t (i + 1) ps v).1, p :: (unixScan par c t (i + 1) ps v).2) := by
  rw [unixScan]
  simp [hr, hpol]

theorem unixScan_cons_batch (par : Param) (c : cpu) (t : Int)
    (hpol : c.sched_policy = par.SCHED_PREEMPT_UNIX) (p : proc) (ps : List proc) (i : Nat)
    (v : UnixVars) (hr : p.state = procstate.RUNNABLE) (hb : p.batch_process ≠ 0) :
    unixScan par c t i (p :: ps) v =
      ((unixScan par c t (i + 1) ps
          (unixCompare t i (unixDecay p) { v with found := 1 })).1,
       unixDecay p :: (unixScan par c t (i + 1) ps
          (unixCompare t i (unixDecay p) { v with found := 1 })).2) := by
  rw [unixScan]
  simp [hr, hb, hpol]

/-- The UNIX scan over a table without RUNNABLE non-batch slots in which no RUNNABLE slot
has the effective priority -1 after its decay: every RUNNABLE slot is decayed, the break
variables are untouched, and either the leader the scan was entered with is kept (then no
RUNNABLE slot beats it) or the new leader is the first slot that is minimal for (effective
priority, then larger waiting time). -/
theorem unixScan_spec (par : Param) (c : cpu) (t : Int)
    (hpol : c.sched_policy = par.SCHED_PREEMPT_UNIX) (ps : List proc) (i : Nat)
    (v : UnixVars)
    (hbatch : ∀ q ∈ ps, q.state = procstate.RUNNABLE → q.batch_process ≠ 0)
    (hsent : ∀ q ∈ ps, q.state = procstate.RUNNABLE →
      effectivePriority (unixDecay q) ≠ -1) :
    (unixScan par c t i ps v).2
        = ps.map (fun q => if q.state = procstate.RUNNABLE then unixDecay q else q)
    ∧ (unixScan par c t i ps v).1.switched = v.switched
    ∧ (unixScan par c t i ps v).1.flag = v.flag
    ∧ (v.found = 1 → (unixScan par c t i ps v).1.found = 1)
    ∧ ((∃ q ∈ ps, q.state = procstate.RUNNABLE) → (unixScan par c t i ps v).1.found = 1)
    ∧ (((unixScan par c t i ps v).1.min_priority = v.min_priority
          ∧ (unixScan par c t i ps v).1.min_wait_time = v.min_wait_time
          ∧ (unixScan par c t i ps v).1.p_to_sched = v.p_to_sched
          ∧ ∀ q ∈ ps, q.state = procstate.RUNNABLE →
              v.min_priority ≠ -1
              ∧ (v.min_priority < effectivePriority (unixDecay q)
                 ∨ (v.min_priority = effectivePriority (unixDecay q)
                    ∧ waitingTime t q ≤ v.min_wait_time)))
       ∨ (∃ j : Nat, ∃ q : proc, ps[j]? = some q ∧ q.state = procstate.RUNNABLE
            ∧ (unixScan par c t i ps v).1.p_to_sched = some (i + j)
            ∧ (unixScan par c t i ps v).1.min_priority = effectivePriority (unixDecay q)
            ∧ (unixScan par c t i ps v).1.min_wait_time = waitingTime t q
            ∧ (v.min_priority = -1 ∨ effectivePriority (unixDecay q) < v.min_priority
               ∨ (effectivePriority (unixDecay q) = v.min_priority
                  ∧ v.min_wait_time < waitingTime t q))
            ∧ ∀ (j1 : Nat) (q1 : proc), ps[j1]? = some q1 →
                q1.state = procstate.RUNNABLE →
                effectivePriority (unixDecay q) < effectivePriority (unixDecay q1)
                ∨ (effectivePriority (unixDecay q) = effectivePriority (unixDecay q1)
                   ∧ (waitingTime t q1 < waitingTime t q
                      ∨ (waitingTime t q1 = waitingTime t q ∧ j ≤ j1))))) := by
  induction ps generalizing i v with
  | nil =>
    refine ⟨rfl, rfl, rfl, fun h => h, ?_, Or.inl ⟨rfl, rfl, rfl, ?_⟩⟩
    · rintro ⟨q, hq, _⟩
      simp at hq
    · intro q hq
      simp at hq
  | cons p ps ih =>
    have hb1 : ∀ q ∈ ps, q.state = procstate.RUNNABLE → q.batch_process ≠ 0 :=
      fun q hq => hbatch q (List.mem_cons_of_mem _ hq)
    have hs1 : ∀ q ∈ ps, q.state = procstate.RUNNABLE →
        effectivePriority (unixDecay q) ≠ -1 :=
      fun q hq => hsent q (List.mem_cons_of_mem _ hq)
    by_cases hr : p.state = procstate.RUNNABLE
    · have hpb := hbatch p (List.mem_cons_self _ _) hr
      have hps := hsent p (List.mem_cons_self _ _) hr
      have hwt : waitingTime t (unixDecay p) = waitingTime t p := by
        have hf := unixDecay_frame p
        simp only [waitingTime, hf.2.2.2.1, hf.2.2.2.2]
      rw [unixScan_cons_batch par c t hpol p ps i v hr hpb]
      by_cases hlead : v.min_priority = -1
          ∨ effectivePriority (unixDecay p) < v.min_priority
          ∨ (v.min_priority = effectivePriority (unixDecay p)
              ∧ v.min_wait_time < waitingTime t p)
      · have hcmp := unixCompare_lead t i (unixDecay p) { v with found := 1 }
          (by rw [hwt]; exact hlead)
        rw [hcmp, hwt]
        obtain ⟨h1, h2, h3, h4, _, h6⟩ := ih (i + 1)
          { v with found := 1, min_priority := effectivePriority (unixDecay p),
                   p_to_sched := some i, min_wait_time := waitingTime t p } hb1 hs1
        refine ⟨by rw [h1]; simp [hr], h2, h3, fun _ => h4 rfl, fun _ => h4 rfl, Or.inr ?_⟩
        rcases h6 with ⟨a1, a2, a3, a4⟩ | ⟨j, q, b1, b2, b3, b4, b5, b6, b7⟩
        · refine ⟨0, p, by simp, hr, a3, a1, a2, ?_, ?_⟩
          · rcases hlead with h | h | h
            · exact Or.inl h
            · exact Or.inr (Or.inl h)
            · exact Or.inr (Or.inr ⟨h.1.symm, h.2⟩)
          · intro j1 q1 hj1 hq1
            cases j1 with
            | zero =>
              simp only [List.getElem?_cons_zero, Option.some.injEq] at hj1
              subst hj1
              exact Or.inr ⟨rfl, Or.inr ⟨rfl, le_refl _⟩⟩
            | succ j1 =>
              simp only [List.getElem?_cons_succ] at hj1
              have := (a4 q1 (List.mem_iff_getElem?.2 ⟨j1, hj1⟩) hq1).2
              simp only at this
              rcases this with h | h
              · exact Or.inl h
              · refine Or.inr ⟨h.1, ?_⟩
                rcases lt_or_eq_of_le h.2 with h5 | h5
                · exact Or.inl h5
                · exact Or.inr ⟨h5, Nat.zero_le _⟩
        · simp only at b6
          have hbeat : effectivePriority (unixDecay q) < effectivePriority (unixDecay p)
              ∨ (effectivePriority (unixDecay q) = effectivePriority (unixDecay p)
                  ∧ waitingTime t p < waitingTime t q) := by
            rcases b6 with h | h | h
            · exact absurd h hps
            · exact Or.inl h
            · exact Or.inr h
          refine ⟨j + 1, q, by simpa using b1, b2, by rw [b3]; congr 1; omega, b4, b5,
            ?_, ?_⟩
          · rcases hlead with h | h | h
            · exact Or.inl h
            · rcases hbeat with h5 | h5
              · exact Or.inr (Or.inl (by omega))
              · exact Or.inr (Or.inl (by omega))
            · rcases hbeat with h5 | h5
              · exact Or.inr (Or.inl (by omega))
              · exact Or.inr (Or.inr ⟨by omega, by omega⟩)
          · intro j1 q1 hj1 hq1
            cases j1 with
            | zero =>
              simp only [List.getElem?_cons_zero, Option.some.injEq] at hj1
              subst hj1
              rcases hbeat with h5 | h5
              · exact Or.inl h5
              · exact Or.inr ⟨h5.1, Or.inl h5.2⟩
            | succ j1 =>
              simp only [List.getElem?_cons_succ] at hj1
              rcases b7 j1 q1 hj1 hq1 with h | h
              · exact Or.inl h
              · refine Or.inr ⟨h.1, ?_⟩
                rcases h.2 with h5 | h5
                · exact Or.inl h5
                · exact Or.inr ⟨h5.1, by omega⟩
      · have hcmp := unixCompare_keep t i (unixDecay p) { v with found := 1 }
          (by rw [hwt]; exact hlead)
        rw [hcmp]
        have hv1 : v.min_priority ≠ -1 := fun h => hlead (Or.inl h)
        have hv2 : v.min_priority < effectivePriority (unixDecay p)
            ∨ (v.min_priority = effectivePriority (unixDecay p)
                ∧ waitingTime t p ≤ v.min_wait_time) := by
          by_contra hcon
          apply hlead
          by_cases h5 : effectivePriority (unixDecay p) < v.min_priority
          · exact Or.inr (Or.inl h5)
          · have h6 : v.min_priority = effectivePriority (unixDecay p) := by
              by_contra h7
              exact hcon (Or.inl (by omega))
            refine Or.inr (Or.inr ⟨h6, ?_⟩)
            by_contra h8
            exact hcon (Or.inr ⟨h6, by omega⟩)
        obtain ⟨h1, h2, h3, h4, _, h6⟩ := ih (i + 1) { v with found := 1 } hb1 hs1
        refine ⟨by rw [h1]; simp [hr], h2, h3, fun _ => h4 rfl, fun _ => h4 rfl, ?_⟩
        rcases h6 with ⟨a1, a2, a3, a4⟩ | ⟨j, q, b1, b2, b3, b4, b5, b6, b7⟩
        · refine Or.inl ⟨a1, a2, a3, ?_⟩
          intro q hq hqr
          rcases List.mem_cons.1 hq with h | h
          · subst h
            exact ⟨hv1, hv2⟩
          · exact a4 q h hqr
        · simp only at b6
          have hbeat : effectivePriority (unixDecay q) < v.min_priority
              ∨ (effectivePriority (unixDecay q) = v.min_priority
                  ∧ v.min_wait_time < waitingTime t q) := by
            rcases b6 with h | h | h
            · exact absurd h hv1
            · exact Or.inl h
            · exact Or.inr h
          refine Or.inr ⟨j + 1, q, by simpa using b1, b2, by rw [b3]; congr 1; omega, b4,
            b5, Or.inr hbeat, ?_⟩
          intro j1 q1 hj1 hq1
          cases j1 with
          | zero =>
            simp only [List.getElem?_cons_zero, Option.some.injEq] at hj1
            subst hj1
            rcases hbeat with h5 | h5
            · rcases hv2 with h6 | h6
              · exact Or.inl (by omega)
              · exact Or.inl (by omega)
            · rcases hv2 with h6 | h6
              · exact Or.inl (by omega)
              · exact Or.inr ⟨by omega, Or.inl (by omega)⟩
          | succ j1 =>
            simp only [List.getElem?_cons_succ] at hj1
            rcases b7 j1 q1 hj1 hq1 with h | h
            · exact Or.inl h
            · refine Or.inr ⟨h.1, ?_⟩
              rcases h.2 with h5 | h5
              · exact Or.inl h5
              · exact Or.inr ⟨h5.1, by omega⟩
    · rw [unixScan_cons_skip par c t hpol p ps i v hr]
      obtain ⟨h1, h2, h3, h4, h5, h6⟩ := ih (i + 1) v hb1 hs1
      refine ⟨by rw [h1]; simp [hr], h2, h3, h4, ?_, ?_⟩
      · rintro ⟨q, hq, hqr⟩
        rcases List.mem_cons.1 hq with h | h
        · subst h
          exact absurd hqr hr
        · exact h5 ⟨q, h, hqr⟩
      · rcases h6 with ⟨a1, a2, a3, a4⟩ | ⟨j, q, b1, b2, b3, b4, b5, b6, b7⟩
        · refine Or.inl ⟨a1, a2, a3, ?_⟩
          intro q hq hqr
          rcases List.mem_cons.1 hq with h | h
          · subst h
            exact absurd hqr hr
          · exact a4 q h hqr
        · refine Or.inr ⟨j + 1, q, by simpa using b1, b2, by rw [b3]; congr 1; omega, b4,
            b5, b6, ?_⟩
          intro j1 q1 hj1 hq1
          cases j1 with
          | zero =>
            simp only [List.getElem?_cons_zero, Option.some.injEq] at hj1
            subst hj1
            exact absurd hq1 hr
          | succ j1 =>
            simp only [List.getElem?_cons_succ] at hj1
            rcases b7 j1 q1 hj1 hq1 with h | h
            · exact Or.inl h
            · refine Or.inr ⟨h.1, ?_⟩
              rcases h.2 with h5 | h5
              · exact Or.inl h5
              · exact Or.inr ⟨h5.1, by omega⟩

/-- The UNIX policy away from the sentinel: on a table with no RUNNABLE non-batch slot, at
least one RUNNABLE batch slot, and no RUNNABLE slot whose effective priority after the decay
is -1, one scheduler iteration decays every RUNNABLE slot and switches to the RUNNABLE slot
`j` of least effective priority, larger waiting time winning a tie and the lower slot a
double tie. -/
theorem unix_dispatch_off_sentinel (par : Param) (k : Kernel)
    (hpol : k.cpu.sched_policy = par.SCHED_PREEMPT_UNIX)
    (hfcfs : par.SCHED_PREEMPT_UNIX ≠ par.SCHED_NPREEMPT_FCFS)
    (hrr : par.SCHED_PREEMPT_UNIX ≠ par.SCHED_PREEMPT_RR)
    (hsjf : par.SCHED_PREEMPT_UNIX ≠ par.SCHED_NPREEMPT_SJF)
    (hbatch : ∀ q ∈ k.proc, q.state = procstate.RUNNABLE → q.batch_process ≠ 0)
    (hsent : ∀ q ∈ k.proc, q.state = procstate.RUNNABLE →
      effectivePriority (unixDecay q) ≠ -1)
    (hex : ∃ q ∈ k.proc, q.state = procstate.RUNNABLE) :
    ∃ j : Nat, ∃ q : proc, k.proc[j]? = some q ∧ q.state = procstate.RUNNABLE
      ∧ (∀ (j1 : Nat) (q1 : proc), k.proc[j1]? = some q1 →
          q1.state = procstate.RUNNABLE →
          effectivePriority (unixDecay q) < effectivePriority (unixDecay q1)
          ∨ (effectivePriority (unixDecay q) = effectivePriority (unixDecay q1)
             ∧ (waitingTime k.ticks q1 < waitingTime k.ticks q
                ∨ (waitingTime k.ticks q1 = waitingTime k.ticks q ∧ j ≤ j1))))
      ∧ scheduler par k =
          Dispatch.run
            { k with
              proc := ((k.proc.map
                  (fun r => if r.state = procstate.RUNNABLE then unixDecay r else r)).set j
                { unixDecay q with
                    wait_time := q.wait_time + (k.ticks - q.wait_st_time),
                    wait_st_time := -1, state := procstate.RUNNING }),
              cpu := { k.cpu with proc := some j } } j := by
  obtain ⟨h1, h2, h3, _, h5, h6⟩ :=
    unixScan_spec par k.cpu k.ticks hpol k.proc 0 unixInit hbatch hsent
  have hfound := h5 hex
  rcases h6 with ⟨_, _, _, a4⟩ | ⟨j, q, b1, b2, b3, _, _, _, b7⟩
  · obtain ⟨q, hq, hqr⟩ := hex
    exact absurd rfl (a4 q hq hqr).1
  · refine ⟨j, q, b1, b2, b7, ?_⟩
    have hp1 : ¬ (par.SCHED_PREEMPT_UNIX = par.SCHED_NPREEMPT_FCFS
        ∨ par.SCHED_PREEMPT_UNIX = par.SCHED_PREEMPT_RR) := by
      rintro (h | h)
      · exact hfcfs h
      · exact hrr h
    have h2n : (unixScan par k.cpu k.ticks 0 k.proc unixInit).1.switched = none := h2
    have h3n : (unixScan par k.cpu k.ticks 0 k.proc unixInit).1.flag = 0 := h3
    have b3n : (unixScan par k.cpu k.ticks 0 k.proc unixInit).1.p_to_sched = some j := by
      rw [b3, Nat.zero_add]
    have hf := unixDecay_frame q
    have hslot : (k.proc.map
        (fun r => if r.state = procstate.RUNNABLE then unixDecay r else r))[j]?
        = some (unixDecay q) := by
      rw [List.getElem?_map, b1]
      simp [b2]
    unfold scheduler
    rw [hpol, if_neg hp1, if_neg hsjf, if_pos rfl]
    unfold scheduler_unix
    simp only [h1, h2n, h3n, hfound, b3n, hslot]
    simp [hf.2.2.2.1, hf.2.2.2.2]

/-! ### SJF prediction under repeated identical bursts -/

theorem sjfNextBurstLen_shrinks (par : Param) (t e : Int)
    (hN : 0 ≤ par.SCHED_PARAM_SJF_A_NUMER)
    (hND : par.SCHED_PARAM_SJF_A_NUMER < par.SCHED_PARAM_SJF_A_DENOM)
    (ht : 0 ≤ t) (he : 0 ≤ e) :
    0 ≤ sjfNextBurstLen par t e
    ∧ |t - sjfNextBurstLen par t e| ≤ |t - e|
    ∧ (par.SCHED_PARAM_SJF_A_DENOM
          ≤ |t - e| * (par.SCHED_PARAM_SJF_A_DENOM - par.SCHED_PARAM_SJF_A_NUMER) →
        |t - sjfNextBurstLen par t e| + 1 ≤ |t - e|) := by
  have hD : 0 < par.SCHED_PARAM_SJF_A_DENOM := by omega
  have hle := (sjfNextBurstLen_error par t e hN (le_of_lt hND) hD ht he).1
  have key : ∀ x y : Int, 0 ≤ x → x ≤ y →
      (par.SCHED_PARAM_SJF_A_NUMER * x) / par.SCHED_PARAM_SJF_A_DENOM
        ≤ (par.SCHED_PARAM_SJF_A_NUMER * y) / par.SCHED_PARAM_SJF_A_DENOM
      ∧ (par.SCHED_PARAM_SJF_A_NUMER * y) / par.SCHED_PARAM_SJF_A_DENOM
        ≤ (par.SCHED_PARAM_SJF_A_NUMER * x) / par.SCHED_PARAM_SJF_A_DENOM + (y - x)
      ∧ (par.SCHED_PARAM_SJF_A_DENOM
            ≤ (y - x) * (par.SCHED_PARAM_SJF_A_DENOM - par.SCHED_PARAM_SJF_A_NUMER) →
          (par.SCHED_PARAM_SJF_A_NUMER * y) / par.SCHED_PARAM_SJF_A_DENOM
            ≤ (par.SCHED_PARAM_SJF_A_NUMER * x) / par.SCHED_PARAM_SJF_A_DENOM
                + (y - x - 1)) := by
    intro x y _ hxy
    refine ⟨?_, ?_, ?_⟩
    · exact Int.ediv_le_ediv hD (mul_le_mul_of_nonneg_left hxy hN)
    · rw [← Int.add_mul_ediv_right _ _ (ne_of_gt hD)]
      apply Int.ediv_le_ediv hD
      have h1 : par.SCHED_PARAM_SJF_A_NUMER * (y - x)
          ≤ par.SCHED_PARAM_SJF_A_DENOM * (y - x) :=
        mul_le_mul_of_nonneg_right (le_of_lt hND) (by omega)
      nlinarith
    · intro hbig
      rw [← Int.add_mul_ediv_right _ _ (ne_of_gt hD)]
      apply Int.ediv_le_ediv hD
      nlinarith
  have hNt : 0 ≤ par.SCHED_PARAM_SJF_A_NUMER * t := mul_nonneg hN ht
  have hNe : 0 ≤ par.SCHED_PARAM_SJF_A_NUMER * e := mul_nonneg hN he
  have hfloor : (par.SCHED_PARAM_SJF_A_NUMER * t) / par.SCHED_PARAM_SJF_A_DENOM ≤ t := by
    have h1 : par.SCHED_PARAM_SJF_A_NUMER * t ≤ t * par.SCHED_PARAM_SJF_A_DENOM := by
      nlinarith
    calc (par.SCHED_PARAM_SJF_A_NUMER * t) / par.SCHED_PARAM_SJF_A_DENOM
        ≤ (t * par.SCHED_PARAM_SJF_A_DENOM) / par.SCHED_PARAM_SJF_A_DENOM :=
          Int.ediv_le_ediv hD h1
      _ = t := Int.mul_ediv_cancel _ (ne_of_gt hD)
  have hq : 0 ≤ (par.SCHED_PARAM_SJF_A_NUMER * e) / par.SCHED_PARAM_SJF_A_DENOM :=
    Int.ediv_nonneg hNe (le_of_lt hD)
  refine ⟨?_, hle, ?_⟩
  · unfold sjfNextBurstLen
    rw [Int.tdiv_eq_ediv hNt (le_of_lt hD), Int.tdiv_eq_ediv hNe (le_of_lt hD)]
    omega
  · intro hbig
    unfold sjfNextBurstLen
    rw [Int.tdiv_eq_ediv hNt (le_of_lt hD), Int.tdiv_eq_ediv hNe (le_of_lt hD)]
    rcases le_total e t with h | h
    · have habs : |t - e| = t - e := abs_of_nonneg (by omega)
      rw [habs] at hbig ⊢
      obtain ⟨k1, _, k3⟩ := key e t he h
      have k3 := k3 hbig
      rw [abs_of_nonneg (by omega)]
      omega
    · have habs : |t - e| = e - t := by
        rw [abs_sub_comm]
        exact abs_of_nonneg (by omega)
      rw [habs] at hbig ⊢
      obtain ⟨k1, _, k3⟩ := key t e ht h
      have k3 := k3 hbig
      rw [abs_sub_comm, abs_of_nonneg (by omega)]
      omega

theorem sjfEstimates_error_le (par : Param) (t : Int)
    (hN : 0 ≤ par.SCHED_PARAM_SJF_A_NUMER)
    (hND : par.SCHED_PARAM_SJF_A_NUMER < par.SCHED_PARAM_SJF_A_DENOM)
    (ht : 0 ≤ t) (m : Nat) (e : Int) (he : 0 ≤ e) :
    |t - sjfEstimates par t m e| ≤ |t - e| := by
  induction m generalizing e with
  | zero => exact le_refl _
  | succ m ih =>
    obtain ⟨h0, h1, _⟩ := sjfNextBurstLen_shrinks par t e hN hND ht he
    exact le_trans (ih _ h0) h1

theorem sjfEstimates_settle (par : Param) (t : Int)
    (hN : 0 ≤ par.SCHED_PARAM_SJF_A_NUMER)
    (hND : par.SCHED_PARAM_SJF_A_NUMER < par.SCHED_PARAM_SJF_A_DENOM)
    (ht : 0 ≤ t) (d : Nat) (e : Int) (he : 0 ≤ e) (hd : |t - e| ≤ d) :
    ∃ n : Nat, n ≤ d ∧ ∀ m : Nat, n ≤ m →
      |t - sjfEstimates par t m e|
          * (par.SCHED_PARAM_SJF_A_DENOM - par.SCHED_PARAM_SJF_A_NUMER)
        < par.SCHED_PARAM_SJF_A_DENOM := by
  induction d generalizing e with
  | zero =>
    refine ⟨0, le_refl _, fun m _ => ?_⟩
    have h1 := sjfEstimates_error_le par t hN hND ht m e he
    have h2 : |t - sjfEstimates par t m e| = 0 := by
      have := abs_nonneg (t - sjfEstimates par t m e)
      simp only [Nat.cast_zero] at hd
      omega
    rw [h2]
    omega
  | succ d ih =>
    by_cases hsmall : |t - e| * (par.SCHED_PARAM_SJF_A_DENOM - par.SCHED_PARAM_SJF_A_NUMER)
        < par.SCHED_PARAM_SJF_A_DENOM
    · refine ⟨0, Nat.zero_le _, fun m _ => ?_⟩
      have h1 := sjfEstimates_error_le par t hN hND ht m e he
      have h2 : 0 < par.SCHED_PARAM_SJF_A_DENOM - par.SCHED_PARAM_SJF_A_NUMER := by omega
      calc |t - sjfEstimates par t m e|
              * (par.SCHED_PARAM_SJF_A_DENOM - par.SCHED_PARAM_SJF_A_NUMER)
          ≤ |t - e| * (par.SCHED_PARAM_SJF_A_DENOM - par.SCHED_PARAM_SJF_A_NUMER) :=
            mul_le_mul_of_nonneg_right h1 (le_of_lt h2)
        _ < par.SCHED_PARAM_SJF_A_DENOM := hsmall
    · obtain ⟨h0, _, h3⟩ := sjfNextBurstLen_shrinks par t e hN hND ht he
      have h4 := h3 (by omega)
      obtain ⟨n, hn, hall⟩ := ih (sjfNextBurstLen par t e) h0 (by
        push_cast at hd ⊢
        omega)
      refine ⟨n + 1, by omega, fun m hm => ?_⟩
      obtain ⟨m1, rfl⟩ : ∃ m1, m = m1 + 1 := ⟨m - 1, by omega⟩
      exact hall m1 (by omega)

/-- C11 fails as stated: with the weight 1/2, a fixed burst of 10 and the starting estimate
9, the update gives 10 - 5 + 4 = 9 again, so no number of iterations reaches 10. -/
theorem sjf_estimate_stalls : ¬ ∃ n : Nat, sjfEstimates sampleParam 10 n 9 = 10 := by
  have h : ∀ n : Nat, sjfEstimates sampleParam 10 n 9 = 9 := by
    intro n
    induction n with
    | zero => rfl
    | succ n ih =>
      have hstep : sjfNextBurstLen sampleParam 10 9 = 9 := by decide
      rw [sjfEstimates, hstep]
      exact ih
  rintro ⟨n, hn⟩
  rw [h n] at hn
  exact absurd hn (by decide)

/-- C11, amended: for every fixed measured burst `t >= 0`, starting estimate `e0 >= 0` and
weight with `0 <= NUMER < DENOM`, repeating the scheduler's update never increases the
prediction error, and after at most `|t - e0|` iterations every estimate `e` satisfies
`|t - e| * (DENOM - NUMER) < DENOM` (the error is below `DENOM / (DENOM - NUMER)`); for
`NUMER = 0` that is `e = t`. -/
theorem sjf_estimate_settles (par : Param) (t e0 : Int)
    (hN : 0 ≤ par.SCHED_PARAM_SJF_A_NUMER)
    (hND : par.SCHED_PARAM_SJF_A_NUMER < par.SCHED_PARAM_SJF_A_DENOM)
    (ht : 0 ≤ t) (he : 0 ≤ e0) :
    (∀ m : Nat, |t - sjfEstimates par t (m + 1) e0| ≤ |t - sjfEstimates par t m e0|)
    ∧ (∃ n : Nat, (n : Int) ≤ |t - e0| ∧ ∀ m : Nat, n ≤ m →
        |t - sjfEstimates par t m e0|
            * (par.SCHED_PARAM_SJF_A_DENOM - par.SCHED_PARAM_SJF_A_NUMER)
          < par.SCHED_PARAM_SJF_A_DENOM
        ∧ (par.SCHED_PARAM_SJF_A_NUMER = 0 → sjfEstimates par t m e0 = t)) := by
  constructor
  · intro m
    have hgen : ∀ (m : Nat) (e : Int), 0 ≤ e →
        0 ≤ sjfEstimates par t m e
        ∧ |t - sjfEstimates par t (m + 1) e| ≤ |t - sjfEstimates par t m e| := by
      intro m
      induction m with
      | zero =>
        intro e he1
        exact ⟨he1, (sjfNextBurstLen_shrinks par t e hN hND ht he1).2.1⟩
      | succ m ih =>
        intro e he1
        exact ih _ (sjfNextBurstLen_shrinks par t e hN hND ht he1).1
    exact (hgen m e0 he).2
  · obtain ⟨n, hn, hall⟩ := sjfEstimates_settle par t hN hND ht (|t - e0|).toNat e0 he
      (by rw [Int.toNat_of_nonneg (abs_nonneg _)])
    refine ⟨n, ?_, fun m hm => ⟨hall m hm, ?_⟩⟩
    · have := Int.toNat_of_nonneg (abs_nonneg (t - e0))
      omega
    · intro h0
      have h1 := hall m hm
      rw [h0, sub_zero] at h1
      have hD : 0 < par.SCHED_PARAM_SJF_A_DENOM := by omega
      have h2 : |t - sjfEstimates par t m e0| < 1 := by
        by_contra hcon
        have h3 : 1 ≤ |t - sjfEstimates par t m e0| := by omega
        nlinarith
      have h3 : |t - sjfEstimates par t m e0| = 0 := by
        have := abs_nonneg (t - sjfEstimates par t m e0)
        omega
      have h4 := abs_eq_zero.1 h3
      omega

/-- C11 amended, on a sample: burst 10, starting estimate 0, weight 1/2: the estimates are
5, 7, 8, 9, 9, ... and from some iteration on the error is below 2. -/
theorem sjf_estimate_settles_witness :
    ((∀ m : Nat, |10 - sjfEstimates sampleParam 10 (m + 1) 0|
        ≤ |10 - sjfEstimates sampleParam 10 m 0|)
      ∧ (∃ n : Nat, (n : Int) ≤ |(10 : Int) - 0| ∧ ∀ m : Nat, n ≤ m →
          |10 - sjfEstimates sampleParam 10 m 0|
              * (sampleParam.SCHED_PARAM_SJF_A_DENOM - sampleParam.SCHED_PARAM_SJF_A_NUMER)
            < sampleParam.SCHED_PARAM_SJF_A_DENOM
          ∧ (sampleParam.SCHED_PARAM_SJF_A_NUMER = 0 →
              sjfEstimates sampleParam 10 m 0 = 10)))
    ∧ (List.range 6).map (fun n => sjfEstimates sampleParam 10 n 0) = [0, 5, 7, 8, 9, 9] :=
  ⟨sjf_estimate_settles sampleParam 10 0 (by decide) (by decide) (by decide) (by decide),
   by decide⟩

/-! ### The wait-for-pid system call -/

theorem sys_waitpid_result (par : Param) (k : Kernel) (p : Nat) (x addr : Option Int)
    (copyout : Int → Bool) (r : Int) (k1 : Kernel) (out : Option (Int × Int))
    (h : sys_waitpid par k p x addr copyout = some (WaitResult.ret r k1 out)) : r = -1 := by
  unfold sys_waitpid at h
  split at h
  · simp only [Option.some.injEq, WaitResult.ret.injEq] at h
    exact h.1.symm
  · split at h
    · simp only [Option.some.injEq, WaitResult.ret.injEq] at h
      exact h.1.symm
    · split at h
      · split at h
        · simp only [Option.some.injEq, WaitResult.ret.injEq] at h
          exact h.1.symm
        · simp at h
        · simp at h
      · split at h
        · simp only [Option.some.injEq, WaitResult.ret.injEq] at h
          exact h.1.symm
        · simp at h
        · simp at h

/-- C13 fails on the code.  In `orphanage` the process in slot 2 has the ZOMBIE child
pid 3.  `waitpid(3, 64)` returns 3 and `wait(64)` returns 3, both copying the status 7 out
and reaping the child; the system call invoked with 3, and invoked with -1, reaps the child
in the same way and returns -1: `sys_waitpid` ends in `return -1` whatever `wait` /
`waitpid` returned. -/
theorem sys_waitpid_drops_pid :
    ∃ k1 : Kernel,
      waitpid sampleParam orphanage 2 3 64 (fun _ => true)
          = some (WaitResult.ret 3 k1 (some (64, 7)))
      ∧ sys_waitpid sampleParam orphanage 2 (some 3) (some 64) (fun _ => true)
          = some (WaitResult.ret (-1) k1 (some (64, 7)))
      ∧ wait sampleParam orphanage 2 64 (fun _ => true)
          = some (WaitResult.ret 3 k1 (some (64, 7)))
      ∧ sys_waitpid sampleParam orphanage 2 (some (-1)) (some 64) (fun _ => true)
          = some (WaitResult.ret (-1) k1 (some (64, 7)))
      ∧ k1.proc.map (fun q => q.state)
          = [procstate.SLEEPING, procstate.UNUSED, procstate.RUNNING, procstate.RUNNABLE,
             procstate.ZOMBIE] :=
  ⟨_, rfl, rfl, rfl, rfl, rfl⟩

/-! ### freeproc -/

/-- C14 fails as stated: `freeproc` of `usedSlot` leaves the scheduling fields as they
were (priority 5, next_burst_len 6, batch_process 1, cpu_usage 100, prev_cpu_usage 50,
wait_time 12, wait_st_time 30, prev_burst_start 31, ctime 3, stime 4, endtime 40). -/
theorem freeproc_keeps_scheduling_fields :
    ((freeproc usedSlot).priority, (freeproc usedSlot).next_burst_len,
     (freeproc usedSlot).batch_process, (freeproc usedSlot).cpu_usage,
     (freeproc usedSlot).prev_cpu_usage, (freeproc usedSlot).wait_time,
     (freeproc usedSlot).wait_st_time, (freeproc usedSlot).prev_burst_start,
     (freeproc usedSlot).ctime, (freeproc usedSlot).stime, (freeproc usedSlot).endtime)
      = (5, 6, 1, 100, 50, 12, 30, 31, 3, 4, 40) := by
  rfl

/-! ### sched -/

/-- C19: `sched` panics if and only if its protocol is violated: the caller does not hold
its own lock, or the core's `noff` is not 1, or the caller's state is RUNNING, or
interrupts are enabled.  Otherwise it switches to the scheduler with the core's `intena`
saved, and when the process is switched back to, the `intena` of the core it resumes on is
set to that value, nothing else being written. -/
theorem sched_protocol (k : Kernel) (p : Nat) (me : proc) (holding intr : Bool)
    (hme : k.proc[p]? = some me) :
    ((∃ msg, sched k p holding intr = some (SchedResult.panic msg))
        ↔ (holding = false ∨ k.cpu.noff ≠ 1 ∨ me.state = procstate.RUNNING ∨ intr = true))
    ∧ (¬ (holding = false ∨ k.cpu.noff ≠ 1 ∨ me.state = procstate.RUNNING ∨ intr = true) →
        sched k p holding intr = some (SchedResult.switched k.cpu.intena))
    ∧ (∀ k1 : Kernel, (schedReturn k1 k.cpu.intena).cpu.intena = k.cpu.intena
        ∧ (schedReturn k1 k.cpu.intena).cpu = { k1.cpu with intena := k.cpu.intena }
        ∧ (schedReturn k1 k.cpu.intena).proc = k1.proc
        ∧ (schedReturn k1 k.cpu.intena).ticks = k1.ticks
        ∧ (schedReturn k1 k.cpu.intena).nextpid = k1.nextpid
        ∧ (schedReturn k1 k.cpu.intena).initproc = k1.initproc) := by
  have hok : ¬ (holding = false ∨ k.cpu.noff ≠ 1 ∨ me.state = procstate.RUNNING
      ∨ intr = true) → sched k p holding intr = some (SchedResult.switched k.cpu.intena) := by
    intro h
    have h1 : ¬ holding = false := fun h1 => h (Or.inl h1)
    have h2 : ¬ k.cpu.noff ≠ 1 := fun h2 => h (Or.inr (Or.inl h2))
    have h3 : ¬ me.state = procstate.RUNNING := fun h3 => h (Or.inr (Or.inr (Or.inl h3)))
    have h4 : ¬ intr = true := fun h4 => h (Or.inr (Or.inr (Or.inr h4)))
    simp only [sched, hme]
    rw [if_neg h1, if_neg h2, if_neg h3, if_neg h4]
  refine ⟨⟨?_, ?_⟩, hok, fun k1 => ⟨rfl, rfl, rfl, rfl, rfl, rfl⟩⟩
  · rintro ⟨msg, hmsg⟩
    by_contra h
    rw [hok h] at hmsg
    simp at hmsg
  · intro h
    simp only [sched, hme]
    by_cases h1 : holding = false
    · exact ⟨_, by rw [if_pos h1]⟩
    · rw [if_neg h1]
      by_cases h2 : k.cpu.noff ≠ 1
      · exact ⟨_, by rw [if_pos h2]⟩
      · rw [if_neg h2]
        by_cases h3 : me.state = procstate.RUNNING
        · exact ⟨_, by rw [if_pos h3]⟩
        · rw [if_neg h3]
          by_cases h4 : intr = true
          · exact ⟨_, by rw [if_pos h4]⟩
          · rcases h with h | h | h | h
            · exact absurd h h1
            · exact absurd h h2
            · exact absurd h h3
            · exact absurd h h4

/-- C19 on `sleepers`: its caller (slot 0) is RUNNING, so `sched` panics even with the lock
held, `noff = 1` and interrupts off; the sleeper in slot 1 with the core's `noff` set to 1
switches, saving `intena`. -/
theorem sched_protocol_witness :
    sched { sleepers with cpu := { sleepers.cpu with noff := 1 } } 0 true false
        = some (SchedResult.panic "sched running")
    ∧ sched { sleepers with cpu := { sleepers.cpu with noff := 1, intena := 1 } } 1 true false
        = some (SchedResult.switched 1)
    ∧ ((∃ msg, sched sleepers 1 true false = some (SchedResult.panic msg))
        ↔ (true = false ∨ sleepers.cpu.noff ≠ 1
            ∨ procstate.SLEEPING = procstate.RUNNING ∨ false = true)) :=
  ⟨rfl, rfl,
   (sched_protocol sleepers 1
      { zeroProc with state := procstate.SLEEPING, chan := Chan.other 7, pid := 2 }
      true false rfl).1⟩

/-! ### Interactive processes -/

theorem sjfScan_interactive (par : Param) (c : cpu)
    (hpol : c.sched_policy = par.SCHED_NPREEMPT_SJF) (ps : List proc) (i : Nat) (v : SjfVars)
    (j : Nat) (q : proc) (hq : ps[j]? = some q) (hr : q.state = procstate.RUNNABLE)
    (hb : q.batch_process = 0)
    (hfirst : ∀ r ∈ ps.take j, ¬ (r.state = procstate.RUNNABLE ∧ r.batch_process = 0)) :
    (sjfScan par c i ps v).1.switched = some (i + j)
    ∧ (sjfScan par c i ps v).2 = ps.set j { q with state := procstate.RUNNING } := by
  induction ps generalizing i v j with
  | nil => simp at hq
  | cons a ps ih =>
    cases j with
    | zero =>
      simp only [List.getElem?_cons_zero, Option.some.injEq] at hq
      subst hq
      rw [sjfScan]
      simp [hr, hb]
    | succ j =>
      simp only [List.getElem?_cons_succ] at hq
      have ha : ¬ (a.state = procstate.RUNNABLE ∧ a.batch_process = 0) := hfirst a (by simp)
      have hf1 : ∀ r ∈ ps.take j, ¬ (r.state = procstate.RUNNABLE ∧ r.batch_process = 0) :=
        fun r hr1 => hfirst r (by simp [hr1])
      have harith : i + (j + 1) = i + 1 + j := by omega
      by_cases har : a.state = procstate.RUNNABLE
      · have hab : a.batch_process ≠ 0 := fun h => ha ⟨har, h⟩
        rw [sjfScan_cons_batch par c hpol a ps i v har hab, harith]
        obtain ⟨h1, h2⟩ := ih (i + 1) _ j hq hf1
        exact ⟨h1, by rw [h2]; rfl⟩
      · rw [sjfScan_cons_skip par c hpol a ps i v har, harith]
        obtain ⟨h1, h2⟩ := ih (i + 1) v j hq hf1
        exact ⟨h1, by rw [h2]; rfl⟩

theorem unixScan_interactive (par : Param) (c : cpu) (t : Int)
    (hpol : c.sched_policy = par.SCHED_PREEMPT_UNIX) (ps : List proc) (i : Nat)
    (v : UnixVars) (j : Nat) (q : proc) (hq : ps[j]? = some q)
    (hr : q.state = procstate.RUNNABLE) (hb : q.batch_process = 0)
    (hfirst : ∀ r ∈ ps.take j, ¬ (r.state = procstate.RUNNABLE ∧ r.batch_process = 0)) :
    (unixScan par c t i ps v).1.switched = some (i + j)
    ∧ (unixScan par c t i ps v).2 =
        (ps.take j).map (fun r => if r.state = procstate.RUNNABLE then unixDecay r else r)
          ++ { q with state := procstate.RUNNING } :: ps.drop (j + 1) := by
  induction ps generalizing i v j with
  | nil => simp at hq
  | cons a ps ih =>
    cases j with
    | zero =>
      simp only [List.getElem?_cons_zero, Option.some.injEq] at hq
      subst hq
      rw [unixScan]
      simp [hr, hb]
    | succ j =>
      simp only [List.getElem?_cons_succ] at hq
      have ha : ¬ (a.state = procstate.RUNNABLE ∧ a.batch_process = 0) := hfirst a (by simp)
      have hf1 : ∀ r ∈ ps.take j, ¬ (r.state = procstate.RUNNABLE ∧ r.batch_process = 0) :=
        fun r hr1 => hfirst r (by simp [hr1])
      have harith : i + (j + 1) = i + 1 + j := by omega
      by_cases har : a.state = procstate.RUNNABLE
      · have hab : a.batch_process ≠ 0 := fun h => ha ⟨har, h⟩
        rw [unixScan_cons_batch par c t hpol a ps i v har hab, harith]
        obtain ⟨h1, h2⟩ := ih (i + 1) _ j hq hf1
        exact ⟨h1, by rw [h2]; simp [har]⟩
      · rw [unixScan_cons_skip par c t hpol a ps i v har, harith]
        obtain ⟨h1, h2⟩ := ih (i + 1) v j hq hf1
        exact ⟨h1, by rw [h2]; simp [har]⟩

/-! ### exit and the waiting parent -/

theorem sleep_getElem? (par : Param) (k : Kernel) (p : Nat) (me : proc) (chan : Chan)
    (hme : k.proc[p]? = some me) :
    (sleep par k p chan).proc[p]? =
      some { me with chan := chan, state := procstate.SLEEPING,
                     cpu_usage := me.cpu_usage + Int.tdiv par.SCHED_PARAM_CPU_USAGE 2 } := by
  simp only [sleep, hme]
  exact List.getElem?_set_self (lt_of_getElem?_some hme)

theorem wait_sleeps (par : Param) (k : Kernel) (p : Nat) (addr : Int)
    (copyout : Int → Bool) (k1 : Kernel)
    (h : wait par k p addr copyout = some (WaitResult.sleeps k1)) :
    k1 = sleep par k p (Chan.procAddr p) := by
  unfold wait at h
  split at h
  · simp at h
  · split at h
    · split at h <;> simp at h
    · split at h
      · simp at h
      · simp only [Option.some.injEq, WaitResult.sleeps.injEq] at h
        exact h.symm

theorem waitpidPass_sleeps (par : Param) (k : Kernel) (p : Nat) (pid addr : Int)
    (copyout : Int → Bool) (found : Int) (k1 : Kernel)
    (h : waitpidPass par k p pid addr copyout found = some (WaitResult.sleeps k1)) :
    k1 = sleep par k p (Chan.procAddr p) := by
  unfold waitpidPass at h
  split at h
  · simp at h
  · split at h
    · split at h <;> simp at h
    · split at h
      · simp at h
      · simp only [Option.some.injEq, WaitResult.sleeps.injEq] at h
        exact h.symm

/-- C18: `exit` wakes a parent blocked in `wait`.  When `wait` or `waitpid` blocks, its
caller is SLEEPING on the token that is the caller itself; and for a running non-root
process `p` whose parent is SLEEPING on that token, `exit(status)` by `p` runs to the end,
the parent is RUNNABLE with `wait_st_time` the current tick afterwards, and `p` is ZOMBIE
with `xstate = status` and `endtime` the current tick. -/
theorem exit_wakes_waiting_parent (par : Param) (k : Kernel) (p pp : Nat) (me w : proc)
    (status : Int)
    (hroot : k.initproc ≠ some p) (hme : k.proc[p]? = some me)
    (hrun : me.state = procstate.RUNNING) (hpar : me.parent = some pp)
    (hw : k.proc[pp]? = some w) (hws : w.state = procstate.SLEEPING)
    (hwc : w.chan = Chan.procAddr pp) :
    (∀ (k0 k1 : Kernel) (c : Nat) (c0 : proc) (pid addr : Int) (copyout : Int → Bool),
        k0.proc[c]? = some c0 →
        (wait par k0 c addr copyout = some (WaitResult.sleeps k1)
          ∨ waitpid par k0 c pid addr copyout = some (WaitResult.sleeps k1)) →
        ∃ c1 : proc, k1.proc[c]? = some c1 ∧ c1.state = procstate.SLEEPING
          ∧ c1.chan = Chan.procAddr c)
    ∧ ∃ k2 : Kernel, exit k p status = some k2
      ∧ (∃ w2 : proc, k2.proc[pp]? = some w2 ∧ w2.state = procstate.RUNNABLE
          ∧ w2.wait_st_time = k.ticks)
      ∧ (∃ z : proc, k2.proc[p]? = some z ∧ z.state = procstate.ZOMBIE
          ∧ z.xstate = status ∧ z.endtime = k.ticks) := by
  constructor
  · intro k0 k1 c c0 pid addr copyout hc h
    have hk1 : k1 = sleep par k0 c (Chan.procAddr c) := by
      rcases h with h | h
      · exact wait_sleeps par k0 c addr copyout k1 h
      · exact waitpidPass_sleeps par k0 c pid addr copyout 0 k1 h
    rw [hk1, sleep_getElem? par k0 c c0 _ hc]
    exact ⟨_, rfl, rfl, rfl⟩
  · have hne : pp ≠ p := by
      intro h
      subst h
      rw [hme] at hw
      simp only [Option.some.injEq] at hw
      subst hw
      rw [hrun] at hws
      exact absurd hws (by decide)
    obtain ⟨k2, hex, _, _, _, _, hz, hrest⟩ := exit_spec k p status me hroot hme
    refine ⟨k2, hex, ?_, ⟨_, hz, rfl, rfl, rfl⟩⟩
    have hnp : ¬ some pp = some p := by
      intro h
      simp only [Option.some.injEq] at h
      exact hne h
    have hparent : (if me.parent = some p then k.initproc else me.parent) = some pp := by
      rw [hpar, if_neg hnp]
    rw [hrest pp hne, hw, hparent]
    refine ⟨_, rfl, ?_⟩
    simp only [reparentSlot, wakeupSlot, toChan]
    split_ifs <;> simp_all

/-- C18 on `waitingParent`: the exit of the process in slot 2 makes its parent (slot 1,
SLEEPING in `wait`) RUNNABLE with wait start 20, and itself ZOMBIE with status 5 and
endtime 20. -/
theorem exit_wakes_waiting_parent_witness :
    ((∀ (k0 k1 : Kernel) (c : Nat) (c0 : proc) (pid addr : Int) (copyout : Int → Bool),
        k0.proc[c]? = some c0 →
        (wait sampleParam k0 c addr copyout = some (WaitResult.sleeps k1)
          ∨ waitpid sampleParam k0 c pid addr copyout = some (WaitResult.sleeps k1)) →
        ∃ c1 : proc, k1.proc[c]? = some c1 ∧ c1.state = procstate.SLEEPING
          ∧ c1.chan = Chan.procAddr c)
      ∧ ∃ k2 : Kernel, exit waitingParent 2 5 = some k2
        ∧ (∃ w2 : proc, k2.proc[1]? = some w2 ∧ w2.state = procstate.RUNNABLE
            ∧ w2.wait_st_time = waitingParent.ticks)
        ∧ (∃ z : proc, k2.proc[2]? = some z ∧ z.state = procstate.ZOMBIE
            ∧ z.xstate = 5 ∧ z.endtime = waitingParent.ticks))
    ∧ (∃ k2 : Kernel, exit waitingParent 2 5 = some k2
        ∧ k2.proc.map (fun q => (q.state, q.wait_st_time, q.xstate, q.endtime))
            = [(procstate.SLEEPING, -1, 0, 0), (procstate.RUNNABLE, 20, 0, 0),
               (procstate.ZOMBIE, -1, 5, 20)]) :=
  ⟨exit_wakes_waiting_parent sampleParam waitingParent 2 1 _ _ 5 (by decide) rfl rfl rfl rfl
      rfl rfl,
   ⟨_, rfl, rfl⟩⟩

/-! ### FCFS / round-robin order -/

theorem fcfsScan_first (t : Int) (ps : List proc) (i j : Nat) (q : proc)
    (hq : ps[j]? = some q) (hr : q.state = procstate.RUNNABLE)
    (hfirst : ∀ r ∈ ps.take j, r.state ≠ procstate.RUNNABLE) :
    fcfsScan t i ps = (some (i + j), ps.set j (fcfsDispatch t q)) := by
  induction ps generalizing i j with
  | nil => simp at hq
  | cons a ps ih =>
    cases j with
    | zero =>
      simp only [List.getElem?_cons_zero, Option.some.injEq] at hq
      subst hq
      rw [fcfsScan, if_pos hr]
      rfl
    | succ j =>
      simp only [List.getElem?_cons_succ] at hq
      have ha : a.state ≠ procstate.RUNNABLE := hfirst a (by simp)
      have hf1 : ∀ r ∈ ps.take j, r.state ≠ procstate.RUNNABLE :=
        fun r hr1 => hfirst r (by simp [hr1])
      have harith : i + (j + 1) = i + 1 + j := by omega
      rw [fcfsScan, if_neg ha, ih (i + 1) j hq hf1, harith]
      rfl

theorem fcfsScan_none (t : Int) (ps : List proc) (i : Nat)
    (hno : ∀ r ∈ ps, r.state ≠ procstate.RUNNABLE) : fcfsScan t i ps = (none, ps) := by
  induction ps generalizing i with
  | nil => rfl
  | cons a ps ih =>
    rw [fcfsScan, if_neg (hno a (List.mem_cons_self _ _)),
      ih (i + 1) (fun r hr => hno r (List.mem_cons_of_mem _ hr))]

theorem take_append_set_drop (l : List proc) (n m : Nat) (x : proc) :
    l.take n ++ (l.drop n).set m x = l.set (n + m) x := by
  induction l generalizing n with
  | nil => simp
  | cons a l ih =>
    cases n with
    | zero => simp
    | succ n =>
      have h : n + 1 + m = (n + m) + 1 := by omega
      simp only [List.take_succ_cons, List.drop_succ_cons, List.cons_append, h,
        List.set_cons_succ, ih]

/-- C15 fails as stated: on `rrPair` (round-robin) slot 0 is dispatched first; when its
process yields, slot 0 is RUNNABLE again and is the lowest-indexed RUNNABLE slot, and the
loop, continuing behind slot 0, dispatches slot 1. -/
theorem fcfs_continues_behind_last_run :
    ∃ k1 k2 k3 : Kernel,
      scheduler sampleParam rrPair = Dispatch.run k1 0
      ∧ yield sampleParam k1 0 = k2
      ∧ k2.proc.map (fun q => q.state)
          = [procstate.RUNNABLE, procstate.RUNNABLE, procstate.SLEEPING]
      ∧ fcfsResume sampleParam k2 0 = Dispatch.run k3 1
      ∧ k3.proc.map (fun q => q.state)
          = [procstate.RUNNABLE, procstate.RUNNING, procstate.SLEEPING] :=
  ⟨_, _, _, rfl, rfl, rfl, rfl, rfl⟩

/-- C15, amended: under the FCFS and RR policies the first dispatch of a scheduler-loop
iteration chooses the lowest-indexed RUNNABLE slot of the whole table (and the iteration
ends without a dispatch when no slot is RUNNABLE); after the process dispatched from slot
`i` has given control back, the policy being unchanged, the search continues with slot
`i + 1`: the next dispatch chooses the lowest-indexed RUNNABLE slot above `i`, and when no
slot above `i` is RUNNABLE the iteration ends, the next one starting again from slot 0.  A
dispatched slot is RUNNING with its waiting time accounted and `wait_st_time = -1`. -/
theorem fcfs_dispatch_order (par : Param) (k : Kernel)
    (hpol : k.cpu.sched_policy = par.SCHED_NPREEMPT_FCFS
      ∨ k.cpu.sched_policy = par.SCHED_PREEMPT_RR) :
    (∀ (j : Nat) (q : proc), k.proc[j]? = some q → q.state = procstate.RUNNABLE →
        (∀ r ∈ k.proc.take j, r.state ≠ procstate.RUNNABLE) →
        scheduler par k =
          Dispatch.run { k with proc := k.proc.set j (fcfsDispatch k.ticks q),
                                cpu := { k.cpu with proc := some j } } j)
    ∧ ((∀ r ∈ k.proc, r.state ≠ procstate.RUNNABLE) → scheduler par k = Dispatch.idle k)
    ∧ (∀ (i j : Nat) (q : proc), i < j → k.proc[j]? = some q →
        q.state = procstate.RUNNABLE →
        (∀ (n : Nat) (r : proc), i < n → n < j → k.proc[n]? = some r →
          r.state ≠ procstate.RUNNABLE) →
        fcfsResume par k i =
          Dispatch.run { k with proc := k.proc.set j (fcfsDispatch k.ticks q),
                                cpu := { k.cpu with proc := some j } } j)
    ∧ (∀ i : Nat,
        (∀ (n : Nat) (r : proc), i < n → k.proc[n]? = some r →
          r.state ≠ procstate.RUNNABLE) →
        fcfsResume par k i = Dispatch.idle (switchedBack k)) := by
  have hnot : ¬ ((switchedBack k).cpu.sched_policy ≠ par.SCHED_NPREEMPT_FCFS
      ∧ (switchedBack k).cpu.sched_policy ≠ par.SCHED_PREEMPT_RR) := by
    rintro ⟨h1, h2⟩
    rcases hpol with h | h
    · exact h1 h
    · exact h2 h
  refine ⟨?_, ?_, ?_, ?_⟩
  · intro j q hq hr hfirst
    unfold scheduler
    rw [if_pos hpol]
    unfold scheduler_fcfs
    rw [fcfsScan_first k.ticks k.proc 0 j q hq hr hfirst]
    simp
  · intro hno
    unfold scheduler
    rw [if_pos hpol]
    unfold scheduler_fcfs
    rw [fcfsScan_none k.ticks k.proc 0 hno]
  · intro i j q hij hq hr hbetween
    obtain ⟨m, rfl⟩ : ∃ m, j = i + 1 + m := ⟨j - i - 1, by omega⟩
    have hq1 : (k.proc.drop (i + 1))[m]? = some q := by
      rw [List.getElem?_drop]
      exact hq
    have hf1 : ∀ r ∈ (k.proc.drop (i + 1)).take m, r.state ≠ procstate.RUNNABLE := by
      intro r hr1
      obtain ⟨n, hn, hrn⟩ := mem_take_getElem? hr1
      rw [List.getElem?_drop] at hrn
      exact hbetween (i + 1 + n) r (by omega) (by omega) hrn
    unfold fcfsResume
    simp only
    rw [if_neg hnot]
    unfold scheduler_fcfs_from
    have hscan := fcfsScan_first k.ticks (k.proc.drop (i + 1)) (i + 1) m q hq1 hr hf1
    simp only [switchedBack, hscan, take_append_set_drop]
  · intro i hno
    have hf1 : ∀ r ∈ k.proc.drop (i + 1), r.state ≠ procstate.RUNNABLE := by
      intro r hr1
      obtain ⟨n, hrn⟩ := List.mem_iff_getElem?.1 hr1
      rw [List.getElem?_drop] at hrn
      exact hno (i + 1 + n) r (by omega) hrn
    unfold fcfsResume
    simp only
    rw [if_neg hnot]
    unfold scheduler_fcfs_from
    have hscan := fcfsScan_none k.ticks (k.proc.drop (i + 1)) (i + 1) hf1
    simp only [switchedBack, hscan]

/-- C15 amended, on `rrPair`: the first dispatch takes slot 0, and a resumption behind slot
0 takes slot 1. -/
theorem fcfs_dispatch_order_witness :
    scheduler sampleParam rrPair =
        Dispatch.run { rrPair with
          proc := (rrPair.proc.set 0 (fcfsDispatch rrPair.ticks
            { zeroProc with state := procstate.RUNNABLE, pid := 1, wait_st_time := 1 })),
          cpu := { rrPair.cpu with proc := some 0 } } 0
    ∧ fcfsResume sampleParam rrPair 0 =
        Dispatch.run { rrPair with
          proc := (rrPair.proc.set 1 (fcfsDispatch rrPair.ticks
            { zeroProc with state := procstate.RUNNABLE, pid := 2, wait_st_time := 2 })),
          cpu := { rrPair.cpu with proc := some 1 } } 1 :=
  ⟨(fcfs_dispatch_order sampleParam rrPair (Or.inr rfl)).1 0 _ rfl rfl (by decide),
   (fcfs_dispatch_order sampleParam rrPair (Or.inr rfl)).2.2.1 0 1 _ (by decide) rfl rfl
     (by
        intro n r h1 h2
        omega)⟩

/-! ### Two cores -/

/-- The SJF branch is its scan followed, when a batch slot was selected, by `sjfDispatch`. -/
theorem scheduler_sjf_split (par : Param) (k : Kernel) :
    scheduler_sjf par k =
      match (sjfScan par k.cpu 0 k.proc sjfInit).1.switched with
      | some i =>
        Dispatch.run { k with proc := (sjfScan par k.cpu 0 k.proc sjfInit).2,
                              cpu := { k.cpu with proc := some i } } i
      | none =>
        if (sjfScan par k.cpu 0 k.proc sjfInit).1.flag ≠ 0
            ∨ (sjfScan par k.cpu 0 k.proc sjfInit).1.found = 0 then
          Dispatch.idle { k with proc := (sjfScan par k.cpu 0 k.proc sjfInit).2 }
        else
          match (sjfScan par k.cpu 0 k.proc sjfInit).1.p_to_sched with
          | none => Dispatch.idle { k with proc := (sjfScan par k.cpu 0 k.proc sjfInit).2 }
          | some j =>
            sjfDispatch { k with proc := (sjfScan par k.cpu 0 k.proc sjfInit).2 } j := by
  unfold scheduler_sjf sjfDispatch
  rfl

/-- The UNIX branch is its scan followed, when a batch slot was selected, by
`unixDispatch`. -/
theorem scheduler_unix_split (par : Param) (k : Kernel) :
    scheduler_unix par k =
      match (unixScan par k.cpu k.ticks 0 k.proc unixInit).1.switched with
      | some i =>
        Dispatch.run { k with proc := (unixScan par k.cpu k.ticks 0 k.proc unixInit).2,
                              cpu := { k.cpu with proc := some i } } i
      | none =>
        if (unixScan par k.cpu k.ticks 0 k.proc unixInit).1.flag ≠ 0
            ∨ (unixScan par k.cpu k.ticks 0 k.proc unixInit).1.found = 0 then
          Dispatch.idle { k with proc := (unixScan par k.cpu k.ticks 0 k.proc unixInit).2 }
        else
          match (unixScan par k.cpu k.ticks 0 k.proc unixInit).1.p_to_sched with
          | none =>
            Dispatch.idle { k with proc := (unixScan par k.cpu k.ticks 0 k.proc unixInit).2 }
          | some j =>
            unixDispatch
              { k with proc := (unixScan par k.cpu k.ticks 0 k.proc unixInit).2 } j := by
  unfold scheduler_unix unixDispatch
  rfl

/-- C16 fails on the code.  Two cores under the SJF policy share the table of `sjfSample`.
Core A scans and selects slot 2, core B scans the same table and selects slot 2 as well
(the scan releases every slot lock and leaves the table as it is); core A dispatches slot
2, which is RUNNING from then on; core B then executes its dispatch of slot 2, which sets
the state to RUNNING without testing it: the slot, RUNNING on core A at that moment, is the
current process of both cores. -/
theorem batch_slot_dispatched_twice :
    ∃ ka kb : Kernel,
      (sjfScan sampleParam (zeroCpu 1) 0 sjfSample.proc sjfInit).1
          = { min_burst_len := 2, p_to_sched := some 2, flag := 0, found := 1,
              switched := none }
      ∧ (sjfScan sampleParam (zeroCpu 1) 0 sjfSample.proc sjfInit).2 = sjfSample.proc
      ∧ (sjfScan sampleParam { zeroCpu 1 with intena := 1 } 0 sjfSample.proc sjfInit).1
          = { min_burst_len := 2, p_to_sched := some 2, flag := 0, found := 1,
              switched := none }
      ∧ sjfDispatch (onCore sjfSample (zeroCpu 1)) 2 = Dispatch.run ka 2
      ∧ ka.proc.map (fun q => q.state)
          = [procstate.SLEEPING, procstate.RUNNABLE, procstate.RUNNING, procstate.RUNNABLE]
      ∧ ka.cpu.proc = some 2
      ∧ sjfDispatch (onCore ka { zeroCpu 1 with intena := 1 }) 2 = Dispatch.run kb 2
      ∧ kb.proc.map (fun q => q.state)
          = [procstate.SLEEPING, procstate.RUNNABLE, procstate.RUNNING, procstate.RUNNABLE]
      ∧ kb.cpu.proc = some 2 :=
  ⟨_, _, rfl, rfl, rfl, rfl, rfl, rfl, rfl, rfl, rfl⟩

/-! ### Usage and the yielding process -/

theorem tdiv_two_mono (a b : Int) (h : a ≤ b) : Int.tdiv a 2 ≤ Int.tdiv b 2 := by
  rcases le_or_lt 0 a with ha | ha
  · rw [Int.tdiv_eq_ediv ha (by decide), Int.tdiv_eq_ediv (by omega) (by decide)]
    omega
  · have ha1 : Int.tdiv a 2 = -((-a) / 2) := by
      have h1 : a = -(-a) := by omega
      rw [h1, Int.neg_tdiv, Int.tdiv_eq_ediv (by omega) (by decide)]
      simp
    rcases le_or_lt 0 b with hb | hb
    · rw [ha1, Int.tdiv_eq_ediv hb (by decide)]
      omega
    · have hb1 : Int.tdiv b 2 = -((-b) / 2) := by
        have h1 : b = -(-b) := by omega
        rw [h1, Int.neg_tdiv, Int.tdiv_eq_ediv (by omega) (by decide)]
        simp
      rw [ha1, hb1]
      omega

/-- The effective priority is monotonically non-decreasing in `cpu_usage`. -/
theorem effectivePriority_mono (p q : proc) (hprio : p.priority = q.priority)
    (h : p.cpu_usage ≤ q.cpu_usage) : effectivePriority p ≤ effectivePriority q := by
  unfold effectivePriority
  have := tdiv_two_mono p.cpu_usage q.cpu_usage h
  omega

/-- A batch process whose usage was raised by yields gets, in the next UNIX pass, a
strictly larger effective priority than one of the same base priority without usage. -/
theorem unix_usage_raises_priority (par : Param) (a b : proc) (n : Nat) (base : Int)
    (hC : 4 ≤ par.SCHED_PARAM_CPU_USAGE) (hn : 1 ≤ n) (hbase : 0 ≤ base)
    (ha : a.cpu_usage = base + n * par.SCHED_PARAM_CPU_USAGE)
    (hprio : a.priority = b.priority) (hb : b.cpu_usage = 0) (hbp : b.prev_cpu_usage = 0) :
    effectivePriority (unixDecay b) < effectivePriority (unixDecay a) := by
  have hu : 4 ≤ a.cpu_usage := by
    have h1 : (1 : Int) ≤ n := by exact_mod_cast hn
    nlinarith
  have hdb : unixDecay b = b := by
    unfold unixDecay
    rw [if_neg (by rw [hb, hbp]; simp)]
  have h2 : Int.tdiv a.cpu_usage 2 = a.cpu_usage / 2 :=
    Int.tdiv_eq_ediv (by omega) (by decide)
  rw [hdb]
  unfold unixDecay effectivePriority
  rw [hb]
  split_ifs
  · have h0 : Int.tdiv 0 2 = 0 := rfl
    have h3 : Int.tdiv (Int.tdiv a.cpu_usage 2) 2 = a.cpu_usage / 2 / 2 := by
      rw [h2]
      exact Int.tdiv_eq_ediv (by omega) (by decide)
    show b.priority + Int.tdiv 0 2 < a.priority + Int.tdiv (Int.tdiv a.cpu_usage 2) 2
    rw [h0, h3]
    omega
  · have h0 : Int.tdiv 0 2 = 0 := rfl
    show b.priority + Int.tdiv 0 2 < a.priority + Int.tdiv a.cpu_usage 2
    rw [h0, h2]
    omega

/-- Away from the sentinel, the UNIX pass does not dispatch a RUNNABLE batch slot `ia`
while a RUNNABLE slot of strictly smaller effective priority exists. -/
theorem unix_larger_priority_loses (par : Param) (k : Kernel) (ia ib : Nat) (a b : proc)
    (hpol : k.cpu.sched_policy = par.SCHED_PREEMPT_UNIX)
    (hfcfs : par.SCHED_PREEMPT_UNIX ≠ par.SCHED_NPREEMPT_FCFS)
    (hrr : par.SCHED_PREEMPT_UNIX ≠ par.SCHED_PREEMPT_RR)
    (hsjf : par.SCHED_PREEMPT_UNIX ≠ par.SCHED_NPREEMPT_SJF)
    (hbatch : ∀ q ∈ k.proc, q.state = procstate.RUNNABLE → q.batch_process ≠ 0)
    (hsent : ∀ q ∈ k.proc, q.state = procstate.RUNNABLE →
      effectivePriority (unixDecay q) ≠ -1)
    (ha : k.proc[ia]? = some a) (hb : k.proc[ib]? = some b)
    (hbr : b.state = procstate.RUNNABLE)
    (hlt : effectivePriority (unixDecay b) < effectivePriority (unixDecay a)) :
    ∃ j : Nat, ∃ k1 : Kernel, scheduler par k = Dispatch.run k1 j ∧ j ≠ ia := by
  obtain ⟨j, q, hq, _, hmin, hrun⟩ := unix_dispatch_off_sentinel par k hpol hfcfs hrr hsjf
    hbatch hsent ⟨b, List.mem_iff_getElem?.2 ⟨ib, hb⟩, hbr⟩
  refine ⟨j, _, hrun, ?_⟩
  intro hj
  subst hj
  rw [ha] at hq
  simp only [Option.some.injEq] at hq
  subst hq
  rcases hmin ib b hb hbr with h | h
  · omega
  · omega

/-- C20 fails on the code.  Under the UNIX policy a process creates the batch children B
(slot 1) and A (slot 2) with `forkp(-1)` and blocks in `wait`; A is dispatched and yields,
which raises its `cpu_usage` to 200.  In the next pass B is RUNNABLE with effective
priority -1 and A has the effective priority -1 + 50 = 49, and the scheduler switches to A
again: B's effective priority -1 reads as "no candidate yet". -/
theorem unix_yielder_dispatched_again :
    ∃ k1 k2 k3 k4 k5 k6 : Kernel,
      forkp unixBoot okOracle 0 (-1) = some (k1, 2)
      ∧ forkp k1 okOracle 0 (-1) = some (k2, 3)
      ∧ wait sampleParam k2 0 0 (fun _ => true) = some (WaitResult.sleeps k3)
      ∧ scheduler sampleParam (switchedBack k3) = Dispatch.run k4 2
      ∧ yield sampleParam k4 2 = k5
      ∧ k5.proc.map (fun q => (q.state, q.batch_process, q.priority, q.cpu_usage,
            q.prev_cpu_usage))
          = [(procstate.SLEEPING, 0, 0, 100, 0), (procstate.RUNNABLE, 1, -1, 0, 0),
             (procstate.RUNNABLE, 1, -1, 200, 0), (procstate.UNUSED, 0, 0, 0, 0)]
      ∧ scheduler sampleParam (switchedBack k5) = Dispatch.run k6 2
      ∧ k6.proc.map (fun q => (q.state, q.batch_process, effectivePriority q))
          = [(procstate.SLEEPING, 0, 50), (procstate.RUNNABLE, 1, -1),
             (procstate.RUNNING, 1, 49), (procstate.UNUSED, 0, 0)] :=
  ⟨_, _, _, _, _, _, rfl, rfl, rfl, rfl, rfl, rfl, rfl, rfl⟩

/-! ### The waiting stamp -/

/-- The yield system call makes its caller RUNNABLE and leaves every other field of the
slot, `wait_st_time` included, as it was. -/
theorem sys_yield_getElem? (k : Kernel) (p : Nat) (me : proc) (hme : k.proc[p]? = some me) :
    (sys_yield k p).proc[p]? = some { me with state := procstate.RUNNABLE } := by
  have hlt := lt_of_getElem?_some hme
  unfold sys_yield
  rw [hme]
  simp [hlt]

/-- The `yield()` of `proc.c` stamps its caller: RUNNABLE with `wait_st_time` the current
tick. -/
theorem yield_stamps (par : Param) (k : Kernel) (p : Nat) (me : proc)
    (hme : k.proc[p]? = some me) :
    ∃ q : proc, (yield par k p).proc[p]? = some q ∧ q.state = procstate.RUNNABLE
      ∧ q.wait_st_time = k.ticks := by
  have hlt := lt_of_getElem?_some hme
  unfold yield
  rw [hme]
  simp [hlt]

/-- C12 fails on the code.  In `forkBoot` (tick 5) the running process of slot 2 has
`wait_st_time = -1`.  (1) When it makes the yield system call it is RUNNABLE with
`wait_st_time = -1`, whereas `yield()` leaves it RUNNABLE with `wait_st_time = 5`.  (2)
When it forks (child in slot 1, not a batch process, RUNNABLE, `wait_st_time = 5`) and
blocks in `wait`, the SJF scheduler and the UNIX scheduler dispatch the child: it is
RUNNING with `wait_st_time = 5`, whereas the FCFS scheduler leaves it RUNNING with
`wait_st_time = -1`. -/
theorem wait_st_time_not_kept :
    ∃ k1 k2 ksjf kunix kfcfs : Kernel,
      (sys_yield forkBoot 2).proc.map (fun q => (q.state, q.wait_st_time))
          = [(procstate.SLEEPING, -1), (procstate.UNUSED, 0), (procstate.RUNNABLE, -1),
             (procstate.UNUSED, 0)]
      ∧ (yield sampleParam forkBoot 2).proc.map (fun q => (q.state, q.wait_st_time))
          = [(procstate.SLEEPING, -1), (procstate.UNUSED, 0), (procstate.RUNNABLE, 5),
             (procstate.UNUSED, 0)]
      ∧ fork forkBoot okOracle 2 = some (k1, 3)
      ∧ wait sampleParam k1 2 0 (fun _ => true) = some (WaitResult.sleeps k2)
      ∧ k2.proc.map (fun q => (q.state, q.batch_process, q.wait_st_time))
          = [(procstate.SLEEPING, 0, -1), (procstate.RUNNABLE, 0, 5),
             (procstate.SLEEPING, 0, -1), (procstate.UNUSED, 0, 0)]
      ∧ scheduler sampleParam (onCore k2 (zeroCpu 1)) = Dispatch.run ksjf 1
      ∧ ksjf.proc.map (fun q => (q.state, q.wait_st_time))
          = [(procstate.SLEEPING, -1), (procstate.RUNNING, 5), (procstate.SLEEPING, -1),
             (procstate.UNUSED, 0)]
      ∧ scheduler sampleParam (onCore k2 (zeroCpu 3)) = Dispatch.run kunix 1
      ∧ kunix.proc.map (fun q => (q.state, q.wait_st_time))
          = [(procstate.SLEEPING, -1), (procstate.RUNNING, 5), (procstate.SLEEPING, -1),
             (procstate.UNUSED, 0)]
      ∧ scheduler sampleParam (onCore k2 (zeroCpu 0)) = Dispatch.run kfcfs 1
      ∧ kfcfs.proc.map (fun q => (q.state, q.wait_st_time))
          = [(procstate.SLEEPING, -1), (procstate.RUNNING, -1), (procstate.SLEEPING, -1),
             (procstate.UNUSED, 0)] :=
  ⟨_, _, _, _, _, rfl, rfl, rfl, rfl, rfl, rfl, rfl, rfl, rfl, rfl, rfl⟩

/-! ### allocproc and the fork variants -/

/-- What `allocproc` returns when the search finds the UNUSED slot `i`. -/
theorem allocproc_found (k : Kernel) (o : Oracle) (i : Nat) (u : proc)
    (hi : findUnused 0 k.proc = some i) (hu : k.proc[i]? = some u) :
    allocproc k o =
      match o.kalloc with
      | none =>
        ({ k with nextpid := k.nextpid + 1,
                  proc := k.proc.set i (freeproc
                    { u with pid := k.nextpid, state := procstate.USED,
                             priority := -1000000, next_burst_len := 0, batch_process := 0,
                             cpu_usage := 0, prev_cpu_usage := 0, wait_time := 0,
                             wait_st_time := -1, prev_burst_start := -1,
                             trapframe := none }) }, none)
      | some tf =>
        match o.proc_pagetable with
        | none =>
          ({ k with nextpid := k.nextpid + 1,
                    proc := k.proc.set i (freeproc
                      { u with pid := k.nextpid, state := procstate.USED,
                               priority := -1000000, next_burst_len := 0, batch_process := 0,
                               cpu_usage := 0, prev_cpu_usage := 0, wait_time := 0,
                               wait_st_time := -1, prev_burst_start := -1,
                               trapframe := some tf, pagetable := none }) }, none)
        | some pt =>
          ({ k with nextpid := k.nextpid + 1,
                    proc := k.proc.set i
                      { u with pid := k.nextpid, state := procstate.USED,
                               priority := -1000000, next_burst_len := 0, batch_process := 0,
                               cpu_usage := 0, prev_cpu_usage := 0, wait_time := 0,
                               wait_st_time := -1, prev_burst_start := -1,
                               trapframe := some tf, pagetable := some pt,
                               ctime := k.ticks, stime := -1, endtime := -1 } }, some i) := by
  unfold allocproc
  rw [hi]
  cases o.kalloc with
  | none => simp only [hu]
  | some tf =>
    cases o.proc_pagetable with
    | none => simp only [hu]
    | some pt => simp only [hu]

/-- With no UNUSED slot `allocproc` returns 0 and changes nothing. -/
theorem allocproc_full (k : Kernel) (o : Oracle) (h : findUnused 0 k.proc = none) :
    allocproc k o = (k, none) := by
  unfold allocproc
  rw [h]

/-- C22: `allocproc` initialises a fresh slot.  When slot `i` is the lowest-indexed UNUSED
slot and `kalloc` and `proc_pagetable` succeed, `allocproc` returns slot `i`, which is USED
with `pid` the previous `nextpid` (`nextpid` being incremented), priority -1000000,
`next_burst_len`, `batch_process`, `cpu_usage`, `prev_cpu_usage` and `wait_time` 0,
`wait_st_time` and `prev_burst_start` -1, `ctime` the current tick, `stime` and `endtime`
-1, whatever the slot held before; every other slot is unchanged. -/
theorem allocproc_fresh (k : Kernel) (o : Oracle) (i : Nat) (u : proc) (tf : trapframe)
    (pt : Nat) (hu : k.proc[i]? = some u) (hus : u.state = procstate.UNUSED)
    (hfirst : ∀ r ∈ k.proc.take i, r.state ≠ procstate.UNUSED)
    (hk : o.kalloc = some tf) (hp : o.proc_pagetable = some pt) :
    ∃ k1 : Kernel, ∃ np : proc, allocproc k o = (k1, some i)
      ∧ k1.proc[i]? = some np
      ∧ np.state = procstate.USED ∧ np.pid = k.nextpid ∧ k1.nextpid = k.nextpid + 1
      ∧ np.priority = -1000000 ∧ np.next_burst_len = 0 ∧ np.batch_process = 0
      ∧ np.cpu_usage = 0 ∧ np.prev_cpu_usage = 0 ∧ np.wait_time = 0
      ∧ np.wait_st_time = -1 ∧ np.prev_burst_start = -1 ∧ np.ctime = k.ticks
      ∧ np.stime = -1 ∧ np.endtime = -1
      ∧ np.trapframe = some tf ∧ np.pagetable = some pt
      ∧ k1.proc.length = k.proc.length
      ∧ (∀ j : Nat, j ≠ i → k1.proc[j]? = k.proc[j]?)
      ∧ k1.cpu = k.cpu ∧ k1.initproc = k.initproc ∧ k1.ticks = k.ticks := by
  have hi : findUnused 0 k.proc = some i := by
    have := findUnused_first k.proc 0 i u hu hus hfirst
    simpa using this
  have hlt := lt_of_getElem?_some hu
  have h := allocproc_found k o i u hi hu
  rw [hk] at h
  simp only [hp] at h
  refine ⟨_, { u with pid := k.nextpid, state := procstate.USED,
                      priority := -1000000, next_burst_len := 0, batch_process := 0,
                      cpu_usage := 0, prev_cpu_usage := 0, wait_time := 0,
                      wait_st_time := -1, prev_burst_start := -1,
                      trapframe := some tf, pagetable := some pt,
                      ctime := k.ticks, stime := -1, endtime := -1 }, h, ?_, rfl, rfl, rfl, rfl, rfl, rfl, rfl, rfl, rfl, rfl, rfl, rfl, rfl, rfl,
    rfl, rfl, ?_, ?_, rfl, rfl, rfl⟩
  · simp [hlt]
  · simp
  · intro j hj
    simp [List.getElem?_set, Ne.symm hj]

/-- C22 on `recycled`: slot 1, left by a batch process with priority 5 and usage 100, is
allocated with pid 9 and fresh scheduling fields. -/
theorem allocproc_fresh_witness :
    (∀ r ∈ recycled.proc.take 1, r.state ≠ procstate.UNUSED)
    ∧ ∃ k1 : Kernel, ∃ np : proc, allocproc recycled okOracle = (k1, some 1)
      ∧ k1.proc[1]? = some np
      ∧ np.state = procstate.USED ∧ np.pid = recycled.nextpid
      ∧ k1.nextpid = recycled.nextpid + 1
      ∧ np.priority = -1000000 ∧ np.next_burst_len = 0 ∧ np.batch_process = 0
      ∧ np.cpu_usage = 0 ∧ np.prev_cpu_usage = 0 ∧ np.wait_time = 0
      ∧ np.wait_st_time = -1 ∧ np.prev_burst_start = -1 ∧ np.ctime = recycled.ticks
      ∧ np.stime = -1 ∧ np.endtime = -1
      ∧ np.trapframe = some { epc := 0, sp := 0, a0 := 0 } ∧ np.pagetable = some 1
      ∧ k1.proc.length = recycled.proc.length
      ∧ (∀ j : Nat, j ≠ 1 → k1.proc[j]? = recycled.proc[j]?)
      ∧ k1.cpu = recycled.cpu ∧ k1.initproc = recycled.initproc
      ∧ k1.ticks = recycled.ticks :=
  ⟨by decide,
   allocproc_fresh recycled okOracle 1 (freeproc usedSlot) _ 1 rfl rfl (by decide) rfl rfl⟩

/-- What `allocproc` never writes; the table keeps its length. -/
theorem allocproc_frame (k : Kernel) (o : Oracle) :
    (allocproc k o).1.cpu = k.cpu ∧ (allocproc k o).1.initproc = k.initproc
    ∧ (allocproc k o).1.ticks = k.ticks
    ∧ (allocproc k o).1.proc.length = k.proc.length := by
  unfold allocproc
  split
  · exact ⟨rfl, rfl, rfl, rfl⟩
  · split
    · exact ⟨rfl, rfl, rfl, rfl⟩
    · split
      · exact ⟨rfl, rfl, rfl, by simp⟩
      · split
        · exact ⟨rfl, rfl, rfl, by simp⟩
        · exact ⟨rfl, rfl, rfl, by simp⟩

/-- C21: `forkp` refines `fork`.  Let `fork` return `r` in the state `kf`.  When `fork`
fails (`allocproc` returns 0 or `uvmcopy` fails), `r = -1` and `forkp(priority)` returns -1
in the same state, the accumulators of the core, `nump` included, being those before the
call.  Otherwise `forkp(priority)` returns the same pid `r`, and its state is `kf` with
the child's `priority` set to the argument and its `batch_process` to 1 and with `nump`
larger by one. -/
theorem forkp_refines_fork (k : Kernel) (o : Oracle) (p : Nat) (priority : Int)
    (kf : Kernel) (r : Int) (h : fork k o p = some (kf, r)) :
    (((allocproc k o).2 = none ∨ o.uvmcopy = false) →
        r = -1 ∧ forkp k o p priority = some (kf, -1) ∧ kf.cpu = k.cpu)
    ∧ (¬ ((allocproc k o).2 = none ∨ o.uvmcopy = false) →
        ∃ i : Nat, ∃ np : proc, findUnused 0 k.proc = some i ∧ kf.proc[i]? = some np
          ∧ np.pid = r ∧ kf.cpu = k.cpu
          ∧ forkp k o p priority =
              some ({ kf with
                        proc := kf.proc.set i
                          { np with priority := priority, batch_process := 1 },
                        cpu := { kf.cpu with nump := kf.cpu.nump + 1 } }, r)) := by
  have hfr := allocproc_frame k o
  unfold fork at h
  unfold forkp
  rcases hal : allocproc k o with ⟨k1, _ | i⟩
  · rw [hal] at h hfr
    simp only at h hfr ⊢
    by_cases hp : p < k.proc.length
    · rw [if_pos hp] at h ⊢
      simp only [Option.some.injEq, Prod.mk.injEq] at h
      obtain ⟨rfl, rfl⟩ := h
      exact ⟨fun _ => ⟨rfl, rfl, hfr.1⟩, fun hn => (hn (Or.inl trivial)).elim⟩
    · rw [if_neg hp] at h
      exact absurd h (by simp)
  · obtain ⟨hfind, hcpu, _, _, _, u, np0, hu, hset, _, _⟩ := allocproc_some k o k1 i hal
    rw [hal] at h
    simp only at h ⊢
    cases hme : k1.proc[p]? with
    | none => rw [hme] at h; exact absurd h (by simp)
    | some me =>
      cases hnp : k1.proc[i]? with
      | none => rw [hme, hnp] at h; exact absurd h (by simp)
      | some np =>
        rw [hme, hnp] at h
        simp only at h ⊢
        have hilt := lt_of_getElem?_some hnp
        by_cases huv : o.uvmcopy = false
        · rw [if_pos huv] at h ⊢
          simp only [Option.some.injEq, Prod.mk.injEq] at h
          obtain ⟨rfl, rfl⟩ := h
          exact ⟨fun _ => ⟨rfl, rfl, hcpu⟩, fun hn => absurd (Or.inr huv) hn⟩
        · rw [if_neg huv] at h ⊢
          cases hmt : me.trapframe with
          | none => rw [hmt] at h; exact absurd h (by simp)
          | some tf =>
            cases hnt : np.trapframe with
            | none => rw [hmt, hnt] at h; exact absurd h (by simp)
            | some tf2 =>
              rw [hmt, hnt] at h
              simp only [Option.some.injEq, Prod.mk.injEq] at h ⊢
              obtain ⟨rfl, rfl⟩ := h
              refine ⟨fun hf => ?_, fun _ => ?_⟩
              · rcases hf with hf | hf
                · exact absurd hf (by simp)
                · exact absurd hf huv
              · refine ⟨i, { np with sz := me.sz, trapframe := some { tf with a0 := 0 },
                                     ofile := dupFiles me.ofile np.ofile, cwd := me.cwd,
                                     name := me.name, parent := some p,
                                     state := procstate.RUNNABLE,
                                     wait_st_time := k1.ticks },
                  hfind, ?_, rfl, hcpu, ?_⟩
                · simp [hilt]
                · simp [List.set_set]

/-- C21 on `forkBoot`: `fork` by the process in slot 2 returns pid 3 with the child in slot
1, and `forkp(9)` returns 3 with the same state except priority 9, `batch_process` 1 in
slot 1 and `nump` 1. -/
theorem forkp_refines_fork_witness :
    fork forkBoot okOracle 2 = some (forkBoot_forked, 3)
    ∧ (((allocproc forkBoot okOracle).2 = none ∨ okOracle.uvmcopy = false) →
        (3 : Int) = -1 ∧ forkp forkBoot okOracle 2 9 = some (forkBoot_forked, -1)
          ∧ forkBoot_forked.cpu = forkBoot.cpu)
    ∧ (¬ ((allocproc forkBoot okOracle).2 = none ∨ okOracle.uvmcopy = false) →
        ∃ i : Nat, ∃ np : proc, findUnused 0 forkBoot.proc = some i
          ∧ forkBoot_forked.proc[i]? = some np
          ∧ np.pid = 3 ∧ forkBoot_forked.cpu = forkBoot.cpu
          ∧ forkp forkBoot okOracle 2 9 =
              some ({ forkBoot_forked with
                        proc := forkBoot_forked.proc.set i
                          { np with priority := 9, batch_process := 1 },
                        cpu := { forkBoot_forked.cpu with
                                   nump := forkBoot_forked.cpu.nump + 1 } }, 3)) :=
  ⟨rfl, forkp_refines_fork forkBoot okOracle 2 9 forkBoot_forked 3 rfl⟩

/-- The fork variants when `allocproc` returns 0. -/
theorem fork_alloc_none (k : Kernel) (o : Oracle) (p : Nat) (priority faddr : Int)
    (k1 : Kernel) (h : allocproc k o = (k1, none)) (hp : p < k.proc.length) :
    fork k o p = some (k1, -1) ∧ forkp k o p priority = some (k1, -1)
    ∧ forkf k o p faddr = some (k1, -1) := by
  unfold fork forkp forkf
  rw [h]
  simp [hp]

/-- The fork variants when `uvmcopy` fails. -/
theorem fork_uvmcopy_fails (k : Kernel) (o : Oracle) (p : Nat) (priority faddr : Int)
    (k1 : Kernel) (i : Nat) (me np : proc) (h : allocproc k o = (k1, some i))
    (hme : k1.proc[p]? = some me) (hnp : k1.proc[i]? = some np) (huv : o.uvmcopy = false) :
    fork k o p = some ({ k1 with proc := k1.proc.set i (freeproc np) }, -1)
    ∧ forkp k o p priority = some ({ k1 with proc := k1.proc.set i (freeproc np) }, -1)
    ∧ forkf k o p faddr = some ({ k1 with proc := k1.proc.set i (freeproc np) }, -1) := by
  unfold fork forkp forkf
  rw [h]
  simp [hme, hnp, huv]

/-- The slot left behind by a failed allocation or duplication. -/
theorem freeproc_released (q : proc) :
    (freeproc q).state = procstate.UNUSED ∧ (freeproc q).pid = 0
    ∧ (freeproc q).trapframe = none ∧ (freeproc q).pagetable = none :=
  ⟨rfl, rfl, rfl, rfl⟩

/-- C23: resource exhaustion in the fork variants is recovered locally.  For a caller
that is a slot of the table, whenever no slot is UNUSED, or `kalloc` or `proc_pagetable`
fails, or `uvmcopy` fails, `fork`, `forkp` and `forkf` return -1, all three in the same
state: the slot that was being built (the lowest-indexed UNUSED slot, if any) is UNUSED with
pid 0 and without trapframe and page table, every other slot is unchanged, so every slot
that is not UNUSED afterwards is a slot from before the call with the same contents; with
no UNUSED slot the state is unchanged. -/
theorem fork_failure_recovered (k : Kernel) (o : Oracle) (p : Nat) (me : proc)
    (priority faddr : Int) (hme : k.proc[p]? = some me)
    (hfail : findUnused 0 k.proc = none ∨ o.kalloc = none ∨ o.proc_pagetable = none
      ∨ o.uvmcopy = false) :
    ∃ kf : Kernel, fork k o p = some (kf, -1) ∧ forkp k o p priority = some (kf, -1)
      ∧ forkf k o p faddr = some (kf, -1)
      ∧ kf.cpu = k.cpu ∧ kf.initproc = k.initproc ∧ kf.ticks = k.ticks
      ∧ kf.proc.length = k.proc.length
      ∧ (findUnused 0 k.proc = none → kf = k)
      ∧ (∀ i : Nat, findUnused 0 k.proc = some i →
          (∃ q : proc, kf.proc[i]? = some q ∧ q.state = procstate.UNUSED ∧ q.pid = 0
            ∧ q.trapframe = none ∧ q.pagetable = none)
          ∧ ∀ j : Nat, j ≠ i → kf.proc[j]? = k.proc[j]?)
      ∧ (∀ (j : Nat) (q : proc), kf.proc[j]? = some q → q.state ≠ procstate.UNUSED →
          k.proc[j]? = some q) := by
  have hp := lt_of_getElem?_some hme
  cases hfind : findUnused 0 k.proc with
  | none =>
    obtain ⟨h1, h2, h3⟩ := fork_alloc_none k o p priority faddr k (allocproc_full k o hfind) hp
    exact ⟨k, h1, h2, h3, rfl, rfl, rfl, rfl, fun _ => rfl, fun i hi => absurd hi (by simp),
      fun j q hq _ => hq⟩
  | some i =>
    obtain ⟨j0, u, hij, hu, hus, _⟩ := findUnused_some k.proc 0 i hfind
    have hi0 : j0 = i := by omega
    subst hi0
    have hilt := lt_of_getElem?_some hu
    have hal := allocproc_found k o j0 u hfind hu
    -- the three ways to fail, each leaving `freeproc` of the slot being built
    have key : ∀ (kf : Kernel) (x : proc), kf.cpu = k.cpu → kf.initproc = k.initproc →
        kf.ticks = k.ticks → kf.proc = k.proc.set j0 (freeproc x) →
        fork k o p = some (kf, -1) → forkp k o p priority = some (kf, -1) →
        forkf k o p faddr = some (kf, -1) →
        ∃ kf : Kernel, fork k o p = some (kf, -1) ∧ forkp k o p priority = some (kf, -1)
          ∧ forkf k o p faddr = some (kf, -1)
          ∧ kf.cpu = k.cpu ∧ kf.initproc = k.initproc ∧ kf.ticks = k.ticks
          ∧ kf.proc.length = k.proc.length
          ∧ (some j0 = none → kf = k)
          ∧ (∀ i : Nat, some j0 = some i →
              (∃ q : proc, kf.proc[i]? = some q ∧ q.state = procstate.UNUSED ∧ q.pid = 0
                ∧ q.trapframe = none ∧ q.pagetable = none)
              ∧ ∀ j : Nat, j ≠ i → kf.proc[j]? = k.proc[j]?)
          ∧ (∀ (j : Nat) (q : proc), kf.proc[j]? = some q → q.state ≠ procstate.UNUSED →
              k.proc[j]? = some q) := by
      intro kf x hc hi ht hpr h1 h2 h3
      refine ⟨kf, h1, h2, h3, hc, hi, ht, by rw [hpr]; simp, fun h => absurd h (by simp), ?_, ?_⟩
      · intro i hi
        simp only [Option.some.injEq] at hi
        subst hi
        refine ⟨⟨freeproc x, by rw [hpr]; simp [hilt], rfl, rfl, rfl, rfl⟩, ?_⟩
        intro j hj
        rw [hpr, List.getElem?_set_ne (Ne.symm hj)]
      · intro j q hq hqs
        by_cases hj : j = j0
        · subst hj
          rw [hpr] at hq
          simp [hilt] at hq
          subst hq
          exact absurd rfl hqs
        · rw [hpr, List.getElem?_set_ne (Ne.symm hj)] at hq
          exact hq
    cases hk : o.kalloc with
    | none =>
      rw [hk] at hal
      simp only at hal
      obtain ⟨h1, h2, h3⟩ := fork_alloc_none k o p priority faddr _ hal hp
      refine key _ ?x ?c1 ?c2 ?c3 ?c4 h1 h2 h3
      case c4 => exact rfl
      all_goals rfl
    | some tf =>
      cases hpt : o.proc_pagetable with
      | none =>
        rw [hk] at hal
        simp only [hpt] at hal
        obtain ⟨h1, h2, h3⟩ := fork_alloc_none k o p priority faddr _ hal hp
        refine key _ ?y ?d1 ?d2 ?d3 ?d4 h1 h2 h3
        case d4 => exact rfl
        all_goals rfl
      | some pt =>
        rw [hk] at hal
        simp only [hpt] at hal
        have huv : o.uvmcopy = false := by
          rcases hfail with h | h | h | h
          · rw [hfind] at h; exact absurd h (by simp)
          · rw [hk] at h; exact absurd h (by simp)
          · rw [hpt] at h; exact absurd h (by simp)
          · exact h
        obtain ⟨p2, hp2⟩ : ∃ p2 : proc, p2 =
            { u with pid := k.nextpid, state := procstate.USED,
                     priority := -1000000, next_burst_len := 0, batch_process := 0,
                     cpu_usage := 0, prev_cpu_usage := 0, wait_time := 0,
                     wait_st_time := -1, prev_burst_start := -1,
                     trapframe := some tf, pagetable := some pt,
                     ctime := k.ticks, stime := -1, endtime := -1 } := ⟨_, rfl⟩
        rw [← hp2] at hal
        have hme1 : ∃ me1 : proc, (k.proc.set j0 p2)[p]? = some me1 :=
          ⟨_, List.getElem?_eq_getElem (by simp [hp])⟩
        obtain ⟨me1, hme1⟩ := hme1
        have hnp : (k.proc.set j0 p2)[j0]? = some p2 := by simp [hilt]
        obtain ⟨h1, h2, h3⟩ := fork_uvmcopy_fails k o p priority faddr _ j0 me1 p2 hal hme1
          hnp huv
        refine key _ p2 ?e1 ?e2 ?e3 ?e4 h1 h2 h3
        case e4 => simp only [List.set_set]
        all_goals rfl

/-- C23 on `forkBoot` with a failing `uvmcopy`: the three fork variants called by the
process in slot 2 return -1, slot 1 is UNUSED with pid 0 and the other slots are as
before. -/
theorem fork_failure_recovered_witness :
    (findUnused 0 forkBoot.proc = none ∨ noCopyOracle.kalloc = none
      ∨ noCopyOracle.proc_pagetable = none ∨ noCopyOracle.uvmcopy = false)
    ∧ ∃ kf : Kernel, fork forkBoot noCopyOracle 2 = some (kf, -1)
      ∧ forkp forkBoot noCopyOracle 2 9 = some (kf, -1)
      ∧ forkf forkBoot noCopyOracle 2 64 = some (kf, -1)
      ∧ kf.cpu = forkBoot.cpu ∧ kf.initproc = forkBoot.initproc ∧ kf.ticks = forkBoot.ticks
      ∧ kf.proc.length = forkBoot.proc.length
      ∧ (findUnused 0 forkBoot.proc = none → kf = forkBoot)
      ∧ (∀ i : Nat, findUnused 0 forkBoot.proc = some i →
          (∃ q : proc, kf.proc[i]? = some q ∧ q.state = procstate.UNUSED ∧ q.pid = 0
            ∧ q.trapframe = none ∧ q.pagetable = none)
          ∧ ∀ j : Nat, j ≠ i → kf.proc[j]? = forkBoot.proc[j]?)
      ∧ (∀ (j : Nat) (q : proc), kf.proc[j]? = some q → q.state ≠ procstate.UNUSED →
          forkBoot.proc[j]? = some q) :=
  ⟨Or.inr (Or.inr (Or.inr rfl)),
   fork_failure_recovered forkBoot noCopyOracle 2 _ 9 64 rfl (Or.inr (Or.inr (Or.inr rfl)))⟩

/-! ### kill and free slots -/

/-- The loop of `kill` keeps the length of the table and changes a slot only if its pid is
the argument. -/
theorem killFrom_slot (pid t : Int) (ps : List proc) (j : Nat) (q : proc)
    (hq : ps[j]? = some q) :
    (killFrom pid t ps).2[j]? = some q
    ∨ (q.pid = pid ∧ (killFrom pid t ps).2[j]? = some
        (if q.state = procstate.SLEEPING then
          { q with killed := 1, state := procstate.RUNNABLE, wait_st_time := t }
         else { q with killed := 1 })) := by
  induction ps generalizing j with
  | nil => simp at hq
  | cons p ps ih =>
    unfold killFrom
    by_cases hp : p.pid = pid
    · rw [if_pos hp]
      cases j with
      | zero =>
        simp only [List.getElem?_cons_zero, Option.some.injEq] at hq
        subst hq
        right
        refine ⟨hp, ?_⟩
        by_cases hs : p.state = procstate.SLEEPING
        · simp [hs]
        · simp [hs]
      | succ j =>
        left
        simpa using hq
    · rw [if_neg hp]
      cases j with
      | zero => left; simpa using hq
      | succ j =>
        simp only [List.getElem?_cons_succ] at hq ⊢
        exact ih j hq

/-- The loop of `kill` keeps the length of the table. -/
theorem killFrom_length (pid t : Int) (ps : List proc) :
    (killFrom pid t ps).2.length = ps.length := by
  induction ps with
  | nil => rfl
  | cons p ps ih =>
    unfold killFrom
    by_cases hp : p.pid = pid
    · simp [hp]
    · simp [hp, ih]

/-- For a pid that no UNUSED slot holds, `kill` leaves every UNUSED slot as it is. -/
theorem kill_unused_frame (k : Kernel) (pid : Int)
    (h : ∀ q ∈ k.proc, q.state = procstate.UNUSED → q.pid ≠ pid) (j : Nat) (q : proc)
    (hq : k.proc[j]? = some q) (hu : q.state = procstate.UNUSED) :
    (kill k pid).2.proc[j]? = some q := by
  rcases killFrom_slot pid k.ticks k.proc j q hq with h1 | ⟨h1, _⟩
  · exact h1
  · exact absurd h1 (h q (List.mem_iff_getElem?.2 ⟨j, hq⟩) hu)

/-- C24 fails on the code.  In `forkBoot` the slots 1 and 3 are UNUSED with pid 0 and
`killed = 0`.  `kill(0)` returns 0 and sets `killed = 1` in slot 1, the first slot whose pid
is 0: the loop of `kill` compares pids without looking at the state.  `allocproc` then
returns slot 1 with `killed = 1` (it does not write `killed`), and the child that `fork`
creates in slot 1 is RUNNABLE with its killed flag set. -/
theorem kill_marks_free_slot :
    ∃ k1 k2 k3 : Kernel,
      forkBoot.proc.map (fun q => (q.state, q.pid, q.killed))
        = [(procstate.SLEEPING, 1, 0), (procstate.UNUSED, 0, 0), (procstate.RUNNING, 2, 0),
           (procstate.UNUSED, 0, 0)]
      ∧ kill forkBoot 0 = (0, k1)
      ∧ k1.proc.map (fun q => (q.state, q.pid, q.killed))
        = [(procstate.SLEEPING, 1, 0), (procstate.UNUSED, 0, 1), (procstate.RUNNING, 2, 0),
           (procstate.UNUSED, 0, 0)]
      ∧ allocproc k1 okOracle = (k2, some 1)
      ∧ k2.proc.map (fun q => (q.state, q.pid, q.killed))
        = [(procstate.SLEEPING, 1, 0), (procstate.USED, 3, 1), (procstate.RUNNING, 2, 0),
           (procstate.UNUSED, 0, 0)]
      ∧ fork k1 okOracle 2 = some (k3, 3)
      ∧ k3.proc.map (fun q => (q.state, q.pid, q.killed))
        = [(procstate.SLEEPING, 1, 0), (procstate.RUNNABLE, 3, 1), (procstate.RUNNING, 2, 0),
           (procstate.UNUSED, 0, 0)] :=
  ⟨_, _, _, rfl, rfl, rfl, rfl, rfl, rfl, rfl⟩

/-! ### The summary of exit -/

/-- `exit` leaves the accumulators that `exitAccumulators` gives, after the summary block. -/
theorem exit_cpu (k : Kernel) (p : Nat) (status : Int) (k1 : Kernel)
    (h : exit k p status = some k1) :
    ∃ c : cpu, exitAccumulators k p status = some c ∧ k1.cpu = exitEpoch c := by
  unfold exit at h
  unfold exitAccumulators
  split at h
  · exact absurd h (by simp)
  · rename_i hroot
    rw [if_neg hroot]
    split at h
    · exact absurd h (by simp)
    · rename_i me hme
      simp only [hme]
      try dsimp only at h
      split at h
      · exact absurd h (by simp)
      · rename_i me2 hme2
        try simp only [hme2]
        try dsimp only at h
        split at h
        · exact absurd h (by simp)
        · rename_i me3 hme3
          try simp only [hme3]
          simp only [Option.some.injEq] at h
          subst h
          exact ⟨_, rfl, rfl⟩

/-- The three divisions by `nump` have a non-zero divisor. -/
theorem exitSummaryDivisions_nump (c : cpu) :
    ∀ d ∈ (exitSummaryDivisions c).take 3, d.2 ≠ 0 := by
  unfold exitSummaryDivisions
  by_cases h : c.comp ≠ 0 ∧ c.comp = c.nump
  · rw [if_pos h]
    have hn : c.nump ≠ 0 := fun h0 => h.1 (h.2.trans h0)
    intro d hd
    simp only [List.take_append_eq_append_take, List.take_succ_cons, List.take_zero,
      List.length_cons, List.length_nil, Nat.sub_self, List.append_nil, List.mem_cons,
      List.mem_singleton, List.not_mem_nil, or_false, Nat.reduceAdd] at hd
    rcases hd with rfl | rfl | rfl <;> exact hn
  · rw [if_neg h]
    simp

/-- C25 fails on the code.  Under SJF a process creates one batch child with `forkp` and
blocks in `wait`; the child is dispatched at tick 5 and calls `exit` at tick 8, in its first
burst.  `exit` enters the summary block with `comp = nump = 1`, `nbursts = 1`,
`nebursts = 0` and `ebursts = 0`, so `c->teblen / c->nebursts` and
`c->tebursts / c->ebursts` divide by zero. -/
theorem exit_summary_divides_by_zero :
    ∃ k1 k2 k3 k4 : Kernel,
      forkp sjfBoot okOracle 2 0 = some (k1, 3)
      ∧ wait sampleParam k1 2 0 (fun _ => true) = some (WaitResult.sleeps k2)
      ∧ scheduler sampleParam (switchedBack k2) = Dispatch.run k3 1
      ∧ exit { k3 with ticks := 8 } 1 0 = some k4
      ∧ (exitAccumulators { k3 with ticks := 8 } 1 0).map
          (fun c => (c.sched_policy, c.comp, c.nump, c.nbursts, c.nebursts, c.ebursts))
          = some (1, 1, 1, 1, 0, 0)
      ∧ exitDivisions { k3 with ticks := 8 } 1 0
          = some [(3, 1), (0, 1), (8, 1), (3, 1), (0, 0), (0, 0)] :=
  ⟨_, _, _, _, rfl, rfl, rfl, rfl, rfl, rfl⟩

/-! ### The UNIX tie-break -/

/-- C26 fails on the code.  Under the UNIX policy a process creates the batch children of
slot 1 (at tick 7) and slot 2 (at tick 9) with `forkp(-1)` and blocks in `wait`.  Both have
the effective priority -1, the minimum; slot 1 has the waiting time 2 and slot 2 the waiting
time 0, and the scheduler switches to slot 2.  When both children are created at tick 7
(equal waiting times) the scheduler switches to slot 2 as well, not to the earlier slot 1.
The leader's effective priority -1 reads as "no candidate yet". -/
theorem unix_tie_break_lost :
    (∃ k1 k2 k3 k4 : Kernel,
      forkp unixBoot okOracle 0 (-1) = some (k1, 2)
      ∧ forkp { k1 with ticks := 9 } okOracle 0 (-1) = some (k2, 3)
      ∧ wait sampleParam k2 0 0 (fun _ => true) = some (WaitResult.sleeps k3)
      ∧ k3.proc.map (fun q => (q.state, q.batch_process, effectivePriority (unixDecay q),
            waitingTime k3.ticks q))
          = [(procstate.SLEEPING, 0, 25, 10), (procstate.RUNNABLE, 1, -1, 2),
             (procstate.RUNNABLE, 1, -1, 0), (procstate.UNUSED, 0, 0, 9)]
      ∧ scheduler sampleParam (switchedBack k3) = Dispatch.run k4 2
      ∧ k4.proc.map (fun q => q.state)
          = [procstate.SLEEPING, procstate.RUNNABLE, procstate.RUNNING, procstate.UNUSED])
    ∧ (∃ k1 k2 k3 k4 : Kernel,
      forkp unixBoot okOracle 0 (-1) = some (k1, 2)
      ∧ forkp k1 okOracle 0 (-1) = some (k2, 3)
      ∧ wait sampleParam k2 0 0 (fun _ => true) = some (WaitResult.sleeps k3)
      ∧ k3.proc.map (fun q => (q.state, q.batch_process, effectivePriority (unixDecay q),
            waitingTime k3.ticks q))
          = [(procstate.SLEEPING, 0, 25, 8), (procstate.RUNNABLE, 1, -1, 0),
             (procstate.RUNNABLE, 1, -1, 0), (procstate.UNUSED, 0, 0, 7)]
      ∧ scheduler sampleParam (switchedBack k3) = Dispatch.run k4 2) :=
  ⟨⟨_, _, _, _, rfl, rfl, rfl, rfl, rfl, rfl⟩, ⟨_, _, _, _, rfl, rfl, rfl, rfl, rfl⟩⟩

/-! ### SJF estimation error -/

/-- C27 fails as stated.  In `sjfSample` (tick 30) the batch process of slot 2 is alive
with the prediction 2.  When it returns from a burst that started at tick 28 (measured
burst 2, equal to the prediction) `ebursts` is unchanged, and so are `ebursts` and
`tebursts` when it returns from a burst that started at tick 30 (measured burst 0). -/
theorem sjf_exact_prediction_not_counted :
    (sjfSample.proc[2]?).map (fun q => (q.state, q.next_burst_len))
        = some (procstate.RUNNABLE, 2)
    ∧ sjfSample.ticks - 28 = 2
    ∧ (sjfReturn sampleParam sjfSample 2 28).cpu.ebursts = sjfSample.cpu.ebursts
    ∧ sjfSample.ticks - 30 = 0
    ∧ (sjfReturn sampleParam sjfSample 2 30).cpu.ebursts = sjfSample.cpu.ebursts
    ∧ (sjfReturn sampleParam sjfSample 2 30).cpu.tebursts = sjfSample.cpu.tebursts :=
  ⟨rfl, rfl, rfl, rfl, rfl, rfl⟩

/-- C27, amended: after a batch process returns from an SJF dispatch with measured burst
`t = eticks - sticks` and prior prediction `e`, the error accumulators are updated by one
sample (`ebursts` increases by 1 and `tebursts` by `|t - e|`) exactly when the process is
not ZOMBIE, `e > 0`, `t > 0` and `t ≠ e`; in every other case they are unchanged. -/
theorem sjf_error_accounting (par : Param) (k : Kernel) (j : Nat) (sticks : Int) (q : proc)
    (hq : k.proc[j]? = some q) :
    ((q.state ≠ procstate.ZOMBIE ∧ 0 < q.next_burst_len ∧ 0 < k.ticks - sticks
        ∧ k.ticks - sticks ≠ q.next_burst_len) →
      (sjfReturn par k j sticks).cpu.ebursts = k.cpu.ebursts + 1
      ∧ (sjfReturn par k j sticks).cpu.tebursts
          = k.cpu.tebursts + |k.ticks - sticks - q.next_burst_len|)
    ∧ (¬ (q.state ≠ procstate.ZOMBIE ∧ 0 < q.next_burst_len ∧ 0 < k.ticks - sticks
        ∧ k.ticks - sticks ≠ q.next_burst_len) →
      (sjfReturn par k j sticks).cpu.ebursts = k.cpu.ebursts
      ∧ (sjfReturn par k j sticks).cpu.tebursts = k.cpu.tebursts) := by
  have habs : (if k.ticks - sticks - q.next_burst_len > 0 then
        k.ticks - sticks - q.next_burst_len
      else 0 - (k.ticks - sticks - q.next_burst_len))
      = |k.ticks - sticks - q.next_burst_len| := by
    split_ifs with h
    · exact (abs_of_pos h).symm
    · rw [abs_of_nonpos (by omega)]; omega
  have hpos : (0 < |k.ticks - sticks - q.next_burst_len|)
      ↔ k.ticks - sticks ≠ q.next_burst_len := by
    rw [abs_pos]
    constructor
    · intro h h1; exact h (by omega)
    · intro h h1; exact h (by omega)
  simp only [sjfReturn, hq, habs, gt_iff_lt, hpos]
  constructor
  · intro h
    have hc : k.ticks - sticks ≠ q.next_burst_len ∧ q.state ≠ procstate.ZOMBIE
        ∧ 0 < k.ticks - sticks ∧ 0 < q.next_burst_len := ⟨h.2.2.2, h.1, h.2.2.1, h.2.1⟩
    rw [if_pos hc]
    split_ifs <;> exact ⟨rfl, rfl⟩
  · intro h
    have hc : ¬ (k.ticks - sticks ≠ q.next_burst_len ∧ q.state ≠ procstate.ZOMBIE
        ∧ 0 < k.ticks - sticks ∧ 0 < q.next_burst_len) :=
      fun hc => h ⟨hc.2.1, hc.2.2.2, hc.2.2.1, hc.1⟩
    rw [if_neg hc]
    split_ifs <;> exact ⟨rfl, rfl⟩

/-- C27 on `sjfSample`: the process of slot 1 (prediction 3) returns at tick 30 from the
burst started at tick 20; one sample with the error 7 is added. -/
theorem sjf_error_accounting_witness :
    sjfSample.proc[1]? = some
        { zeroProc with state := procstate.RUNNABLE, pid := 2, batch_process := 1,
                        next_burst_len := 3, prev_burst_start := 20, parent := some 0 }
    ∧ (sjfReturn sampleParam sjfSample 1 20).cpu.ebursts = 1
    ∧ (sjfReturn sampleParam sjfSample 1 20).cpu.tebursts = 7
    ∧ ((procstate.RUNNABLE ≠ procstate.ZOMBIE ∧ (0 : Int) < 3 ∧ 0 < sjfSample.ticks - 20
        ∧ sjfSample.ticks - 20 ≠ 3) →
      (sjfReturn sampleParam sjfSample 1 20).cpu.ebursts = sjfSample.cpu.ebursts + 1
      ∧ (sjfReturn sampleParam sjfSample 1 20).cpu.tebursts
          = sjfSample.cpu.tebursts + |sjfSample.ticks - 20 - 3|)
    ∧ (¬ (procstate.RUNNABLE ≠ procstate.ZOMBIE ∧ (0 : Int) < 3 ∧ 0 < sjfSample.ticks - 20
        ∧ sjfSample.ticks - 20 ≠ 3) →
      (sjfReturn sampleParam sjfSample 1 20).cpu.ebursts = sjfSample.cpu.ebursts
      ∧ (sjfReturn sampleParam sjfSample 1 20).cpu.tebursts = sjfSample.cpu.tebursts) :=
  ⟨rfl, rfl, rfl,
   sjf_error_accounting sampleParam sjfSample 1 20
    { zeroProc with state := procstate.RUNNABLE, pid := 2, batch_process := 1,
                    next_burst_len := 3, prev_burst_start := 20, parent := some 0 } rfl⟩

/-! ### The usage decay -/

/-- A slot whose usage equals its shadow value is not changed by the decay. -/
theorem unixDecay_settled (p : proc) (h : p.cpu_usage = p.prev_cpu_usage) :
    unixDecay p = p := by
  unfold unixDecay
  rw [if_neg (by simpa using h)]

/-- What the decay does to the usage fields. -/
theorem unixDecay_usage (p : proc) :
    (unixDecay p).cpu_usage
        = (if p.cpu_usage ≠ p.prev_cpu_usage then Int.tdiv p.cpu_usage 2 else p.cpu_usage)
    ∧ (unixDecay p).prev_cpu_usage = (unixDecay p).cpu_usage := by
  unfold unixDecay
  by_cases h : p.cpu_usage = p.prev_cpu_usage
  · simp [h]
  · simp [h]

/-- The decay step is idempotent. -/
theorem unixDecay_idem (p : proc) : unixDecay (unixDecay p) = unixDecay p :=
  unixDecay_settled _ (unixDecay_usage p).2.symm

/-- A scan over a table whose RUNNABLE slots are batch slots with settled usage
(`cpu_usage = prev_cpu_usage`) writes nothing to the table, on any core. -/
theorem unixScan_settled (par : Param) (c : cpu) (t : Int) (ps : List proc) (i : Nat)
    (v : UnixVars)
    (h : ∀ r ∈ ps, r.state = procstate.RUNNABLE →
      r.batch_process ≠ 0 ∧ r.cpu_usage = r.prev_cpu_usage) :
    (unixScan par c t i ps v).2 = ps := by
  induction ps generalizing i v with
  | nil => rfl
  | cons p ps ih =>
    have hps : ∀ r ∈ ps, r.state = procstate.RUNNABLE →
        r.batch_process ≠ 0 ∧ r.cpu_usage = r.prev_cpu_usage :=
      fun r hr => h r (List.mem_cons_of_mem _ hr)
    unfold unixScan
    by_cases hr : p.state = procstate.RUNNABLE
    · obtain ⟨hb, hs⟩ := h p (List.mem_cons_self _ _) hr
      rw [if_pos hr, if_neg hb]
      simp only [unixDecay_settled p hs]
      by_cases hc : c.sched_policy ≠ par.SCHED_PREEMPT_UNIX
      · rw [if_pos hc]
      · rw [if_neg hc]
        simp only [ih _ _ hps]
    · rw [if_neg hr]
      by_cases hc : c.sched_policy ≠ par.SCHED_PREEMPT_UNIX
      · rw [if_pos hc]
      · rw [if_neg hc]
        simp only [ih _ _ hps]

/-- A RUNNABLE batch slot that the scan reaches is left decayed. -/
theorem unixScan_visited (par : Param) (c : cpu) (t : Int)
    (hpol : c.sched_policy = par.SCHED_PREEMPT_UNIX) (ps : List proc) (i : Nat)
    (v : UnixVars) (j : Nat) (q : proc) (hq : ps[j]? = some q)
    (hreach : ∀ r ∈ ps.take j, ¬ (r.state = procstate.RUNNABLE ∧ r.batch_process = 0))
    (hr : q.state = procstate.RUNNABLE) (hb : q.batch_process ≠ 0) :
    (unixScan par c t i ps v).2[j]? = some (unixDecay q) := by
  induction ps generalizing i v j with
  | nil => simp at hq
  | cons p ps ih =>
    cases j with
    | zero =>
      simp only [List.getElem?_cons_zero, Option.some.injEq] at hq
      subst hq
      rw [unixScan_cons_batch par c t hpol p ps i v hr hb]
      simp
    | succ j =>
      simp only [List.getElem?_cons_succ] at hq
      have hp : ¬ (p.state = procstate.RUNNABLE ∧ p.batch_process = 0) :=
        hreach p (by simp)
      have hrest : ∀ r ∈ ps.take j,
          ¬ (r.state = procstate.RUNNABLE ∧ r.batch_process = 0) :=
        fun r hrm => hreach r (by simp [hrm])
      by_cases hpr : p.state = procstate.RUNNABLE
      · have hpb : p.batch_process ≠ 0 := fun h0 => hp ⟨hpr, h0⟩
        rw [unixScan_cons_batch par c t hpol p ps i v hpr hpb]
        simp only [List.getElem?_cons_succ]
        exact ih _ _ j hq hrest
      · rw [unixScan_cons_skip par c t hpol p ps i v hpr]
        simp only [List.getElem?_cons_succ]
        exact ih _ _ j hq hrest

/-- The table after a scan that meets no RUNNABLE non-batch slot. -/
theorem unixScan_full (par : Param) (c : cpu) (t : Int)
    (hpol : c.sched_policy = par.SCHED_PREEMPT_UNIX) (ps : List proc) (i : Nat)
    (v : UnixVars)
    (h : ∀ r ∈ ps, ¬ (r.state = procstate.RUNNABLE ∧ r.batch_process = 0)) :
    (unixScan par c t i ps v).2
      = ps.map (fun q => if q.state = procstate.RUNNABLE then unixDecay q else q) := by
  induction ps generalizing i v with
  | nil => rfl
  | cons p ps ih =>
    have hps : ∀ r ∈ ps, ¬ (r.state = procstate.RUNNABLE ∧ r.batch_process = 0) :=
      fun r hr => h r (List.mem_cons_of_mem _ hr)
    by_cases hpr : p.state = procstate.RUNNABLE
    · have hpb : p.batch_process ≠ 0 := fun h0 => h p (List.mem_cons_self _ _) ⟨hpr, h0⟩
      rw [unixScan_cons_batch par c t hpol p ps i v hpr hpb]
      simp only [List.map_cons, if_pos hpr, ih _ _ hps]
    · rw [unixScan_cons_skip par c t hpol p ps i v hpr]
      simp only [List.map_cons, if_neg hpr, ih _ _ hps]

/-- Every slot of the scanned table is the slot as it was, or decayed, or switched to. -/
theorem unixScan_slot (par : Param) (c : cpu) (t : Int) (ps : List proc) (i : Nat)
    (v : UnixVars) (j : Nat) (q : proc) (hq : ps[j]? = some q) :
    (unixScan par c t i ps v).2[j]? = some q
    ∨ (unixScan par c t i ps v).2[j]? = some (unixDecay q)
    ∨ (unixScan par c t i ps v).2[j]? = some { q with state := procstate.RUNNING } := by
  induction ps generalizing i v j with
  | nil => simp at hq
  | cons p ps ih =>
    unfold unixScan
    cases j with
    | zero =>
      simp only [List.getElem?_cons_zero, Option.some.injEq] at hq
      subst hq
      split_ifs <;> simp
    | succ j =>
      simp only [List.getElem?_cons_succ] at hq
      split_ifs
      · left; simpa using hq
      · left; simpa using hq
      · simpa using ih _ _ j hq
      · left; simpa using hq
      · simpa using ih _ _ j hq

/-- The table left by one iteration of the UNIX branch: the scanned table, possibly with
the selected slot dispatched. -/
theorem scheduler_unix_table (par : Param) (k k1 : Kernel)
    (h : scheduler_unix par k = Dispatch.idle k1
      ∨ ∃ j : Nat, scheduler_unix par k = Dispatch.run k1 j) :
    k1.proc = (unixScan par k.cpu k.ticks 0 k.proc unixInit).2
    ∨ ∃ (j : Nat) (q : proc),
        k1.proc = (unixScan par k.cpu k.ticks 0 k.proc unixInit).2.set j
          { q with wait_time := q.wait_time + (k.ticks - q.wait_st_time),
                   wait_st_time := -1, state := procstate.RUNNING }
        ∧ (unixScan par k.cpu k.ticks 0 k.proc unixInit).2[j]? = some q := by
  rw [scheduler_unix_split] at h
  split at h
  · rcases h with h | ⟨j, h⟩
    · exact absurd h (by simp)
    · simp only [Dispatch.run.injEq] at h
      left; rw [← h.1]
  · split at h
    · rcases h with h | ⟨j, h⟩
      · simp only [Dispatch.idle.injEq] at h
        left; rw [← h]
      · exact absurd h (by simp)
    · split at h
      · rcases h with h | ⟨j, h⟩
        · simp only [Dispatch.idle.injEq] at h
          left; rw [← h]
        · exact absurd h (by simp)
      · rename_i j0 _
        unfold unixDispatch at h
        split at h
        · rcases h with h | ⟨j, h⟩
          · simp only [Dispatch.idle.injEq] at h
            left; rw [← h]
          · exact absurd h (by simp)
        · rename_i q hq
          rcases h with h | ⟨j, h⟩
          · exact absurd h (by simp)
          · simp only [Dispatch.run.injEq] at h
            right
            exact ⟨j0, q, by rw [← h.1], hq⟩

/-- C28: the usage decay of the UNIX scan is applied at most once per change.  In one
scan pass on a core under the UNIX policy, a RUNNABLE batch slot that the scan reaches (no
RUNNABLE non-batch slot before it) has its `cpu_usage` replaced by `cpu_usage / 2` if and
only if it differed from `prev_cpu_usage`, and `prev_cpu_usage = cpu_usage` afterwards; a
second scan of the resulting table, by any core at any tick, leaves both fields of the slot
as they are.  When the table has no RUNNABLE non-batch slot, a second scan of the table left
by the scheduler iteration (dispatch included) changes nothing in the table.  The decay
step is idempotent. -/
theorem unix_decay_once (par : Param) (k : Kernel)
    (hpol : k.cpu.sched_policy = par.SCHED_PREEMPT_UNIX) :
    (∀ (j : Nat) (q : proc), k.proc[j]? = some q →
        (∀ r ∈ k.proc.take j, ¬ (r.state = procstate.RUNNABLE ∧ r.batch_process = 0)) →
        q.state = procstate.RUNNABLE → q.batch_process ≠ 0 →
        ∃ q1 : proc, (unixScan par k.cpu k.ticks 0 k.proc unixInit).2[j]? = some q1
          ∧ q1.cpu_usage
              = (if q.cpu_usage ≠ q.prev_cpu_usage then Int.tdiv q.cpu_usage 2
                 else q.cpu_usage)
          ∧ q1.prev_cpu_usage = q1.cpu_usage
          ∧ ∀ (c2 : cpu) (t2 : Int) (v2 : UnixVars),
              ∃ q2 : proc,
                (unixScan par c2 t2 0 (unixScan par k.cpu k.ticks 0 k.proc unixInit).2 v2).2[j]?
                  = some q2
                ∧ q2.cpu_usage = q1.cpu_usage ∧ q2.prev_cpu_usage = q1.prev_cpu_usage)
    ∧ ((∀ r ∈ k.proc, ¬ (r.state = procstate.RUNNABLE ∧ r.batch_process = 0)) →
        ∀ k1 : Kernel,
          (scheduler_unix par k = Dispatch.idle k1
            ∨ ∃ j : Nat, scheduler_unix par k = Dispatch.run k1 j) →
          ∀ (c2 : cpu) (t2 : Int) (v2 : UnixVars),
            (unixScan par c2 t2 0 k1.proc v2).2 = k1.proc)
    ∧ (∀ p : proc, unixDecay (unixDecay p) = unixDecay p) := by
  refine ⟨?_, ?_, unixDecay_idem⟩
  · intro j q hq hreach hr hb
    have h1 := unixScan_visited par k.cpu k.ticks hpol k.proc 0 unixInit j q hq hreach hr hb
    refine ⟨unixDecay q, h1, (unixDecay_usage q).1, (unixDecay_usage q).2, ?_⟩
    intro c2 t2 v2
    rcases unixScan_slot par c2 t2 _ 0 v2 j (unixDecay q) h1 with h2 | h2 | h2
    · exact ⟨_, h2, rfl, rfl⟩
    · exact ⟨_, h2, by rw [unixDecay_idem], by rw [unixDecay_idem]⟩
    · exact ⟨_, h2, rfl, rfl⟩
  · intro hno k1 hk1 c2 t2 v2
    have hfull := unixScan_full par k.cpu k.ticks hpol k.proc 0 unixInit hno
    have hR : ∀ r ∈ (unixScan par k.cpu k.ticks 0 k.proc unixInit).2,
        r.state = procstate.RUNNABLE →
          r.batch_process ≠ 0 ∧ r.cpu_usage = r.prev_cpu_usage := by
      intro r hr hrs
      rw [hfull, List.mem_map] at hr
      obtain ⟨q, hqm, hqr⟩ := hr
      by_cases hqs : q.state = procstate.RUNNABLE
      · rw [if_pos hqs] at hqr
        subst hqr
        refine ⟨?_, (unixDecay_usage q).2.symm⟩
        rw [(unixDecay_frame q).2.1]
        exact fun h0 => hno q hqm ⟨hqs, h0⟩
      · rw [if_neg hqs] at hqr
        subst hqr
        exact absurd hrs hqs
    apply unixScan_settled
    rcases scheduler_unix_table par k k1 hk1 with h | ⟨j, q, h, _⟩
    · rw [h]; exact hR
    · rw [h]
      intro r hr hrs
      rcases List.mem_or_eq_of_mem_set hr with h1 | h1
      · exact hR r h1 hrs
      · subst h1
        exact absurd hrs (by simp)

/-- C28 on `batchSample`: the pass halves the usage 8 of slot 1 to 4, leaves the usage 6 of
slot 2 and dispatches slot 1; a second scan at tick 31 changes nothing. -/
theorem unix_decay_once_witness :
    batchSample.cpu.sched_policy = sampleParam.SCHED_PREEMPT_UNIX
    ∧ (∃ k1 : Kernel, scheduler_unix sampleParam batchSample = Dispatch.run k1 1
        ∧ k1.proc.map (fun q => (q.cpu_usage, q.prev_cpu_usage))
            = [(100, 0), (4, 4), (6, 6), (0, 0)]
        ∧ (unixScan sampleParam k1.cpu 31 0 k1.proc unixInit).2 = k1.proc)
    ∧ (∀ (j : Nat) (q : proc), batchSample.proc[j]? = some q →
        (∀ r ∈ batchSample.proc.take j,
          ¬ (r.state = procstate.RUNNABLE ∧ r.batch_process = 0)) →
        q.state = procstate.RUNNABLE → q.batch_process ≠ 0 →
        ∃ q1 : proc,
          (unixScan sampleParam batchSample.cpu batchSample.ticks 0 batchSample.proc
              unixInit).2[j]? = some q1
          ∧ q1.cpu_usage
              = (if q.cpu_usage ≠ q.prev_cpu_usage then Int.tdiv q.cpu_usage 2
                 else q.cpu_usage)
          ∧ q1.prev_cpu_usage = q1.cpu_usage
          ∧ ∀ (c2 : cpu) (t2 : Int) (v2 : UnixVars),
              ∃ q2 : proc,
                (unixScan sampleParam c2 t2 0
                    (unixScan sampleParam batchSample.cpu batchSample.ticks 0
                      batchSample.proc unixInit).2 v2).2[j]? = some q2
                ∧ q2.cpu_usage = q1.cpu_usage ∧ q2.prev_cpu_usage = q1.prev_cpu_usage)
    ∧ ((∀ r ∈ batchSample.proc, ¬ (r.state = procstate.RUNNABLE ∧ r.batch_process = 0)) →
        ∀ k1 : Kernel,
          (scheduler_unix sampleParam batchSample = Dispatch.idle k1
            ∨ ∃ j : Nat, scheduler_unix sampleParam batchSample = Dispatch.run k1 j) →
          ∀ (c2 : cpu) (t2 : Int) (v2 : UnixVars),
            (unixScan sampleParam c2 t2 0 k1.proc v2).2 = k1.proc)
    ∧ (∀ p : proc, unixDecay (unixDecay p) = unixDecay p) :=
  ⟨rfl, ⟨_, rfl, rfl, rfl⟩, unix_decay_once sampleParam batchSample rfl⟩

/-! ### Live pids -/

/-- Unchanged slot contents continue themselves. -/
theorem pidKept_refl (a : proc) : pidKept a a := Or.inl ⟨rfl, Iff.rfl⟩

/-- Continuation composes. -/
theorem pidKept_trans (a b c : proc) (h1 : pidKept a b) (h2 : pidKept b c) : pidKept a c := by
  rcases h2 with ⟨h2p, h2s⟩ | h2
  · rcases h1 with ⟨h1p, h1s⟩ | h1
    · exact Or.inl ⟨h2p.trans h1p, h2s.trans h1s⟩
    · exact Or.inr (h2s.2 h1)
  · exact Or.inr h2

/-- The unchanged table continues itself. -/
theorem tableKept_refl (ps : List proc) : tableKept ps ps :=
  ⟨rfl, fun _ a h => ⟨a, h, pidKept_refl a⟩⟩

/-- Continuation of tables composes. -/
theorem tableKept_trans (ps ps1 ps2 : List proc) (h1 : tableKept ps ps1)
    (h2 : tableKept ps1 ps2) : tableKept ps ps2 := by
  refine ⟨h2.1.trans h1.1, fun j a ha => ?_⟩
  obtain ⟨b, hb, hab⟩ := h1.2 j a ha
  obtain ⟨c, hc, hbc⟩ := h2.2 j b hb
  exact ⟨c, hc, pidKept_trans a b c hab hbc⟩

/-- Overwriting slot `i` with contents that continue it. -/
theorem tableKept_set (ps : List proc) (i : Nat) (b : proc)
    (h : ∀ a : proc, ps[i]? = some a → pidKept a b) : tableKept ps (ps.set i b) := by
  refine ⟨by simp, fun j a ha => ?_⟩
  by_cases hj : i = j
  · subst hj
    exact ⟨b, by simp [lt_of_getElem?_some ha], h a ha⟩
  · exact ⟨a, by rw [List.getElem?_set_ne hj]; exact ha, pidKept_refl a⟩

/-- A table whose slots are the images of the slots of `ps` under slot-wise maps that keep
pid and liveness. -/
theorem tableKept_of_getElem? (ps ps1 : List proc) (f : Nat → proc → proc)
    (h : ∀ j : Nat, ps1[j]? = (ps[j]?).map (f j))
    (hf : ∀ (j : Nat) (a : proc), ps[j]? = some a → pidKept a (f j a)) :
    tableKept ps ps1 := by
  constructor
  · apply Nat.le_antisymm
    · by_contra hlt
      have h1 := h ps.length
      rw [List.getElem?_eq_none (le_refl _)] at h1
      have h2 : ps.length < ps1.length := by omega
      rw [List.getElem?_eq_getElem h2] at h1
      simp at h1
    · by_contra hlt
      have h1 := h ps1.length
      rw [List.getElem?_eq_none (le_refl _)] at h1
      have h2 : ps1.length < ps.length := by omega
      rw [List.getElem?_eq_getElem h2] at h1
      simp at h1
  · intro j a ha
    exact ⟨f j a, by rw [h j, ha]; rfl, hf j a ha⟩

/-- The invariant is kept by every change of the table that continues each slot while
`nextpid` does not decrease. -/
theorem pidInv_kept (k k1 : Kernel) (hinv : pidInv k) (ht : tableKept k.proc k1.proc)
    (hn : k.nextpid ≤ k1.nextpid) : pidInv k1 := by
  obtain ⟨h0, hb, hu⟩ := hinv
  have back : ∀ (j : Nat) (b : proc), k1.proc[j]? = some b → b.state ≠ procstate.UNUSED →
      ∃ a : proc, k.proc[j]? = some a ∧ a.state ≠ procstate.UNUSED ∧ b.pid = a.pid := by
    intro j b hb1 hlive
    have hj : j < k.proc.length := by
      have := lt_of_getElem?_some hb1
      rw [ht.1] at this
      exact this
    obtain ⟨b1, hb2, hk⟩ := ht.2 j _ (List.getElem?_eq_getElem hj)
    rw [hb1] at hb2
    simp only [Option.some.injEq] at hb2
    subst hb2
    rcases hk with ⟨hp, hs⟩ | hk
    · exact ⟨_, List.getElem?_eq_getElem hj, fun h => hlive (hs.2 h), hp⟩
    · exact absurd hk hlive
  refine ⟨by omega, ?_, ?_⟩
  · intro q hq hlive
    obtain ⟨j, hj⟩ := List.mem_iff_getElem?.1 hq
    obtain ⟨a, ha, hal, hp⟩ := back j q hj hlive
    have := hb a (List.mem_iff_getElem?.2 ⟨j, ha⟩) hal
    omega
  · intro i j a b ha hb1 hal hbl hp
    obtain ⟨a0, ha0, ha0l, hpa⟩ := back i a ha hal
    obtain ⟨b0, hb0, hb0l, hpb⟩ := back j b hb1 hbl
    exact hu i j a0 b0 ha0 hb0 ha0l hb0l (by omega)

/-- The invariant is kept when a slot receives the pid `nextpid` and `nextpid` is
incremented. -/
theorem pidInv_fresh (k : Kernel) (i : Nat) (np : proc) (hinv : pidInv k)
    (hp : np.pid = k.nextpid) (k1 : Kernel) (hn : k1.nextpid = k.nextpid + 1)
    (ht : k1.proc = k.proc.set i np) : pidInv k1 := by
  obtain ⟨h0, hb, hu⟩ := hinv
  have old : ∀ (j : Nat) (b : proc), k1.proc[j]? = some b →
      (j = i ∧ b = np) ∨ (j ≠ i ∧ k.proc[j]? = some b) := by
    intro j b hb1
    rw [ht] at hb1
    by_cases hj : i = j
    · subst hj
      have hlt : i < k.proc.length := by
        have := lt_of_getElem?_some hb1
        simpa using this
      rw [List.getElem?_set_self hlt] at hb1
      simp only [Option.some.injEq] at hb1
      exact Or.inl ⟨rfl, hb1.symm⟩
    · rw [List.getElem?_set_ne hj] at hb1
      exact Or.inr ⟨fun h => hj h.symm, hb1⟩
  refine ⟨by omega, ?_, ?_⟩
  · intro q hq hlive
    obtain ⟨j, hj⟩ := List.mem_iff_getElem?.1 hq
    rcases old j q hj with ⟨_, rfl⟩ | ⟨_, hq0⟩
    · omega
    · have := hb q (List.mem_iff_getElem?.2 ⟨j, hq0⟩) hlive
      omega
  · intro a1 b1 a b ha hb1 hal hbl hpab
    rcases old a1 a ha with ⟨hia, rfl⟩ | ⟨hia, ha0⟩
    · rcases old b1 b hb1 with ⟨hib, _⟩ | ⟨_, hb0⟩
      · omega
      · have := hb b (List.mem_iff_getElem?.2 ⟨b1, hb0⟩) hbl
        omega
    · rcases old b1 b hb1 with ⟨hib, rfl⟩ | ⟨_, hb0⟩
      · have := hb a (List.mem_iff_getElem?.2 ⟨a1, ha0⟩) hal
        omega
      · exact hu a1 b1 a b ha0 hb0 hal hbl hpab


/-- The body of `wakeup` keeps pid and liveness of the slot. -/
theorem pidKept_wakeupSlot (me : Option Nat) (chan : Chan) (t : Int) (i : Nat) (a : proc) :
    pidKept a (wakeupSlot me chan t i a) := by
  unfold wakeupSlot
  split_ifs with h1 h2
  · refine Or.inl ⟨rfl, ?_⟩
    simp [h2.1]
  · exact pidKept_refl a
  · exact pidKept_refl a

/-- The body of `reparent` keeps pid and liveness of the slot. -/
theorem pidKept_reparentSlot (me : Option Nat) (p : Nat) (init : Option Nat) (t : Int)
    (any : Bool) (j : Nat) (a : proc) : pidKept a (reparentSlot me p init t any j a) := by
  unfold reparentSlot
  have h1 : pidKept a (if a.parent = some p then { a with parent := init } else a) := by
    split_ifs
    · exact Or.inl ⟨rfl, Iff.rfl⟩
    · exact pidKept_refl a
  cases any with
  | false => simpa using h1
  | true =>
    simp only [if_true]
    exact pidKept_trans _ _ _ h1 (pidKept_wakeupSlot _ _ _ _ _)

/-- `allocproc` keeps the pid invariant and does not decrease `nextpid`. -/
theorem allocproc_pidInv (k : Kernel) (o : Oracle) (hinv : pidInv k) :
    pidInv (allocproc k o).1 ∧ k.nextpid ≤ (allocproc k o).1.nextpid := by
  cases hfind : findUnused 0 k.proc with
  | none =>
    rw [allocproc_full k o hfind]
    exact ⟨hinv, le_refl _⟩
  | some i =>
    obtain ⟨j0, u, hij, hu, _, _⟩ := findUnused_some k.proc 0 i hfind
    have hi0 : j0 = i := by omega
    subst hi0
    rw [allocproc_found k o j0 u hfind hu]
    cases o.kalloc with
    | none =>
      exact ⟨pidInv_kept k _ hinv (tableKept_set _ _ _ (fun _ _ => Or.inr rfl))
        (by simp), by simp⟩
    | some tf =>
      cases o.proc_pagetable with
      | none =>
        exact ⟨pidInv_kept k _ hinv (tableKept_set _ _ _ (fun _ _ => Or.inr rfl))
          (by simp), by simp⟩
      | some pt =>
        exact ⟨pidInv_fresh k j0 _ hinv rfl _ rfl rfl, by simp⟩

/-- `fork` keeps the pid invariant and does not decrease `nextpid`. -/
theorem fork_pidInv (k : Kernel) (o : Oracle) (p : Nat) (kf : Kernel) (r : Int)
    (hinv : pidInv k) (h : fork k o p = some (kf, r)) :
    pidInv kf ∧ k.nextpid ≤ kf.nextpid := by
  have hal0 := allocproc_pidInv k o hinv
  unfold fork at h
  rcases hal : allocproc k o with ⟨k1, _ | i⟩
  · rw [hal] at h hal0
    simp only at h
    split_ifs at h
    simp only [Option.some.injEq, Prod.mk.injEq] at h
    rw [← h.1]
    exact hal0
  · obtain ⟨_, _, _, _, hnext, u, np0, hu, hset, hpid0, _⟩ := allocproc_some k o k1 i hal
    rw [hal] at h hal0
    simp only at h
    split at h
    · rename_i me np hme hnp
      have hnp0 : np = np0 := by
        rw [hset, List.getElem?_set_self (lt_of_getElem?_some hu)] at hnp
        simp only [Option.some.injEq] at hnp
        exact hnp.symm
      split_ifs at h
      · simp only [Option.some.injEq, Prod.mk.injEq] at h
        rw [← h.1]
        exact ⟨pidInv_kept k1 _ hal0.1 (tableKept_set _ _ _ (fun _ _ => Or.inr rfl))
          (le_refl _), hal0.2⟩
      · split at h
        · simp only [Option.some.injEq, Prod.mk.injEq] at h
          rw [← h.1]
          refine ⟨pidInv_fresh k i _ hinv ?_ _ hnext (by rw [hset, List.set_set]),
            by simp only [hnext]; omega⟩
          show np.pid = k.nextpid
          rw [hnp0]
          exact hpid0
        · exact absurd h (by simp)
    · exact absurd h (by simp)

/-- `forkp` keeps the pid invariant and does not decrease `nextpid`. -/
theorem forkp_pidInv (k : Kernel) (o : Oracle) (p : Nat) (priority : Int) (kf : Kernel) (r : Int)
    (hinv : pidInv k) (h : forkp k o p priority = some (kf, r)) :
    pidInv kf ∧ k.nextpid ≤ kf.nextpid := by
  have hal0 := allocproc_pidInv k o hinv
  unfold forkp at h
  rcases hal : allocproc k o with ⟨k1, _ | i⟩
  · rw [hal] at h hal0
    simp only at h
    split_ifs at h
    simp only [Option.some.injEq, Prod.mk.injEq] at h
    rw [← h.1]
    exact hal0
  · obtain ⟨_, _, _, _, hnext, u, np0, hu, hset, hpid0, _⟩ := allocproc_some k o k1 i hal
    rw [hal] at h hal0
    simp only at h
    split at h
    · rename_i me np hme hnp
      have hnp0 : np = np0 := by
        rw [hset, List.getElem?_set_self (lt_of_getElem?_some hu)] at hnp
        simp only [Option.some.injEq] at hnp
        exact hnp.symm
      split_ifs at h
      · simp only [Option.some.injEq, Prod.mk.injEq] at h
        rw [← h.1]
        exact ⟨pidInv_kept k1 _ hal0.1 (tableKept_set _ _ _ (fun _ _ => Or.inr rfl))
          (le_refl _), hal0.2⟩
      · split at h
        · simp only [Option.some.injEq, Prod.mk.injEq] at h
          rw [← h.1]
          refine ⟨pidInv_fresh k i _ hinv ?_ _ hnext (by rw [hset, List.set_set]),
            by simp only [hnext]; omega⟩
          show np.pid = k.nextpid
          rw [hnp0]
          exact hpid0
        · exact absurd h (by simp)
    · exact absurd h (by simp)

/-- `forkf` keeps the pid invariant and does not decrease `nextpid`. -/
theorem forkf_pidInv (k : Kernel) (o : Oracle) (p : Nat) (faddr : Int) (kf : Kernel) (r : Int)
    (hinv : pidInv k) (h : forkf k o p faddr = some (kf, r)) :
    pidInv kf ∧ k.nextpid ≤ kf.nextpid := by
  have hal0 := allocproc_pidInv k o hinv
  unfold forkf at h
  rcases hal : allocproc k o with ⟨k1, _ | i⟩
  · rw [hal] at h hal0
    simp only at h
    split_ifs at h
    simp only [Option.some.injEq, Prod.mk.injEq] at h
    rw [← h.1]
    exact hal0
  · obtain ⟨_, _, _, _, hnext, u, np0, hu, hset, hpid0, _⟩ := allocproc_some k o k1 i hal
    rw [hal] at h hal0
    simp only at h
    split at h
    · rename_i me np hme hnp
      have hnp0 : np = np0 := by
        rw [hset, List.getElem?_set_self (lt_of_getElem?_some hu)] at hnp
        simp only [Option.some.injEq] at hnp
        exact hnp.symm
      split_ifs at h
      · simp only [Option.some.injEq, Prod.mk.injEq] at h
        rw [← h.1]
        exact ⟨pidInv_kept k1 _ hal0.1 (tableKept_set _ _ _ (fun _ _ => Or.inr rfl))
          (le_refl _), hal0.2⟩
      · split at h
        · simp only [Option.some.injEq, Prod.mk.injEq] at h
          rw [← h.1]
          refine ⟨pidInv_fresh k i _ hinv ?_ _ hnext (by rw [hset, List.set_set]),
            by simp only [hnext]; omega⟩
          show np.pid = k.nextpid
          rw [hnp0]
          exact hpid0
        · exact absurd h (by simp)
    · exact absurd h (by simp)

/-- `exit` by a process keeps the pid of every slot and which slots are UNUSED. -/
theorem exit_kept (k : Kernel) (p : Nat) (me : proc) (status : Int) (k1 : Kernel)
    (hme : k.proc[p]? = some me) (hlive : me.state ≠ procstate.UNUSED)
    (h : exit k p status = some k1) :
    k1.nextpid = k.nextpid ∧ tableKept k.proc k1.proc := by
  have hroot : k.initproc ≠ some p := by
    intro h0
    unfold exit at h
    rw [if_pos h0] at h
    exact absurd h (by simp)
  obtain ⟨k2, hk2, _, hn, _, _, hp, hothers⟩ := exit_spec k p status me hroot hme
  rw [h] at hk2
  simp only [Option.some.injEq] at hk2
  subst hk2
  refine ⟨hn, tableKept_of_getElem? k.proc k1.proc
    (fun j q => if j = p then
        { closeFiles me with
            parent := if me.parent = some p then k.initproc else me.parent,
            xstate := status, state := procstate.ZOMBIE, endtime := k.ticks }
      else
        wakeupSlot (some p)
          (toChan (if me.parent = some p then k.initproc else me.parent)) k.ticks j
          (reparentSlot (some p) p k.initproc k.ticks (hasChild p k.proc) j q)) ?_ ?_⟩
  · intro j
    by_cases hj : j = p
    · subst hj
      rw [hp, hme]
      simp
    · rw [hothers j hj]
      cases k.proc[j]? with
      | none => rfl
      | some q => simp [hj]
  · intro j a ha
    by_cases hj : j = p
    · subst hj
      rw [hme] at ha
      simp only [Option.some.injEq] at ha
      subst ha
      simp only [if_true]
      refine Or.inl ⟨rfl, ?_⟩
      constructor
      · intro h0; exact absurd h0 (by simp)
      · intro h0; exact absurd h0 hlive
    · simp only [if_neg hj]
      exact pidKept_trans _ _ _ (pidKept_reparentSlot _ _ _ _ _ _ _)
        (pidKept_wakeupSlot _ _ _ _ _)

/-- The first part of `sleep` keeps the pid of its caller, a process. -/
theorem sleep_kept (par : Param) (k : Kernel) (p : Nat) (me : proc) (chan : Chan)
    (hme : k.proc[p]? = some me) (hlive : me.state ≠ procstate.UNUSED) :
    (sleep par k p chan).nextpid = k.nextpid ∧ tableKept k.proc (sleep par k p chan).proc := by
  have hs : sleep par k p chan =
      { k with proc := (k.proc.set p
          { me with chan := chan, state := procstate.SLEEPING,
                    cpu_usage := me.cpu_usage + Int.tdiv par.SCHED_PARAM_CPU_USAGE 2 }) } := by
    simp only [sleep, hme]
  rw [hs]
  refine ⟨rfl, tableKept_set _ _ _ (fun a ha => ?_)⟩
  rw [hme] at ha
  simp only [Option.some.injEq] at ha
  subst ha
  refine Or.inl ⟨rfl, ?_⟩
  constructor
  · intro h0; exact absurd h0 (by simp)
  · intro h0; exact absurd h0 hlive

/-- One pass of `wait` by a process keeps the pid of every slot that stays in use. -/
theorem wait_kept (par : Param) (k : Kernel) (p : Nat) (me : proc) (addr : Int)
    (copyout : Int → Bool) (w : WaitResult) (hme : k.proc[p]? = some me)
    (hlive : me.state ≠ procstate.UNUSED) (h : wait par k p addr copyout = some w) :
    (waitState w).nextpid = k.nextpid ∧ tableKept k.proc (waitState w).proc := by
  unfold wait at h
  rw [hme] at h
  simp only at h
  split at h
  · by_cases hc : addr ≠ 0 ∧ copyout addr = false
    · rw [if_pos hc] at h
      simp only [Option.some.injEq] at h
      subst h
      exact ⟨rfl, tableKept_refl _⟩
    · rw [if_neg hc] at h
      simp only [Option.some.injEq] at h
      subst h
      exact ⟨rfl, tableKept_set _ _ _ (fun _ _ => Or.inr rfl)⟩
  · rename_i hk _
    by_cases hc : hk = 0 ∨ me.killed ≠ 0
    · rw [if_pos hc] at h
      simp only [Option.some.injEq] at h
      subst h
      exact ⟨rfl, tableKept_refl _⟩
    · rw [if_neg hc] at h
      simp only [Option.some.injEq] at h
      subst h
      exact sleep_kept par k p me _ hme hlive

/-- One pass of `waitpid` by a process keeps the pid of every slot that stays in use. -/
theorem waitpidPass_kept (par : Param) (k : Kernel) (p : Nat) (me : proc) (pid addr : Int)
    (copyout : Int → Bool) (found : Int) (w : WaitResult) (hme : k.proc[p]? = some me)
    (hlive : me.state ≠ procstate.UNUSED) (h : waitpidPass par k p pid addr copyout found = some w) :
    (waitState w).nextpid = k.nextpid ∧ tableKept k.proc (waitState w).proc := by
  unfold waitpidPass at h
  rw [hme] at h
  simp only at h
  split at h
  · by_cases hc : addr ≠ 0 ∧ copyout addr = false
    · rw [if_pos hc] at h
      simp only [Option.some.injEq] at h
      subst h
      exact ⟨rfl, tableKept_refl _⟩
    · rw [if_neg hc] at h
      simp only [Option.some.injEq] at h
      subst h
      exact ⟨rfl, tableKept_set _ _ _ (fun _ _ => Or.inr rfl)⟩
  · rename_i hk _
    by_cases hc : hk = 0 ∨ me.killed ≠ 0
    · rw [if_pos hc] at h
      simp only [Option.some.injEq] at h
      subst h
      exact ⟨rfl, tableKept_refl _⟩
    · rw [if_neg hc] at h
      simp only [Option.some.injEq] at h
      subst h
      exact sleep_kept par k p me _ hme hlive

/-- `kill` keeps the pid of every slot and which slots are UNUSED. -/
theorem kill_kept (k : Kernel) (pid : Int) :
    (kill k pid).2.nextpid = k.nextpid ∧ tableKept k.proc (kill k pid).2.proc := by
  refine ⟨rfl, killFrom_length pid k.ticks k.proc, fun j a ha => ?_⟩
  rcases killFrom_slot pid k.ticks k.proc j a ha with h | ⟨_, h⟩
  · exact ⟨a, h, pidKept_refl a⟩
  · refine ⟨_, h, ?_⟩
    split_ifs with hs
    · refine Or.inl ⟨rfl, ?_⟩
      simp [hs]
    · exact Or.inl ⟨rfl, Iff.rfl⟩

/-- Every operation keeps the pid invariant and does not decrease `nextpid`. -/
theorem step_pidInv (par : Param) (k k1 : Kernel) (hs : Step par k k1) (hinv : pidInv k) :
    pidInv k1 ∧ k.nextpid ≤ k1.nextpid := by
  cases hs with
  | allocproc o => exact allocproc_pidInv k o hinv
  | fork o p _ r h => exact fork_pidInv k o p k1 r hinv h
  | forkp o p priority _ r h => exact forkp_pidInv k o p priority k1 r hinv h
  | forkf o p faddr _ r h => exact forkf_pidInv k o p faddr k1 r hinv h
  | exit p me status _ hme hlive h =>
    obtain ⟨hn, ht⟩ := exit_kept k p me status k1 hme hlive h
    exact ⟨pidInv_kept k k1 hinv ht (by omega), by omega⟩
  | wait p me addr copyout w hme hlive h =>
    obtain ⟨hn, ht⟩ := wait_kept par k p me addr copyout w hme hlive h
    exact ⟨pidInv_kept k _ hinv ht (by omega), by omega⟩
  | waitpid p me pid addr copyout found w hme hlive h =>
    obtain ⟨hn, ht⟩ := waitpidPass_kept par k p me pid addr copyout found w hme hlive h
    exact ⟨pidInv_kept k _ hinv ht (by omega), by omega⟩
  | kill pid =>
    obtain ⟨hn, ht⟩ := kill_kept k pid
    exact ⟨pidInv_kept k _ hinv ht (by omega), by omega⟩

/-- The pid invariant holds in every reachable state. -/
theorem reachable_pidInv (par : Param) (k : Kernel) (h : Reachable par k) : pidInv k := by
  induction h with
  | init k hpid hfree =>
    refine ⟨by omega, fun q hq hl => absurd (hfree q hq) hl, ?_⟩
    intro i j a b ha _ hal _ _
    exact absurd (hfree a (List.mem_iff_getElem?.2 ⟨i, ha⟩)) hal
  | step k k1 _ hs ih => exact (step_pidInv par k k1 hs ih).1

/-- C29: live pids are unique.  In every state reachable from an initial state (every
slot UNUSED, `nextpid = 1`) through `allocproc`, the fork variants, `exit`, passes of `wait`
and `waitpid` and `kill`, two different slots that are not UNUSED have different pids, the
pid of every slot that is not UNUSED is positive and smaller than `nextpid`, and no
operation decreases `nextpid` (which is at least 1).  Integers are exact, which is the
case of fewer than 2^31 allocations. -/
theorem live_pids_unique (par : Param) (k : Kernel) (h : Reachable par k) :
    (∀ (i j : Nat) (a b : proc), k.proc[i]? = some a → k.proc[j]? = some b → i ≠ j →
        a.state ≠ procstate.UNUSED → b.state ≠ procstate.UNUSED → a.pid ≠ b.pid)
    ∧ (∀ q ∈ k.proc, q.state ≠ procstate.UNUSED → 0 < q.pid ∧ q.pid < k.nextpid)
    ∧ (∀ k1 : Kernel, Step par k k1 → k.nextpid ≤ k1.nextpid)
    ∧ 1 ≤ k.nextpid := by
  obtain ⟨h0, hb, hu⟩ := reachable_pidInv par k h
  refine ⟨fun i j a b ha hb1 hij hal hbl hp => hij (hu i j a b ha hb1 hal hbl hp), hb,
    fun k1 hs => (step_pidInv par k k1 hs ⟨h0, hb, hu⟩).2, by omega⟩

/-- C29 on `bootForked`, reached from `bootTable` by `allocproc` (pid 1, slot 0) and a
`fork` by that process (pid 2, slot 1). -/
theorem live_pids_unique_witness :
    Reachable sampleParam bootForked
    ∧ bootForked.proc.map (fun q => (q.state, q.pid))
        = [(procstate.USED, 1), (procstate.RUNNABLE, 2), (procstate.UNUSED, 0)]
    ∧ bootForked.nextpid = 3
    ∧ (∀ (i j : Nat) (a b : proc), bootForked.proc[i]? = some a →
        bootForked.proc[j]? = some b → i ≠ j →
        a.state ≠ procstate.UNUSED → b.state ≠ procstate.UNUSED → a.pid ≠ b.pid)
    ∧ (∀ q ∈ bootForked.proc, q.state ≠ procstate.UNUSED →
        0 < q.pid ∧ q.pid < bootForked.nextpid)
    ∧ (∀ k1 : Kernel, Step sampleParam bootForked k1 → bootForked.nextpid ≤ k1.nextpid)
    ∧ 1 ≤ bootForked.nextpid :=
  have h : Reachable sampleParam bootForked :=
    Reachable.step _ _
      (Reachable.step _ _ (Reachable.init bootTable rfl (by decide))
        (Step.allocproc bootTable okOracle))
      (Step.fork _ okOracle 0 bootForked 2 rfl)
  ⟨h, rfl, rfl, live_pids_unique sampleParam bootForked h⟩

/-! ### Interactive processes and the rest of the iteration -/

/-- The SJF branch is its scan followed by the code behind the loop, unless the scan
switched to a non-batch process. -/
theorem scheduler_sjf_afterLoop (par : Param) (k : Kernel) :
    scheduler_sjf par k =
      match (sjfScan par k.cpu 0 k.proc sjfInit).1.switched with
      | some i =>
        Dispatch.run { k with proc := (sjfScan par k.cpu 0 k.proc sjfInit).2,
                              cpu := { k.cpu with proc := some i } } i
      | none =>
        sjfAfterLoop { k with proc := (sjfScan par k.cpu 0 k.proc sjfInit).2 }
          (sjfScan par k.cpu 0 k.proc sjfInit).1 := by
  rw [scheduler_sjf_split]
  rfl

/-- The UNIX branch is its scan followed by the code behind the loop, unless the scan
switched to a non-batch process. -/
theorem scheduler_unix_afterLoop (par : Param) (k : Kernel) :
    scheduler_unix par k =
      match (unixScan par k.cpu k.ticks 0 k.proc unixInit).1.switched with
      | some i =>
        Dispatch.run { k with proc := (unixScan par k.cpu k.ticks 0 k.proc unixInit).2,
                              cpu := { k.cpu with proc := some i } } i
      | none =>
        unixAfterLoop { k with proc := (unixScan par k.cpu k.ticks 0 k.proc unixInit).2 }
          (unixScan par k.cpu k.ticks 0 k.proc unixInit).1 := by
  rw [scheduler_unix_split]
  rfl

/-- The SJF scan that switches to a non-batch process is left with `flag = 1`. -/
theorem sjfScan_interactive_flag (par : Param) (c : cpu)
    (hpol : c.sched_policy = par.SCHED_NPREEMPT_SJF) (ps : List proc) (i : Nat) (v : SjfVars)
    (j : Nat) (q : proc) (hq : ps[j]? = some q) (hr : q.state = procstate.RUNNABLE)
    (hb : q.batch_process = 0)
    (hfirst : ∀ r ∈ ps.take j, ¬ (r.state = procstate.RUNNABLE ∧ r.batch_process = 0)) :
    (sjfScan par c i ps v).1.flag = 1 := by
  induction ps generalizing i v j with
  | nil => simp at hq
  | cons a ps ih =>
    cases j with
    | zero =>
      simp only [List.getElem?_cons_zero, Option.some.injEq] at hq
      subst hq
      rw [sjfScan]
      simp [hr, hb]
    | succ j =>
      simp only [List.getElem?_cons_succ] at hq
      have ha : ¬ (a.state = procstate.RUNNABLE ∧ a.batch_process = 0) := hfirst a (by simp)
      have hf1 : ∀ r ∈ ps.take j, ¬ (r.state = procstate.RUNNABLE ∧ r.batch_process = 0) :=
        fun r hr1 => hfirst r (by simp [hr1])
      by_cases har : a.state = procstate.RUNNABLE
      · have hab : a.batch_process ≠ 0 := fun h => ha ⟨har, h⟩
        rw [sjfScan_cons_batch par c hpol a ps i v har hab]
        exact ih (i + 1) _ j hq hf1
      · rw [sjfScan_cons_skip par c hpol a ps i v har]
        exact ih (i + 1) v j hq hf1

/-- The UNIX scan that switches to a non-batch process is left with `flag = 1`. -/
theorem unixScan_interactive_flag (par : Param) (c : cpu) (t : Int)
    (hpol : c.sched_policy = par.SCHED_PREEMPT_UNIX) (ps : List proc) (i : Nat)
    (v : UnixVars) (j : Nat) (q : proc) (hq : ps[j]? = some q)
    (hr : q.state = procstate.RUNNABLE) (hb : q.batch_process = 0)
    (hfirst : ∀ r ∈ ps.take j, ¬ (r.state = procstate.RUNNABLE ∧ r.batch_process = 0)) :
    (unixScan par c t i ps v).1.flag = 1 := by
  induction ps generalizing i v j with
  | nil => simp at hq
  | cons a ps ih =>
    cases j with
    | zero =>
      simp only [List.getElem?_cons_zero, Option.some.injEq] at hq
      subst hq
      rw [unixScan]
      simp [hr, hb]
    | succ j =>
      simp only [List.getElem?_cons_succ] at hq
      have ha : ¬ (a.state = procstate.RUNNABLE ∧ a.batch_process = 0) := hfirst a (by simp)
      have hf1 : ∀ r ∈ ps.take j, ¬ (r.state = procstate.RUNNABLE ∧ r.batch_process = 0) :=
        fun r hr1 => hfirst r (by simp [hr1])
      by_cases har : a.state = procstate.RUNNABLE
      · have hab : a.batch_process ≠ 0 := fun h => ha ⟨har, h⟩
        rw [unixScan_cons_batch par c t hpol a ps i v har hab]
        exact ih (i + 1) _ j hq hf1
      · rw [unixScan_cons_skip par c t hpol a ps i v har]
        exact ih (i + 1) v j hq hf1

/-- A scan on a core whose policy is no longer SJF is left after its first slot with
`flag = 1`, unless that slot holds a RUNNABLE non-batch process. -/
theorem sjfScan_policy_left (par : Param) (c : cpu)
    (hpol : c.sched_policy ≠ par.SCHED_NPREEMPT_SJF) (p : proc) (ps : List proc) (i : Nat)
    (v : SjfVars) : (sjfScan par c i (p :: ps) v).1.flag = 1 := by
  rw [sjfScan]
  split_ifs <;> rfl

/-- A scan on a core whose policy is no longer UNIX is left after its first slot with
`flag = 1`. -/
theorem unixScan_policy_left (par : Param) (c : cpu) (t : Int)
    (hpol : c.sched_policy ≠ par.SCHED_PREEMPT_UNIX) (p : proc) (ps : List proc) (i : Nat)
    (v : UnixVars) : (unixScan par c t i (p :: ps) v).1.flag = 1 := by
  rw [unixScan]
  split_ifs <;> rfl

/-- When the non-batch process that the SJF or UNIX scan switched to gives the processor
back, in whatever state, the iteration ends without a dispatch. -/
theorem interactive_resume (par : Param) (k : Kernel) (j : Nat) (q : proc)
    (hq : k.proc[j]? = some q) (hr : q.state = procstate.RUNNABLE)
    (hb : q.batch_process = 0)
    (hfirst : ∀ r ∈ k.proc.take j, ¬ (r.state = procstate.RUNNABLE ∧ r.batch_process = 0))
    (k2 : Kernel) :
    (k.cpu.sched_policy = par.SCHED_NPREEMPT_SJF →
        sjfResume par k k2 = Dispatch.idle (switchedBack k2))
    ∧ (k.cpu.sched_policy = par.SCHED_PREEMPT_UNIX →
        unixResume par k k2 = Dispatch.idle (switchedBack k2)) := by
  constructor
  · intro hs
    have hf := sjfScan_interactive_flag par k.cpu hs k.proc 0 sjfInit j q hq hr hb hfirst
    unfold sjfResume sjfAfterLoop
    rw [if_pos (Or.inl (by rw [hf]; decide))]
  · intro hu
    have hf := unixScan_interactive_flag par k.cpu k.ticks hu k.proc 0 unixInit j q hq hr hb
      hfirst
    unfold unixResume unixAfterLoop
    rw [if_pos (Or.inl (by rw [hf]; decide))]

/-- C17: interactive processes preempt batch selection.  Under the SJF and the UNIX
policies, on every table with a RUNNABLE non-batch slot, one scheduler iteration switches
to the lowest-indexed RUNNABLE non-batch slot `j`, which becomes RUNNING and the core's
current process; every other slot keeps its state (no batch process is dispatched) and,
apart from the usage decay of the UNIX scan in the slots before `j`, its contents.  When
that process gives the processor back, in whatever state `k2`, the scan loop is left with
`flag = 1` and the iteration ends at `if(flag || found == 0) continue;` without another
dispatch, whatever batch candidate the scan had selected. -/
theorem interactive_preempts_batch (par : Param) (k : Kernel) (j : Nat) (q : proc)
    (hpol : k.cpu.sched_policy = par.SCHED_NPREEMPT_SJF
      ∨ k.cpu.sched_policy = par.SCHED_PREEMPT_UNIX)
    (hfcfs : k.cpu.sched_policy ≠ par.SCHED_NPREEMPT_FCFS)
    (hrr : k.cpu.sched_policy ≠ par.SCHED_PREEMPT_RR)
    (hq : k.proc[j]? = some q) (hr : q.state = procstate.RUNNABLE)
    (hb : q.batch_process = 0)
    (hfirst : ∀ r ∈ k.proc.take j, ¬ (r.state = procstate.RUNNABLE ∧ r.batch_process = 0)) :
    (∃ k1 : Kernel, scheduler par k = Dispatch.run k1 j
      ∧ k1.cpu = { k.cpu with proc := some j }
      ∧ k1.proc[j]? = some { q with state := procstate.RUNNING }
      ∧ k1.proc.length = k.proc.length
      ∧ (∀ (n : Nat) (r : proc), n ≠ j → k.proc[n]? = some r →
          ∃ r1 : proc, k1.proc[n]? = some r1 ∧ r1.state = r.state
            ∧ (r1 = r ∨ (k.cpu.sched_policy = par.SCHED_PREEMPT_UNIX ∧ n < j
                          ∧ r.state = procstate.RUNNABLE ∧ r.batch_process ≠ 0
                          ∧ r1 = unixDecay r))))
    ∧ (∀ k2 : Kernel,
        (k.cpu.sched_policy = par.SCHED_NPREEMPT_SJF →
          sjfResume par k k2 = Dispatch.idle (switchedBack k2))
        ∧ (k.cpu.sched_policy = par.SCHED_PREEMPT_UNIX →
          unixResume par k k2 = Dispatch.idle (switchedBack k2))) := by
  refine ⟨?_, fun k2 => interactive_resume par k j q hq hr hb hfirst k2⟩
  have hp1 : ¬ (k.cpu.sched_policy = par.SCHED_NPREEMPT_FCFS
      ∨ k.cpu.sched_policy = par.SCHED_PREEMPT_RR) := by
    rintro (h | h)
    · exact hfcfs h
    · exact hrr h
  have hlt := lt_of_getElem?_some hq
  by_cases hs : k.cpu.sched_policy = par.SCHED_NPREEMPT_SJF
  · obtain ⟨h1, h2⟩ := sjfScan_interactive par k.cpu hs k.proc 0 sjfInit j q hq hr hb hfirst
    rw [Nat.zero_add] at h1
    refine ⟨{ k with proc := k.proc.set j { q with state := procstate.RUNNING },
                     cpu := { k.cpu with proc := some j } }, ?_, rfl, ?_, ?_, ?_⟩
    · unfold scheduler
      rw [if_neg hp1, if_pos hs]
      unfold scheduler_sjf
      simp only [h1, h2]
    · exact List.getElem?_set_self hlt
    · simp
    · intro n r hn hr1
      exact ⟨r, by simp only; rw [List.getElem?_set_ne (Ne.symm hn)]; exact hr1, rfl,
        Or.inl rfl⟩
  · have hu : k.cpu.sched_policy = par.SCHED_PREEMPT_UNIX := by
      rcases hpol with h | h
      · exact absurd h hs
      · exact h
    obtain ⟨h1, h2⟩ :=
      unixScan_interactive par k.cpu k.ticks hu k.proc 0 unixInit j q hq hr hb hfirst
    rw [Nat.zero_add] at h1
    have hlen : ((k.proc.take j).map
        (fun r => if r.state = procstate.RUNNABLE then unixDecay r else r)).length = j := by
      rw [List.length_map, List.length_take]
      omega
    refine ⟨{ k with proc := ((k.proc.take j).map
                  (fun r => if r.state = procstate.RUNNABLE then unixDecay r else r)
                  ++ { q with state := procstate.RUNNING } :: k.proc.drop (j + 1)),
                     cpu := { k.cpu with proc := some j } }, ?_, rfl, ?_, ?_, ?_⟩
    · unfold scheduler
      rw [if_neg hp1, if_neg hs, if_pos hu]
      unfold scheduler_unix
      simp only [h1, h2]
    · simp only
      rw [List.getElem?_append_right (by omega), hlen]
      simp
    · simp only [List.length_append, hlen, List.length_cons, List.length_drop]
      omega
    · intro n r hn hr1
      simp only
      by_cases hnj : n < j
      · rw [List.getElem?_append_left (by omega), List.getElem?_map, List.getElem?_take,
          if_pos hnj, hr1]
        simp only [Option.map_some']
        by_cases hrr1 : r.state = procstate.RUNNABLE
        · have hrb : r.batch_process ≠ 0 := by
            intro h0
            apply hfirst r _ ⟨hrr1, h0⟩
            apply List.mem_iff_getElem?.2
            exact ⟨n, by rw [List.getElem?_take, if_pos hnj]; exact hr1⟩
          refine ⟨unixDecay r, by simp [hrr1], (unixDecay_frame r).1,
            Or.inr ⟨hu, hnj, hrr1, hrb, rfl⟩⟩
        · exact ⟨r, by simp [hrr1], rfl, Or.inl rfl⟩
      · have hgt : j < n := by omega
        refine ⟨r, ?_, rfl, Or.inl rfl⟩
        rw [List.getElem?_append_right (by omega), hlen]
        obtain ⟨m, rfl⟩ : ∃ m, n = j + 1 + m := ⟨n - j - 1, by omega⟩
        have h3 : j + 1 + m - j = m + 1 := by omega
        rw [h3, List.getElem?_cons_succ, List.getElem?_drop]
        exact hr1

/-- C17 on `mixedSample` (UNIX policy) and on the same table under SJF: the non-batch
process in slot 4 is dispatched although the batch processes in slots 1 and 2 are
RUNNABLE, and when it yields the iteration ends without a dispatch. -/
theorem interactive_preempts_batch_witness :
    (∃ k1 : Kernel, scheduler sampleParam mixedSample = Dispatch.run k1 4
      ∧ k1.proc.map (fun r => (r.state, r.cpu_usage))
          = [(procstate.SLEEPING, 0), (procstate.RUNNABLE, 4), (procstate.RUNNABLE, 0),
             (procstate.SLEEPING, 0), (procstate.RUNNING, 0)]
      ∧ (unixScan sampleParam mixedSample.cpu mixedSample.ticks 0 mixedSample.proc
            unixInit).1
          = { min_priority := 0, min_wait_time := 30, p_to_sched := some 2, flag := 1,
              found := 1, switched := some 4 }
      ∧ unixResume sampleParam mixedSample (yield sampleParam k1 4)
          = Dispatch.idle (switchedBack (yield sampleParam k1 4)))
    ∧ ((∃ k1 : Kernel,
        scheduler sampleParam (onCore mixedSample (zeroCpu 1)) = Dispatch.run k1 4
        ∧ k1.cpu = { (onCore mixedSample (zeroCpu 1)).cpu with proc := some 4 }
        ∧ k1.proc[4]? = some { zeroProc with state := procstate.RUNNING, pid := 5,
                                             parent := some 0, priority := 90,
                                             next_burst_len := 50, wait_st_time := 25 }
        ∧ k1.proc.length = (onCore mixedSample (zeroCpu 1)).proc.length
        ∧ (∀ (n : Nat) (r : proc), n ≠ 4 →
            (onCore mixedSample (zeroCpu 1)).proc[n]? = some r →
            ∃ r1 : proc, k1.proc[n]? = some r1 ∧ r1.state = r.state
              ∧ (r1 = r ∨ ((onCore mixedSample (zeroCpu 1)).cpu.sched_policy
                              = sampleParam.SCHED_PREEMPT_UNIX ∧ n < 4
                            ∧ r.state = procstate.RUNNABLE ∧ r.batch_process ≠ 0
                            ∧ r1 = unixDecay r))))
      ∧ (∀ k2 : Kernel,
          ((onCore mixedSample (zeroCpu 1)).cpu.sched_policy
              = sampleParam.SCHED_NPREEMPT_SJF →
            sjfResume sampleParam (onCore mixedSample (zeroCpu 1)) k2
              = Dispatch.idle (switchedBack k2))
          ∧ ((onCore mixedSample (zeroCpu 1)).cpu.sched_policy
              = sampleParam.SCHED_PREEMPT_UNIX →
            unixResume sampleParam (onCore mixedSample (zeroCpu 1)) k2
              = Dispatch.idle (switchedBack k2)))) :=
  ⟨⟨_, rfl, rfl, rfl, rfl⟩,
   interactive_preempts_batch sampleParam (onCore mixedSample (zeroCpu 1)) 4 _
     (Or.inl rfl) (by decide) (by decide) rfl rfl rfl (by decide)⟩

/-! ### freeproc and the next allocation -/

/-- What a successful `allocproc` makes of a slot released by `freeproc`: the scheduling
fields are set anew, the file table and the working directory are not written. -/
theorem freeproc_then_allocproc (p : proc) (k : Kernel) (o : Oracle) (i : Nat)
    (tf : trapframe) (pt : Nat) (hi : k.proc[i]? = some (freeproc p))
    (hfirst : ∀ r ∈ k.proc.take i, r.state ≠ procstate.UNUSED)
    (hk : o.kalloc = some tf) (hp : o.proc_pagetable = some pt) :
    ∃ k1 : Kernel, ∃ np : proc, allocproc k o = (k1, some i) ∧ k1.proc[i]? = some np
      ∧ np.priority = -1000000 ∧ np.next_burst_len = 0 ∧ np.batch_process = 0
      ∧ np.cpu_usage = 0 ∧ np.prev_cpu_usage = 0 ∧ np.wait_time = 0
      ∧ np.wait_st_time = -1 ∧ np.prev_burst_start = -1 ∧ np.ctime = k.ticks
      ∧ np.stime = -1 ∧ np.endtime = -1
      ∧ np.ofile = p.ofile ∧ np.cwd = p.cwd := by
  have key : ∀ u : proc, k.proc[i]? = some u → u.state = procstate.UNUSED →
      ∃ k1 : Kernel, ∃ np : proc, allocproc k o = (k1, some i) ∧ k1.proc[i]? = some np
        ∧ np.priority = -1000000 ∧ np.next_burst_len = 0 ∧ np.batch_process = 0
        ∧ np.cpu_usage = 0 ∧ np.prev_cpu_usage = 0 ∧ np.wait_time = 0
        ∧ np.wait_st_time = -1 ∧ np.prev_burst_start = -1 ∧ np.ctime = k.ticks
        ∧ np.stime = -1 ∧ np.endtime = -1
        ∧ np.ofile = u.ofile ∧ np.cwd = u.cwd := by
    intro u hu hus
    have hfind : findUnused 0 k.proc = some i := by
      have := findUnused_first k.proc 0 i u hu hus hfirst
      simpa using this
    have hlt := lt_of_getElem?_some hu
    have h := allocproc_found k o i u hfind hu
    rw [hk] at h
    simp only [hp] at h
    refine ⟨_, { u with pid := k.nextpid, state := procstate.USED,
                        priority := -1000000, next_burst_len := 0, batch_process := 0,
                        cpu_usage := 0, prev_cpu_usage := 0, wait_time := 0,
                        wait_st_time := -1, prev_burst_start := -1,
                        trapframe := some tf, pagetable := some pt,
                        ctime := k.ticks, stime := -1, endtime := -1 }, h, ?_, rfl, rfl,
      rfl, rfl, rfl, rfl, rfl, rfl, rfl, rfl, rfl, rfl, rfl⟩
    simp [hlt]
  exact key (freeproc p) hi rfl

/-- C14, amended: for every slot contents, after `freeproc` the state is UNUSED, pid, sz,
killed and xstate are 0, parent, chan, the trapframe and the page table are null and the
name is empty; the scheduling-accounting fields priority, next_burst_len, batch_process,
cpu_usage, prev_cpu_usage, wait_time, wait_st_time, prev_burst_start, ctime, stime and
endtime, the file table and the working directory are left as they were.  When the released
slot is the one a successful `allocproc` returns next, `allocproc` sets the eleven
scheduling-accounting fields anew (priority -1000000, next_burst_len, batch_process,
cpu_usage, prev_cpu_usage and wait_time 0, wait_st_time and prev_burst_start -1, ctime the
current tick, stime and endtime -1) and leaves the file table and the working directory as
the released process left them. -/
theorem freeproc_spec (p : proc) :
    ((freeproc p).state = procstate.UNUSED ∧ (freeproc p).pid = 0 ∧ (freeproc p).sz = 0
    ∧ (freeproc p).killed = 0 ∧ (freeproc p).xstate = 0 ∧ (freeproc p).parent = none
    ∧ (freeproc p).chan = Chan.null ∧ (freeproc p).trapframe = none
    ∧ (freeproc p).pagetable = none ∧ (freeproc p).name = ""
    ∧ (freeproc p).priority = p.priority
    ∧ (freeproc p).next_burst_len = p.next_burst_len
    ∧ (freeproc p).batch_process = p.batch_process
    ∧ (freeproc p).cpu_usage = p.cpu_usage
    ∧ (freeproc p).prev_cpu_usage = p.prev_cpu_usage
    ∧ (freeproc p).wait_time = p.wait_time
    ∧ (freeproc p).wait_st_time = p.wait_st_time
    ∧ (freeproc p).prev_burst_start = p.prev_burst_start
    ∧ (freeproc p).ctime = p.ctime ∧ (freeproc p).stime = p.stime
    ∧ (freeproc p).endtime = p.endtime
    ∧ (freeproc p).ofile = p.ofile ∧ (freeproc p).cwd = p.cwd)
    ∧ (∀ (k : Kernel) (o : Oracle) (i : Nat) (tf : trapframe) (pt : Nat),
        k.proc[i]? = some (freeproc p) →
        (∀ r ∈ k.proc.take i, r.state ≠ procstate.UNUSED) →
        o.kalloc = some tf → o.proc_pagetable = some pt →
        ∃ k1 : Kernel, ∃ np : proc, allocproc k o = (k1, some i) ∧ k1.proc[i]? = some np
          ∧ np.priority = -1000000 ∧ np.next_burst_len = 0 ∧ np.batch_process = 0
          ∧ np.cpu_usage = 0 ∧ np.prev_cpu_usage = 0 ∧ np.wait_time = 0
          ∧ np.wait_st_time = -1 ∧ np.prev_burst_start = -1 ∧ np.ctime = k.ticks
          ∧ np.stime = -1 ∧ np.endtime = -1
          ∧ np.ofile = p.ofile ∧ np.cwd = p.cwd) :=
  ⟨by simp [freeproc],
   fun k o i tf pt hi hfirst hk hp => freeproc_then_allocproc p k o i tf pt hi hfirst hk hp⟩


/-- C14 on `recycled`, whose slot 1 was released after the process of `usedSlot`: the next
`allocproc` returns slot 1 with fresh scheduling fields and with the file table `[some 1]`
and the working directory `some 4` of the released process. -/
theorem freeproc_spec_witness :
    recycled.proc[1]? = some (freeproc usedSlot)
    ∧ (∀ r ∈ recycled.proc.take 1, r.state ≠ procstate.UNUSED)
    ∧ (allocproc recycled okOracle).1.proc.map
          (fun q => (q.state, q.priority, q.cpu_usage, q.ofile, q.cwd))
        = [(procstate.SLEEPING, 0, 0, [], none),
           (procstate.USED, -1000000, 0, [some 1], some 4)]
    ∧ ∃ k1 : Kernel, ∃ np : proc, allocproc recycled okOracle = (k1, some 1)
        ∧ k1.proc[1]? = some np
        ∧ np.priority = -1000000 ∧ np.next_burst_len = 0 ∧ np.batch_process = 0
        ∧ np.cpu_usage = 0 ∧ np.prev_cpu_usage = 0 ∧ np.wait_time = 0
        ∧ np.wait_st_time = -1 ∧ np.prev_burst_start = -1 ∧ np.ctime = recycled.ticks
        ∧ np.stime = -1 ∧ np.endtime = -1
        ∧ np.ofile = usedSlot.ofile ∧ np.cwd = usedSlot.cwd :=
  ⟨rfl, by decide, rfl,
   (freeproc_spec usedSlot).2 recycled okOracle 1 _ 1 rfl (by decide) rfl rfl⟩

end CS330
